import Mathlib

/-!
# Proof-of-work retargeting core of litebench (`src/pow.cpp`, `src/chainparams.cpp`)

A shallow embedding of the difficulty retargeting functions `testcase1` .. `testcase6`,
the dispatcher `GetNextWorkRequired` and the validator `CheckProofOfWork`.

Conventions of the embedding.

* A `const CBlockIndex*` is a list of block-index records: the head is the record pointed
  to, the tail is what `pprev` points to, and the empty list is the null pointer.
* Heights, compact values and 256-bit targets are natural numbers; times and the
  consensus time parameters are (signed 64-bit) integers, taken without wrap-around
  because signed overflow is undefined in the source language.
* A run of a function either returns a compact value or stops with a `Fault`
  (failed `assert`, null dereference, division by zero, falling off the end of a
  function that must return a value).
* The class `arith_uint256` (header `arith_uint256.h`) is not part of the sources; its
  operations are modelled from the specification of the compact target.
-/

set_option maxRecDepth 100000

namespace LiteBench

/-! ## Outcomes -/

/-- Ways in which a run of the C++ code stops without returning a value. -/
inductive Fault where
  /-- an `assert` failed -/
  | assertion
  /-- a null `CBlockIndex` pointer was dereferenced -/
  | nullDeref
  /-- a division or remainder had a zero divisor -/
  | divByZero
  /-- control reached the end of a value-returning function without a `return` -/
  | noReturn
  deriving DecidableEq, Repr

deriving instance DecidableEq for Except

/-- Outcome of a function returning `unsigned int`. -/
abbrev Res := Except Fault Nat

/-! ## The 256-bit arithmetic layer -/

/-- Largest value of a 256-bit unsigned integer. -/
def maxU256 : Nat := 2 ^ 256 - 1

/-- Modelled from the spec: `UintToArith256` (header `arith_uint256.h`, absent) reads a
256-bit blob as a 256-bit unsigned integer; a natural number is cut to its low 256 bits. -/
def UintToArith256 (x : Nat) : Nat := x % 2 ^ 256

/-- Modelled from the spec: the arithmetic of `arith_uint256` (absent) saturates at
`2^256 - 1` ("256-bit unsigned integer with saturating shift, multiply, divide"). -/
def sat256 (n : Nat) : Nat := min n maxU256

/-- Modelled from the spec: `mul_u64`, the operator `*=` of `arith_uint256` (absent),
saturating at `2^256 - 1`. -/
def mul256 (a k : Nat) : Nat := sat256 (a * k)

/-- Modelled from the spec: `shl`, the operator `<<=` of `arith_uint256` (absent),
saturating at `2^256 - 1`. -/
def shl256 (a n : Nat) : Nat := sat256 (a <<< n)

/-- Modelled from the spec: `shr`, the operator `>>=` of `arith_uint256` (absent). -/
def shr256 (a n : Nat) : Nat := a >>> n

/-- Modelled from the spec: addition of `arith_uint256` (absent), saturating at
`2^256 - 1`. -/
def add256 (a b : Nat) : Nat := sat256 (a + b)

/-- Modelled from the spec: `div_u64`, the operator `/=` of `arith_uint256` (absent);
"division by zero is forbidden and must fail loudly". -/
def div256 (a b : Nat) : Except Fault Nat :=
  if b = 0 then .error .divByZero else .ok (a / b)

/-- Conversion of a signed 64-bit value to the unsigned 64-bit operand of the 256-bit
operators (the usual integral conversion, modulo `2^64`). -/
def toU64 (x : Int) : Nat := (x % 2 ^ 64).toNat

/-- Conversion of an unsigned 64-bit value to a signed 64-bit variable (two's
complement). -/
def toI64 (n : Nat) : Int :=
  if n % 2 ^ 64 < 2 ^ 63 then ((n % 2 ^ 64 : Nat) : Int) else ((n % 2 ^ 64 : Nat) : Int) - 2 ^ 64

/-- Number of binary digits of the low `fuel` halvings of `n`. -/
def bitsAux : Nat → Nat → Nat
  | 0, _ => 0
  | fuel + 1, n => if n = 0 then 0 else bitsAux fuel (n / 2) + 1

/-- Modelled from the spec: `bitlen`, the method `bits()` of `arith_uint256` (absent):
position of the highest set bit plus one, zero for zero. -/
def bits (T : Nat) : Nat := bitsAux 256 T

/-- Result of decoding a compact value. -/
structure Decoded where
  /-- the decoded 256-bit target -/
  T : Nat
  /-- the sign flag -/
  negative : Bool
  /-- the overflow flag -/
  overflow : Bool
  deriving DecidableEq, Repr

/-- Modelled from the spec: `compact_decode`, the method `SetCompact` of `arith_uint256`
(absent). `size = (nBits >> 24) & 0xff`, `word = nBits & 0x007fffff`,
`sign = (nBits >> 23) & 1`; the target is `word >> 8*(3-size)` when `size ≤ 3` and
`word << 8*(size-3)` otherwise; overflow iff `word ≠ 0` and `size > 34`, or `size > 33`
and `word > 0xff`, or `size > 32` and `word > 0xffff`; negative iff `word ≠ 0` and
`sign = 1`. -/
def SetCompact (nBits : Nat) : Decoded :=
  let size := (nBits >>> 24) &&& 0xff
  let word := nBits &&& 0x007fffff
  let sign := (nBits >>> 23) &&& 1
  { T := if size ≤ 3 then shr256 word (8 * (3 - size)) else shl256 word (8 * (size - 3))
    negative := decide (word ≠ 0) && decide (sign = 1)
    overflow := decide (word ≠ 0) &&
      (decide (size > 34) || (decide (size > 33) && decide (word > 0xff)) ||
        (decide (size > 32) && decide (word > 0xffff))) }

/-- Modelled from the spec: `compact_encode`, the method `GetCompact` of `arith_uint256`
(absent). `size = ⌈bitlen(T)/8⌉`; `word = T >> 8*(size-3)` if `size > 3`, else
`T << 8*(3-size)`; if bit 23 of `word` is set, `word` is shifted right by 8 and `size`
incremented; the result is `(size << 24) | (word & 0x007fffff)`. -/
def GetCompact (T : Nat) : Nat :=
  let size := (bits T + 7) / 8
  let word := if size > 3 then T >>> (8 * (size - 3)) else T <<< (8 * (3 - size))
  let hi := decide (word &&& 0x00800000 ≠ 0)
  let word1 := if hi then word >>> 8 else word
  let size1 := if hi then size + 1 else size
  (size1 <<< 24) ||| (word1 &&& 0x007fffff)

/-! ## Consensus parameters and the header index -/

/-- The fields of `Consensus::Params` read by `pow.cpp`. -/
structure Params where
  /-- `powLimit`, a 256-bit value -/
  powLimit : Nat
  /-- `nPowTargetSpacing`, seconds -/
  nPowTargetSpacing : Int
  /-- `nPowTargetTimespan`, seconds -/
  nPowTargetTimespan : Int
  /-- `fPowAllowMinDifficultyBlocks` -/
  fPowAllowMinDifficultyBlocks : Bool
  /-- `fPowNoRetargeting` -/
  fPowNoRetargeting : Bool
  deriving DecidableEq, Repr

/-- The consensus parameters set by `CMainParams` in `chainparams.cpp` (lines 55-59);
`2.5 * 60` is converted to the integer 150. -/
def mainParams : Params :=
  { powLimit := 0x0000fffff0000000000000000000000000000000000000000000000000000000
    nPowTargetSpacing := 150
    nPowTargetTimespan := 600
    fPowAllowMinDifficultyBlocks := false
    fPowNoRetargeting := false }

/-- The spec's invariant of a parameter record: `pow_target_timespan ≥ pow_target_spacing
> 0` and `pow_limit` a positive 256-bit value. -/
def ValidParams (p : Params) : Prop :=
  0 < p.nPowTargetSpacing ∧ p.nPowTargetSpacing ≤ p.nPowTargetTimespan ∧
    0 < p.powLimit ∧ p.powLimit < 2 ^ 256

instance (p : Params) : Decidable (ValidParams p) := by
  unfold ValidParams; infer_instance

/-- The fields of a `CBlockIndex` record read by `pow.cpp` (the link `pprev` is the tail
of the list holding the record). -/
structure BlockIndex where
  /-- `nHeight` -/
  nHeight : Nat
  /-- `nTime`, as returned by `GetBlockTime()` -/
  nTime : Int
  /-- `nBits` -/
  nBits : Nat
  deriving DecidableEq, Repr

/-- A `const CBlockIndex*`: the record pointed to followed by its predecessors, or the
empty list for the null pointer. -/
abbrev CBlockIndex := List BlockIndex

/-- The field of the candidate `CBlockHeader` read by `pow.cpp`. -/
structure CBlockHeader where
  /-- `nTime`, as returned by `GetBlockTime()` -/
  nTime : Int
  deriving DecidableEq, Repr

/-- `Consensus::Params::DifficultyAdjustmentInterval()`:
`nPowTargetTimespan / nPowTargetSpacing` in signed 64-bit (truncating) division. -/
def DifficultyAdjustmentInterval (params : Params) : Except Fault Int :=
  if params.nPowTargetSpacing = 0 then .error .divByZero
  else .ok (params.nPowTargetTimespan.tdiv params.nPowTargetSpacing)

/-- The C++ remainder `a % b` on signed integers. -/
def cmod (a b : Int) : Except Fault Int :=
  if b = 0 then .error .divByZero else .ok (a.tmod b)

/-! ## The validator -/

/-- `CheckProofOfWork` (pow.cpp, lines 558-575). -/
def CheckProofOfWork (hash nBits : Nat) (params : Params) : Bool :=
  let d := SetCompact nBits
  let bnTarget := d.T
  -- Check range
  if d.negative || decide (bnTarget = 0) || d.overflow ||
      decide (bnTarget > UintToArith256 params.powLimit) then false
  -- Check proof of work matches claimed amount
  else if UintToArith256 hash > bnTarget then false
  else true

/-! ## Algorithm 1: standard bitcoin/litecoin retarget -/

/-- Clamp written as the source writes it: `if (x < lo) x = lo; if (x > hi) x = hi;`. -/
def clampSeq (x lo hi : Int) : Int :=
  let x1 := if x < lo then lo else x
  if x1 > hi then hi else x1

/-- `testcase1_ext` (pow.cpp, lines 63-94). -/
def testcase1_ext (pindexLast : CBlockIndex) (nFirstBlockTime : Int) (params : Params) : Res :=
  match pindexLast with
  | [] => .error .nullDeref
  | last :: _ =>
    if params.fPowNoRetargeting then .ok last.nBits
    else
      -- Limit adjustment step
      let nActualTimespan := last.nTime - nFirstBlockTime
      let nActualTimespan := clampSeq nActualTimespan
        (params.nPowTargetTimespan.tdiv 4) (params.nPowTargetTimespan * 4)
      -- Retarget
      let bnNew := (SetCompact last.nBits).T
      let bnPowLimit := UintToArith256 params.powLimit
      -- `bits()` is unsigned: `bnPowLimit.bits() - 1` wraps modulo 2^32
      let fShift := decide (bits bnNew > (bits bnPowLimit + 2 ^ 32 - 1) % 2 ^ 32)
      let bnNew := if fShift then shr256 bnNew 1 else bnNew
      let bnNew := mul256 bnNew (toU64 nActualTimespan)
      match div256 bnNew (toU64 params.nPowTargetTimespan) with
      | .error e => .error e
      | .ok bnNew =>
        let bnNew := if fShift then shl256 bnNew 1 else bnNew
        let bnNew := if bnNew > bnPowLimit then bnPowLimit else bnNew
        .ok (GetCompact bnNew)

/-- The loop of lines 37-40 of pow.cpp:
`while (pindex->pprev && pindex->nHeight % I != 0 && pindex->nBits == nProofOfWorkLimit)
pindex = pindex->pprev; return pindex->nBits;`, started at the record `pindex` whose
predecessors are the second list. -/
def lastNonMinDifficulty (I : Int) (nProofOfWorkLimit : Nat) :
    BlockIndex → CBlockIndex → Res
  | pindex, [] => .ok pindex.nBits
  | pindex, p :: rest =>
    match cmod (pindex.nHeight : Int) I with
    | .error e => .error e
    | .ok r =>
      if r ≠ 0 ∧ pindex.nBits = nProofOfWorkLimit then
        lastNonMinDifficulty I nProofOfWorkLimit p rest
      else .ok pindex.nBits

/-- Value of `blockstogoback` (lines 49-51 of pow.cpp): `I - 1` at the first retarget,
`I` otherwise. -/
def blocksToGoBack (nHeight : Nat) (I : Int) : Int :=
  if ((nHeight : Int) + 1) ≠ I then I else I - 1

/-- The walk `for (int i = 0; pindexFirst && i < blockstogoback; i++)
pindexFirst = pindexFirst->pprev;`: the pointer reached, null when the chain is
exhausted; a non-positive bound leaves the pointer where it is. -/
def goBack (pindex : CBlockIndex) (blockstogoback : Int) : CBlockIndex :=
  pindex.drop blockstogoback.toNat

/-- `testcase1` (pow.cpp, lines 19-61). -/
def testcase1 (pindexLast : CBlockIndex) (pblock : CBlockHeader) (params : Params) : Res :=
  match pindexLast with
  | [] => .error .assertion
  | last :: prev =>
    let nProofOfWorkLimit := GetCompact (UintToArith256 params.powLimit)
    match DifficultyAdjustmentInterval params with
    | .error e => .error e
    | .ok I =>
      match cmod ((last.nHeight : Int) + 1) I with
      | .error e => .error e
      | .ok r =>
        -- Only change once per difficulty adjustment interval
        if r ≠ 0 then
          if params.fPowAllowMinDifficultyBlocks then
            if pblock.nTime > last.nTime + params.nPowTargetSpacing * 2 then
              .ok nProofOfWorkLimit
            else
              -- Return the last non-special-min-difficulty-rules-block
              lastNonMinDifficulty I nProofOfWorkLimit last prev
          else .ok last.nBits
        else
          -- Go back the full period unless it's the first retarget after genesis
          match goBack (last :: prev) (blocksToGoBack last.nHeight I) with
          | [] => .error .assertion
          | first :: _ => testcase1_ext (last :: prev) first.nTime params

/-! ## Algorithm 2: DarkGravityWave v3 -/

/-- The averaging loop of `testcase2` (lines 128-141 of pow.cpp) with `k` iterations left,
so that `nCountBlocks = 24 - k + 1` in the iteration run first; it returns the final
`bnPastTargetAvg` and the record `pindex` ends at. -/
def dgwLoop : Nat → Nat → BlockIndex → CBlockIndex → Except Fault (Nat × BlockIndex)
  | 0, avg, pindex, _ => .ok (avg, pindex)
  | k + 1, avg, pindex, pprev =>
    let nCountBlocks := 24 - k
    let bnTarget := (SetCompact pindex.nBits).T
    let avg1 :=
      if nCountBlocks = 1 then bnTarget
      -- NOTE: that's not an average really...
      else (add256 (mul256 avg nCountBlocks) bnTarget) / (nCountBlocks + 1)
    if nCountBlocks ≠ 24 then
      match pprev with
      | [] => .error .assertion
      | p :: rest => dgwLoop k avg1 p rest
    else dgwLoop k avg1 pindex pprev

/-- `testcase2` (pow.cpp, lines 100-163). -/
def testcase2 (pindexLast : CBlockIndex) (pblock : CBlockHeader) (params : Params) : Res :=
  let bnPowLimit := UintToArith256 params.powLimit
  match pindexLast with
  | [] => .ok (GetCompact bnPowLimit)
  | last :: prev =>
    -- make sure we have at least (nPastBlocks + 1) blocks
    if last.nHeight < 24 then .ok (GetCompact bnPowLimit)
    else if params.fPowAllowMinDifficultyBlocks ∧
        pblock.nTime > last.nTime + 2 * 60 * 60 then
      -- recent block is more than 2 hours old
      .ok (GetCompact bnPowLimit)
    else if params.fPowAllowMinDifficultyBlocks ∧
        pblock.nTime > last.nTime + params.nPowTargetSpacing * 4 then
      -- recent block is more than 10 minutes old
      let bnNew := mul256 (SetCompact last.nBits).T 10
      let bnNew := if bnNew > bnPowLimit then bnPowLimit else bnNew
      .ok (GetCompact bnNew)
    else
      match dgwLoop 24 0 last prev with
      | .error e => .error e
      | .ok (bnPastTargetAvg, pindex) =>
        let nActualTimespan := last.nTime - pindex.nTime
        let nTargetTimespan := 24 * params.nPowTargetSpacing
        let nActualTimespan := clampSeq nActualTimespan
          (nTargetTimespan.tdiv 3) (nTargetTimespan * 3)
        -- Retarget
        let bnNew := mul256 bnPastTargetAvg (toU64 nActualTimespan)
        match div256 bnNew (toU64 nTargetTimespan) with
        | .error e => .error e
        | .ok bnNew =>
          let bnNew := if bnNew > bnPowLimit then bnPowLimit else bnNew
          .ok (GetCompact bnNew)

/-! ## Algorithms 3 and 5: KimotoGravityWell and Dual KGW3 -/

/-- The variables the KimotoGravityWell loop leaves behind. -/
structure KgwState where
  /-- `PastBlocksMass` -/
  PastBlocksMass : Nat
  /-- `PastDifficultyAverage` -/
  PastDifficultyAverage : Nat
  /-- `PastDifficultyAveragePrev` -/
  PastDifficultyAveragePrev : Nat
  /-- `PastRateActualSeconds` -/
  PastRateActualSeconds : Int
  /-- `PastRateTargetSeconds` -/
  PastRateTargetSeconds : Int
  deriving DecidableEq, Repr

/-- The state before the first iteration. -/
def KgwState.init : KgwState :=
  { PastBlocksMass := 0, PastDifficultyAverage := 0, PastDifficultyAveragePrev := 0,
    PastRateActualSeconds := 0, PastRateTargetSeconds := 0 }

/-- The update of the running average in the loop (lines 193-200 and 340-346 of
pow.cpp): `avg` is the freshly decoded target, `prev` the previous average. -/
def kgwAverage (i avg prev : Nat) : Nat :=
  if i > 1 then
    if avg ≥ prev then add256 ((avg - prev) / i) prev
    else prev - ((prev - avg) / i)
  else avg

/-- The loop shared by `testcase3` (lines 189-220) and `testcase5` (lines 337-365).
`spacing` is the unsigned 64-bit factor of `PastRateTargetSeconds` (the product is an
unsigned 64-bit one, stored in a signed variable), `lastTime` the time of
`BlockLastSolved`, `i` the loop counter and the list the pointer `BlockReading`.
The comparison of the floating-point ratio with the event horizon is the parameter
`horizon`, applied to `PastBlocksMass`, `PastRateTargetSeconds` and
`PastRateActualSeconds`. -/
def kgwLoop (horizon : Nat → Int → Int → Bool) (spacing : Nat)
    (PastBlocksMin PastBlocksMax : Nat) (lastTime : Int) :
    Nat → KgwState → CBlockIndex → KgwState
  | _, st, [] => st
  | i, st, reading :: pprev =>
    if reading.nHeight > 0 then
      if PastBlocksMax > 0 ∧ i > PastBlocksMax then st
      else
        let mass := st.PastBlocksMass + 1
        let avg := kgwAverage i (SetCompact reading.nBits).T st.PastDifficultyAveragePrev
        let actual := lastTime - reading.nTime
        let target := toI64 (spacing * mass)
        let actual := if actual < 0 then 0 else actual
        let st1 : KgwState :=
          { PastBlocksMass := mass, PastDifficultyAverage := avg,
            PastDifficultyAveragePrev := avg, PastRateActualSeconds := actual,
            PastRateTargetSeconds := target }
        if mass ≥ PastBlocksMin ∧ horizon mass target actual = true then st1
        else
          match pprev with
          | [] => st1
          | _ :: _ => kgwLoop horizon spacing PastBlocksMin PastBlocksMax lastTime
              (i + 1) st1 pprev
    else st

/-- The rescaling after the loop (lines 222-226 and 371-374):
`if (actual != 0 && target != 0) { bn *= actual; bn /= target; }`. -/
def kgwScale (st : KgwState) : Nat :=
  if st.PastRateActualSeconds ≠ 0 ∧ st.PastRateTargetSeconds ≠ 0 then
    mul256 st.PastDifficultyAverage (toU64 st.PastRateActualSeconds) /
      toU64 st.PastRateTargetSeconds
  else st.PastDifficultyAverage

/-- Rounding of a natural number to 53 significant binary digits, to nearest, ties to
even: the value of the IEEE 754 binary64 (`double`) number nearest to `n`, for
`n < 2^128`. Numbers of at most 53 digits are kept; otherwise the low `s = bitlen - 53`
digits are dropped and the kept part goes up by one when the dropped part is above half
a unit, or is exactly half a unit and the kept part is odd. -/
def roundDouble (n : Nat) : Nat :=
  let b := bitsAux 128 n
  if b ≤ 53 then n
  else
    let s := b - 53
    let q := n / 2 ^ s
    let r := n % 2 ^ s
    let half := 2 ^ (s - 1)
    let q1 := if r > half ∨ (r = half ∧ q % 2 = 1) then q + 1 else q
    q1 * 2 ^ s

/-- The value of `uint64_t v = x * 0.025;` (pow.cpp, lines 182 and 328) for an integer
`x ≥ 0` of at most 64 bits, in IEEE 754 binary64 arithmetic with rounding to nearest:
`x` is converted to `double` (`roundDouble x`), multiplied by the `double` nearest to
0.025, which is `0x1999999999999A * 2^-58`, the product is rounded to a `double`
(`roundDouble` of the integer product, scaled by `2^-58`), and the result is truncated.
For a negative `x` the conversion of the product to `uint64_t` is not defined once the
product reaches -1; the embedding gives 0. -/
def pastSeconds025 (x : Int) : Nat :=
  if x < 0 then 0
  else roundDouble (roundDouble x.toNat * 0x1999999999999A) / 2 ^ 58

/-- `testcase3` (pow.cpp, lines 169-233); `horizon` is the outcome of the
floating-point event-horizon test of line 215. -/
def testcase3 (horizon : Nat → Int → Int → Bool) (pindexLast : CBlockIndex)
    (params : Params) : Res :=
  let pastSecondsMin := pastSeconds025 params.nPowTargetTimespan
  let pastSecondsMax := toU64 (params.nPowTargetTimespan * 7)
  if toU64 params.nPowTargetSpacing = 0 then .error .divByZero
  else
    let PastBlocksMin := pastSecondsMin / toU64 params.nPowTargetSpacing
    let PastBlocksMax := pastSecondsMax / toU64 params.nPowTargetSpacing
    let bnPowLimit := UintToArith256 params.powLimit
    match pindexLast with
    | [] => .ok (GetCompact bnPowLimit)
    | last :: prev =>
      if last.nHeight = 0 ∨ last.nHeight < PastBlocksMin then .ok (GetCompact bnPowLimit)
      else
        let st := kgwLoop horizon (toU64 params.nPowTargetSpacing) PastBlocksMin
          PastBlocksMax last.nTime 1 KgwState.init (last :: prev)
        let bnNew := kgwScale st
        let bnNew := if bnNew > bnPowLimit then bnPowLimit else bnNew
        .ok (GetCompact bnNew)

/-- `testcase5` (pow.cpp, lines 310-429); `horizon` is the outcome of the
floating-point event-horizon test of line 360. -/
def testcase5 (horizon : Nat → Int → Int → Bool) (pindexLast : CBlockIndex)
    (pblock : CBlockHeader) (params : Params) : Res :=
  -- DUAL_KGW3 SETUP
  let Blocktime := toU64 params.nPowTargetSpacing
  let timeDaySeconds : Int := 60 * 60 * 24
  let pastSecondsMin := pastSeconds025 timeDaySeconds
  let pastSecondsMax := toU64 (timeDaySeconds * 7)
  if Blocktime = 0 then .error .divByZero
  else
    let PastBlocksMin := pastSecondsMin / Blocktime
    let PastBlocksMax := pastSecondsMax / Blocktime
    let bnPowLimit := UintToArith256 params.powLimit
    match pindexLast with
    | [] => .ok (GetCompact bnPowLimit)
    | last :: prev =>
      if last.nHeight = 0 ∨ last.nHeight < PastBlocksMin then .ok (GetCompact bnPowLimit)
      else
        let st := kgwLoop horizon Blocktime PastBlocksMin PastBlocksMax
          last.nTime 1 KgwState.init (last :: prev)
        -- KGW Original
        let kgw_dual1 := kgwScale st
        let kgw_dual2 := (SetCompact last.nBits).T
        match prev with
        | [] => .error .nullDeref
        | prevBlock :: _ =>
          let nActualTime1 := last.nTime - prevBlock.nTime
          let nActualTimespanshort := nActualTime1
          let nActualTime1 := if nActualTime1 < 0 then toI64 Blocktime else nActualTime1
          -- the comparisons with `Blocktime` are unsigned 64-bit comparisons
          let nActualTime1 :=
            if toU64 nActualTime1 < Blocktime / 3 then toI64 (Blocktime / 3)
            else nActualTime1
          let nActualTime1 :=
            if toU64 nActualTime1 > Blocktime * 3 % 2 ^ 64 then toI64 (Blocktime * 3)
            else nActualTime1
          let kgw_dual2 := mul256 kgw_dual2 (toU64 nActualTime1) / Blocktime
          -- Fusion from Retarget and Classic KGW3
          let bnNew := add256 kgw_dual2 kgw_dual1 / 2
          let bnNew :=
            if toU64 nActualTimespanshort < Blocktime / 6 then mul256 bnNew 85 / 100
            else bnNew
          -- Diffbreak 12 Hours
          let bnNew := if pblock.nTime - last.nTime > 12 * 60 * 60 then bnPowLimit else bnNew
          let bnNew := if bnNew > bnPowLimit then bnPowLimit else bnNew
          .ok (GetCompact bnNew)

/-! ## Algorithm 4: DigiShield -/

/-- `testcase4` (pow.cpp, lines 239-304). `bnProofOfWorkLimit` is the compact value, an
`unsigned int`; the branch under `fTestNet` (hard-wired `false`) is kept as written. -/
def testcase4 (pindexLast : CBlockIndex) (pblock : CBlockHeader) (params : Params) : Res :=
  let bnProofOfWorkLimit := GetCompact (UintToArith256 params.powLimit)
  let fTestNet := false
  let retargetTimespan := params.nPowTargetTimespan
  let retargetSpacing := params.nPowTargetSpacing
  if retargetSpacing = 0 then .error .divByZero
  else
    let retargetInterval := retargetTimespan.tdiv retargetSpacing
    match pindexLast with
    -- Genesis block
    | [] => .ok bnProofOfWorkLimit
    | last :: prev =>
      match cmod ((last.nHeight : Int) + 1) retargetInterval with
      | .error e => .error e
      | .ok r =>
        -- Only change once per interval
        if r ≠ 0 then
          if fTestNet = true then
            if pblock.nTime > last.nTime + retargetSpacing * 2 then .ok bnProofOfWorkLimit
            else lastNonMinDifficulty retargetInterval bnProofOfWorkLimit last prev
          else .ok last.nBits
        else
          match goBack (last :: prev) (blocksToGoBack last.nHeight retargetInterval) with
          | [] => .error .assertion
          | first :: _ =>
            -- Limit adjustment step
            let nActualTimespan := last.nTime - first.nTime
            let bnNew := (SetCompact last.nBits).T
            let nActualTimespan := clampSeq nActualTimespan
              (retargetTimespan - retargetTimespan.tdiv 4)
              (retargetTimespan + retargetTimespan.tdiv 2)
            -- Retarget
            let bnNew := mul256 bnNew (toU64 nActualTimespan)
            match div256 bnNew (toU64 retargetTimespan) with
            | .error e => .error e
            | .ok bnNew =>
              -- the comparison and the assignment take the compact value as an integer
              let bnNew := if bnNew > bnProofOfWorkLimit then bnProofOfWorkLimit else bnNew
              .ok (GetCompact bnNew)

/-! ## Algorithm 6: Orbitcoin Super Shield -/

/-- The loop of lines 451-454 of pow.cpp:
`for (i = 0; pindexShort && i < nIntervalShort; i++) pindexShort = pindexLast->pprev;`
with `n` iterations left; `pprev` is `pindexLast->pprev`. -/
def shortWindow (pprev : CBlockIndex) : Nat → CBlockIndex → CBlockIndex
  | 0, pindexShort => pindexShort
  | n + 1, pindexShort =>
    match pindexShort with
    | [] => []
    | _ :: _ => shortWindow pprev n pprev

/-- `testcase6` (pow.cpp, lines 435-496). -/
def testcase6 (pindexLast : CBlockIndex) (params : Params) : Res :=
  let bnPowLimit := UintToArith256 params.powLimit
  let nIntervalShort : Int := 5
  let nIntervalLong : Int := 20
  let nTargetSpacing := params.nPowTargetSpacing
  let nTargetTimespan := nTargetSpacing * nIntervalLong
  match pindexLast with
  | [] => .error .nullDeref
  | last :: prev =>
    -- The short averaging window
    let pindexShort := shortWindow prev 5 (last :: prev)
    match prev, pindexShort with
    | [], _ => .error .nullDeref
    | _ :: _, [] => .error .nullDeref
    | lastPrev :: _, short :: _ =>
      let nActualTimespanShort := lastPrev.nTime - short.nTime
      -- The long averaging window
      match goBack pindexShort (nIntervalLong - nIntervalShort) with
      | [] => .error .nullDeref
      | long :: _ =>
        let nActualTimespanLong := last.nTime - long.nTime
        -- Time warp protection
        let nActualTimespanShort := max nActualTimespanShort
          ((nTargetSpacing * nIntervalShort).tdiv 2)
        let nActualTimespanShort := min nActualTimespanShort
          (nTargetSpacing * nIntervalShort * 2)
        let nActualTimespanLong := max nActualTimespanLong
          ((nTargetSpacing * nIntervalLong).tdiv 2)
        let nActualTimespanLong := min nActualTimespanLong
          (nTargetSpacing * nIntervalLong * 2)
        -- The average of both windows
        let nActualTimespanAvg :=
          (nActualTimespanShort * (nIntervalLong.tdiv nIntervalShort)
            + nActualTimespanLong).tdiv 2
        -- 0.25 damping
        let nActualTimespan := nActualTimespanAvg + 3 * nTargetTimespan
        let nActualTimespan := nActualTimespan.tdiv 4
        -- Oscillation limiters, +5% to -10%
        let nActualTimespanMin := (nTargetTimespan * 100).tdiv 105
        let nActualTimespanMax := (nTargetTimespan * 110).tdiv 100
        let nActualTimespan := clampSeq nActualTimespan nActualTimespanMin nActualTimespanMax
        -- Retarget
        let bnNew := (SetCompact last.nBits).T
        let bnNew := mul256 bnNew (toU64 nActualTimespan)
        match div256 bnNew (toU64 nTargetTimespan) with
        | .error e => .error e
        | .ok bnNew =>
          let bnNew := if bnNew > bnPowLimit then bnPowLimit else bnNew
          .ok (GetCompact bnNew)

/-! ## The dispatcher -/

/-- `GetNextWorkRequired` (pow.cpp, lines 515-556). `retargetRoutine` is the value of
`GetArg("-retarget", 1)`; `horizon3` and `horizon5` are the floating-point event-horizon
tests of `testcase3` and `testcase5`. The log lines are not modelled. -/
def GetNextWorkRequired (horizon3 horizon5 : Nat → Int → Int → Bool) (retargetRoutine : Int)
    (pindexLast : CBlockIndex) (pblock : CBlockHeader) (params : Params) : Res :=
  match pindexLast with
  | [] => .error .nullDeref
  | last :: _ =>
    let nHeight := (last.nHeight : Int) + 1
    let nProofOfWorkLimit := GetCompact (UintToArith256 params.powLimit)
    if nHeight < 100 then .ok nProofOfWorkLimit
    else if retargetRoutine = 1 then testcase1 pindexLast pblock params
    else if retargetRoutine = 2 then testcase2 pindexLast pblock params
    else if retargetRoutine = 3 then testcase3 horizon3 pindexLast params
    else if retargetRoutine = 4 then testcase4 pindexLast pblock params
    else if retargetRoutine = 5 then testcase5 horizon5 pindexLast pblock params
    else if retargetRoutine = 6 then testcase6 pindexLast params
    -- the `switch` has no `default`: control falls off the end of the function
    else .error .noReturn

/-- A chain is well formed when a header of height `h` has exactly `h` predecessors, of
heights `h-1`, ..., `0`. -/
def WellFormed : CBlockIndex → Prop
  | [] => True
  | b :: rest => b.nHeight = rest.length ∧ WellFormed rest

instance : DecidablePred WellFormed := by
  intro c
  induction c with
  | nil => exact isTrue trivial
  | cons b rest ih =>
    unfold WellFormed
    exact @instDecidableAnd _ _ _ ih

/-- A chain of `n + 1` headers of heights `n`, ..., `0`, all with the bits `nBits`, the
header of height `h` carrying the time `t0 + step * h`. -/
def uniformChain (nBits : Nat) (t0 step : Int) : Nat → CBlockIndex
  | 0 => [{ nHeight := 0, nTime := t0, nBits := nBits }]
  | n + 1 => { nHeight := n + 1, nTime := t0 + step * ((n : Int) + 1), nBits := nBits } ::
      uniformChain nBits t0 step n

/-- The header `b` at position `j` of the chain (position 0 is `last`) ends the walk back
of Algorithm 1: it has no predecessor, or its height is a multiple of `I`, or its bits
differ from `limit`. -/
def StopsWalk (I : Int) (limit : Nat) (chain : CBlockIndex) (j : Nat) (b : BlockIndex) :
    Prop :=
  chain[j]? = some b ∧
    (chain.drop (j + 1) = [] ∨ (b.nHeight : Int).tmod I = 0 ∨ b.nBits ≠ limit)

/-- The byte count `⌈bitlen(T)/8⌉` with which `GetCompact` starts. -/
def compactSize (T : Nat) : Nat := (bits T + 7) / 8

/-- The three-byte word `GetCompact` extracts before it looks at bit 23, in arithmetic
form. -/
def compactWord (T : Nat) : Nat :=
  if compactSize T > 3 then T / 2 ^ (8 * (compactSize T - 3))
  else T * 2 ^ (8 * (3 - compactSize T))

/-- The fused target of `testcase5` after line 395 of pow.cpp, `(kgw_dual2 + kgw_dual1)/2`,
for a chain `last :: prevBlock :: rest` past the guard: `kgw_dual1` is the rescaled
KimotoGravityWell average, `kgw_dual2` the decoded `last.bits` scaled by the clamped time
between `last` and its predecessor. -/
def dualKgwFused (horizon : Nat → Int → Int → Bool) (last prevBlock : BlockIndex)
    (rest : CBlockIndex) (params : Params) : Nat :=
  let Blocktime := toU64 params.nPowTargetSpacing
  let PastBlocksMin := pastSeconds025 (60 * 60 * 24) / Blocktime
  let PastBlocksMax := toU64 (60 * 60 * 24 * 7) / Blocktime
  let st := kgwLoop horizon Blocktime PastBlocksMin PastBlocksMax
    last.nTime 1 KgwState.init (last :: prevBlock :: rest)
  let kgw_dual1 := kgwScale st
  let kgw_dual2 := (SetCompact last.nBits).T
  let nActualTime1 := last.nTime - prevBlock.nTime
  let nActualTime1 := if nActualTime1 < 0 then toI64 Blocktime else nActualTime1
  let nActualTime1 :=
    if toU64 nActualTime1 < Blocktime / 3 then toI64 (Blocktime / 3) else nActualTime1
  let nActualTime1 :=
    if toU64 nActualTime1 > Blocktime * 3 % 2 ^ 64 then toI64 (Blocktime * 3)
    else nActualTime1
  let kgw_dual2 := mul256 kgw_dual2 (toU64 nActualTime1) / Blocktime
  add256 kgw_dual2 kgw_dual1 / 2

/-- The damped and limited timespan of Algorithm 6 as the specification words it:
`short = clamp(0, 5*sp/2, 10*sp)`, `long = clamp(last.time - t16, 10*sp, 40*sp)`,
`avg = (4*short + long)/2`, `actual = clamp((avg + 60*sp)/4, 2000*sp/105, 2200*sp/100)`,
where `clamp(x, lo, hi) = min(max(x, lo), hi)` and `/` rounds down. -/
def superShieldActual (lastTime t16 sp : Int) : Int :=
  let short := min (max 0 (5 * sp / 2)) (10 * sp)
  let long := min (max (lastTime - t16) (10 * sp)) (40 * sp)
  let avg := (4 * short + long) / 2
  min (max ((avg + 60 * sp) / 4) (2000 * sp / 105)) (2200 * sp / 100)

/-- The result of Algorithm 6 as the specification words it: the compact encoding of
`min(⌊decode(last.bits) * actual / (20*sp)⌋, powLimit)`, the product taken in the 256-bit
layer. -/
def superShieldSpec (nBits : Nat) (lastTime t16 : Int) (params : Params) : Nat :=
  GetCompact (min
    (mul256 (SetCompact nBits).T
        (superShieldActual lastTime t16 params.nPowTargetSpacing).toNat
      / (20 * params.nPowTargetSpacing).toNat)
    (UintToArith256 params.powLimit))

/-- The target `T_k` of Algorithm 2 as the specification words it: the decoded bits of
`p_k`, where `p_1 = last` and `p_{k+1} = p_k.prev` (zero when there is no such header). -/
def dgwTarget (chain : CBlockIndex) (k : Nat) : Nat :=
  match chain[k - 1]? with
  | some b => (SetCompact b.nBits).T
  | none => 0

/-- The running "average" of Algorithm 2 as the specification words it: `A_1 = T_1` and
`A_k = (A_{k-1} * k + T_k) / (k + 1)` for `k ≥ 2`, in the 256-bit layer. -/
def dgwAverage (chain : CBlockIndex) : Nat → Nat
  | 0 => 0
  | 1 => dgwTarget chain 1
  | k + 2 =>
    add256 (mul256 (dgwAverage chain (k + 1)) (k + 2)) (dgwTarget chain (k + 2)) / (k + 3)

/-- The same recurrence over unbounded integers: `A_1 = T_1`,
`A_k = ⌊(A_{k-1} * k + T_k) / (k + 1)⌋`. -/
def dgwAverageExact (chain : CBlockIndex) : Nat → Nat
  | 0 => 0
  | 1 => dgwTarget chain 1
  | k + 2 => (dgwAverageExact chain (k + 1) * (k + 2) + dgwTarget chain (k + 2)) / (k + 3)

/-! ## The genesis generator of `CMainParams` -/

/-- The `nBits` the genesis generator passes to `CreateGenesisBlock` (chainparams.cpp,
lines 84 and 90). -/
def genesisBits : Nat := 0x1f00ffff

/-- The condition of the `while` loop of the genesis generator (chainparams.cpp, lines
86-87) as a function of the PoW hash of the candidate block: the nonce is incremented
while it holds, and the loop stops on the first candidate for which it is false. -/
def genesisGrindContinues (hash : Nat) (consensus : Params) : Bool :=
  decide (UintToArith256 hash > UintToArith256 consensus.powLimit)

/-! ## Algorithm 6: the timespan before the oscillation limiters -/

/-- The value of `nActualTimespan` in `testcase6` after the 0.25 damping and before the
oscillation limiters (pow.cpp, lines 449-471), computed as `testcase6` computes it; `none`
where `testcase6` dereferences a null pointer before that point. -/
def testcase6Damped (pindexLast : CBlockIndex) (params : Params) : Option Int :=
  let nIntervalShort : Int := 5
  let nIntervalLong : Int := 20
  let nTargetSpacing := params.nPowTargetSpacing
  let nTargetTimespan := nTargetSpacing * nIntervalLong
  match pindexLast with
  | [] => none
  | last :: prev =>
    -- The short averaging window
    let pindexShort := shortWindow prev 5 (last :: prev)
    match prev, pindexShort with
    | [], _ => none
    | _ :: _, [] => none
    | lastPrev :: _, short :: _ =>
      let nActualTimespanShort := lastPrev.nTime - short.nTime
      -- The long averaging window
      match goBack pindexShort (nIntervalLong - nIntervalShort) with
      | [] => none
      | long :: _ =>
        let nActualTimespanLong := last.nTime - long.nTime
        -- Time warp protection
        let nActualTimespanShort := max nActualTimespanShort
          ((nTargetSpacing * nIntervalShort).tdiv 2)
        let nActualTimespanShort := min nActualTimespanShort
          (nTargetSpacing * nIntervalShort * 2)
        let nActualTimespanLong := max nActualTimespanLong
          ((nTargetSpacing * nIntervalLong).tdiv 2)
        let nActualTimespanLong := min nActualTimespanLong
          (nTargetSpacing * nIntervalLong * 2)
        -- The average of both windows
        let nActualTimespanAvg :=
          (nActualTimespanShort * (nIntervalLong.tdiv nIntervalShort)
            + nActualTimespanLong).tdiv 2
        -- 0.25 damping
        let nActualTimespan := nActualTimespanAvg + 3 * nTargetTimespan
        some (nActualTimespan.tdiv 4)

/-! ## The dispatcher and the validator: theorems -/

/-- C1: during the warm-up window (`last.height + 1 < 100`) `GetNextWorkRequired` returns
the compact encoding of `powLimit`, for every parameter record, candidate header,
selector value (valid or not) and outcome of the floating-point tests. -/
theorem GetNextWorkRequired_warmup (horizon3 horizon5 : Nat → Int → Int → Bool)
    (retargetRoutine : Int) (last : BlockIndex) (prev : CBlockIndex) (pblock : CBlockHeader)
    (params : Params) (h : last.nHeight + 1 < 100) :
    GetNextWorkRequired horizon3 horizon5 retargetRoutine (last :: prev) pblock params
      = .ok (GetCompact (UintToArith256 params.powLimit)) := by
  have h1 : ((last.nHeight : Int) + 1 < 100) := by omega
  simp [GetNextWorkRequired, h1]

/-- Instance of C1: height 98 under the main parameters with the invalid selector 7 gives
`0x1f00ffff`. -/
theorem GetNextWorkRequired_warmup_witness :
    (98 : Nat) + 1 < 100 ∧
    GetNextWorkRequired (fun _ _ _ => false) (fun _ _ _ => false) 7
      ({ nHeight := 98, nTime := 14700, nBits := 0x1f00ffff } ::
        uniformChain 0x1f00ffff 0 150 97) { nTime := 14850 } mainParams
      = .ok (GetCompact (UintToArith256 mainParams.powLimit)) ∧
    GetCompact (UintToArith256 mainParams.powLimit) = 0x1f00ffff :=
  ⟨by decide, GetNextWorkRequired_warmup _ _ 7 _ _ _ mainParams (by decide), by decide⟩

/-- C2: `CheckProofOfWork` accepts exactly when the decoded target is not negative, not
overflowing, non-zero, at most `powLimit`, and the hash (as a 256-bit integer) is at most
the target; so it rejects whenever decoding reports negative or overflow. Under the main
parameters hash 1 with bits `0x1d00ffff` is accepted, hash `2^256 - 1` is rejected and
bits `0x01fedcba` are rejected. -/
theorem CheckProofOfWork_iff :
    (∀ (hash nBits : Nat) (params : Params),
      CheckProofOfWork hash nBits params = true ↔
        ((SetCompact nBits).negative = false ∧ (SetCompact nBits).overflow = false ∧
          (SetCompact nBits).T ≠ 0 ∧
          (SetCompact nBits).T ≤ UintToArith256 params.powLimit ∧
          UintToArith256 hash ≤ (SetCompact nBits).T)) ∧
    (∀ (hash nBits : Nat) (params : Params),
      (((SetCompact nBits).negative || (SetCompact nBits).overflow) &&
        CheckProofOfWork hash nBits params) = false) ∧
    CheckProofOfWork 1 0x1d00ffff mainParams = true ∧
    CheckProofOfWork (2 ^ 256 - 1) 0x1d00ffff mainParams = false ∧
    CheckProofOfWork 1 0x01fedcba mainParams = false ∧
    (SetCompact 0x01fedcba).negative = true := by
  refine ⟨?_, ?_, by decide, by decide, by decide, by decide⟩
  · intro hash nBits params
    unfold CheckProofOfWork
    cases hn : (SetCompact nBits).negative <;> cases ho : (SetCompact nBits).overflow <;>
      simp [hn, ho]
    omega
  · intro hash nBits params
    unfold CheckProofOfWork
    cases hn : (SetCompact nBits).negative <;> cases ho : (SetCompact nBits).overflow <;>
      simp [hn, ho]

/-- C6: past the warm-up window (`last.height + 1 ≥ 100`) `GetNextWorkRequired` returns
exactly what algorithm `k` returns on the same arguments when the selector is
`k ∈ {1,..,6}`. For every other selector no `case` matches and there is no `default`:
control leaves the `switch` and reaches the closing brace of the function without a
`return`, which the embedding records as the fault `noReturn`; no value is returned. -/
theorem GetNextWorkRequired_dispatch (horizon3 horizon5 : Nat → Int → Int → Bool)
    (retargetRoutine : Int) (last : BlockIndex) (prev : CBlockIndex) (pblock : CBlockHeader)
    (params : Params) (h : 100 ≤ last.nHeight + 1) :
    (retargetRoutine = 1 →
      GetNextWorkRequired horizon3 horizon5 retargetRoutine (last :: prev) pblock params
        = testcase1 (last :: prev) pblock params) ∧
    (retargetRoutine = 2 →
      GetNextWorkRequired horizon3 horizon5 retargetRoutine (last :: prev) pblock params
        = testcase2 (last :: prev) pblock params) ∧
    (retargetRoutine = 3 →
      GetNextWorkRequired horizon3 horizon5 retargetRoutine (last :: prev) pblock params
        = testcase3 horizon3 (last :: prev) params) ∧
    (retargetRoutine = 4 →
      GetNextWorkRequired horizon3 horizon5 retargetRoutine (last :: prev) pblock params
        = testcase4 (last :: prev) pblock params) ∧
    (retargetRoutine = 5 →
      GetNextWorkRequired horizon3 horizon5 retargetRoutine (last :: prev) pblock params
        = testcase5 horizon5 (last :: prev) pblock params) ∧
    (retargetRoutine = 6 →
      GetNextWorkRequired horizon3 horizon5 retargetRoutine (last :: prev) pblock params
        = testcase6 (last :: prev) params) ∧
    ((retargetRoutine < 1 ∨ 6 < retargetRoutine) →
      GetNextWorkRequired horizon3 horizon5 retargetRoutine (last :: prev) pblock params
        = .error .noReturn ∧
      ∀ v, GetNextWorkRequired horizon3 horizon5 retargetRoutine (last :: prev) pblock params
        ≠ .ok v) := by
  have h1 : ¬ ((last.nHeight : Int) + 1 < 100) := by omega
  refine ⟨?_, ?_, ?_, ?_, ?_, ?_, ?_⟩
  · intro hs; subst hs; simp [GetNextWorkRequired, h1]
  · intro hs; subst hs; simp [GetNextWorkRequired, h1]
  · intro hs; subst hs; simp [GetNextWorkRequired, h1]
  · intro hs; subst hs; simp [GetNextWorkRequired, h1]
  · intro hs; subst hs; simp [GetNextWorkRequired, h1]
  · intro hs; subst hs; simp [GetNextWorkRequired, h1]
  · intro hs
    have e : GetNextWorkRequired horizon3 horizon5 retargetRoutine (last :: prev) pblock
        params = .error .noReturn := by
      have n1 : retargetRoutine ≠ 1 := by omega
      have n2 : retargetRoutine ≠ 2 := by omega
      have n3 : retargetRoutine ≠ 3 := by omega
      have n4 : retargetRoutine ≠ 4 := by omega
      have n5 : retargetRoutine ≠ 5 := by omega
      have n6 : retargetRoutine ≠ 6 := by omega
      simp [GetNextWorkRequired, h1, n1, n2, n3, n4, n5, n6]
    refine ⟨e, ?_⟩
    intro v hv
    rw [e] at hv
    cases hv

/-- Instance of C6 at height 479 under the main parameters: selector 4 runs `testcase4`,
selector 7 runs off the `switch` and returns nothing. -/
theorem GetNextWorkRequired_dispatch_witness :
    GetNextWorkRequired (fun _ _ _ => false) (fun _ _ _ => false) 4
        ({ nHeight := 479, nTime := 71850, nBits := 0x1e00ffff } ::
          uniformChain 0x1e00ffff 0 150 478) { nTime := 72000 } mainParams
      = testcase4 ({ nHeight := 479, nTime := 71850, nBits := 0x1e00ffff } ::
          uniformChain 0x1e00ffff 0 150 478) { nTime := 72000 } mainParams ∧
    GetNextWorkRequired (fun _ _ _ => false) (fun _ _ _ => false) 7
        ({ nHeight := 479, nTime := 71850, nBits := 0x1e00ffff } ::
          uniformChain 0x1e00ffff 0 150 478) { nTime := 72000 } mainParams
      = .error .noReturn :=
  ⟨(GetNextWorkRequired_dispatch (fun _ _ _ => false) (fun _ _ _ => false) 4
      { nHeight := 479, nTime := 71850, nBits := 0x1e00ffff }
      (uniformChain 0x1e00ffff 0 150 478) { nTime := 72000 } mainParams (by decide)).2.2.2.1
      rfl,
   ((GetNextWorkRequired_dispatch (fun _ _ _ => false) (fun _ _ _ => false) 7
      { nHeight := 479, nTime := 71850, nBits := 0x1e00ffff }
      (uniformChain 0x1e00ffff 0 150 478) { nTime := 72000 } mainParams (by decide)).2.2.2.2.2.2
      (Or.inr (by decide))).1⟩

/-! ## Algorithm 1: theorems -/

theorem interval_ok (params : Params) (hs : params.nPowTargetSpacing ≠ 0) :
    DifficultyAdjustmentInterval params
      = .ok (params.nPowTargetTimespan.tdiv params.nPowTargetSpacing) := by
  simp [DifficultyAdjustmentInterval, hs]

theorem cmod_ok (a b : Int) (hb : b ≠ 0) : cmod a b = .ok (a.tmod b) := by
  simp [cmod, hb]

theorem interval_pos (params : Params) (hs : 0 < params.nPowTargetSpacing)
    (hts : params.nPowTargetSpacing ≤ params.nPowTargetTimespan) :
    1 ≤ params.nPowTargetTimespan.tdiv params.nPowTargetSpacing := by
  rw [Int.tdiv_eq_ediv (by omega) (by omega)]
  exact (Int.le_ediv_iff_mul_le hs).2 (by omega)

theorem clampSeq_eq (x lo hi : Int) : clampSeq x lo hi = min (max x lo) hi := by
  unfold clampSeq
  simp only []
  split <;> split <;> omega

theorem wellFormed_drop : ∀ (c : CBlockIndex) (n : Nat), WellFormed c → WellFormed (c.drop n)
  | [], n, _ => by simp [WellFormed]
  | _ :: _, 0, h => by simpa using h
  | _ :: rest, n + 1, h => by
    simpa using wellFormed_drop rest n h.2

/-- In a well-formed chain the header `n` steps back exists when `n` is at most the height
of the first header, and its height is lower by `n`. -/
theorem wellFormed_getElem (last : BlockIndex) (prev : CBlockIndex)
    (hwf : WellFormed (last :: prev)) (n : Nat) (hn : n ≤ last.nHeight) :
    ∃ first rest, (last :: prev).drop n = first :: rest ∧ first.nHeight + n = last.nHeight := by
  have hlen : (last :: prev).length = last.nHeight + 1 := by
    simp [hwf.1]
  have hlt : n < (last :: prev).length := by omega
  refine ⟨(last :: prev)[n], (last :: prev).drop (n + 1), List.drop_eq_getElem_cons hlt, ?_⟩
  have hw := wellFormed_drop (last :: prev) n hwf
  rw [List.drop_eq_getElem_cons hlt] at hw
  have h1 := hw.1
  simp only [List.length_drop] at h1
  omega

/-- C7: at a retarget boundary (`(last.height + 1) mod I = 0`) on which the walk back to
`first` succeeds, with `fPowNoRetargeting` set, `testcase1` returns `last.bits` unchanged,
whatever the times of the headers and of the candidate. -/
theorem testcase1_no_retargeting (last : BlockIndex) (prev : CBlockIndex)
    (pblock : CBlockHeader) (params : Params)
    (hs : params.nPowTargetSpacing ≠ 0)
    (hI : params.nPowTargetTimespan.tdiv params.nPowTargetSpacing ≠ 0)
    (hb : ((last.nHeight : Int) + 1).tmod
      (params.nPowTargetTimespan.tdiv params.nPowTargetSpacing) = 0)
    (hwalk : goBack (last :: prev) (blocksToGoBack last.nHeight
      (params.nPowTargetTimespan.tdiv params.nPowTargetSpacing)) ≠ [])
    (hno : params.fPowNoRetargeting = true) :
    testcase1 (last :: prev) pblock params = .ok last.nBits := by
  unfold testcase1
  simp only [interval_ok params hs, cmod_ok _ _ hI, hb]
  cases hg : goBack (last :: prev) (blocksToGoBack last.nHeight
      (params.nPowTargetTimespan.tdiv params.nPowTargetSpacing)) with
  | nil => exact absurd hg hwalk
  | cons first rest => simp [testcase1_ext, hno]

/-- Instance of C7: height 3 under the main parameters (`I = 4`) with retargeting switched
off; the chain carries erratic times. -/
theorem testcase1_no_retargeting_witness :
    testcase1 [⟨3, 999999, 0x1e00abcd⟩, ⟨2, 5, 0x1e00ffff⟩, ⟨1, 700000, 0x1e00ffff⟩,
        ⟨0, 0, 0x1e00ffff⟩] { nTime := 42 } { mainParams with fPowNoRetargeting := true }
      = .ok 0x1e00abcd :=
  testcase1_no_retargeting ⟨3, 999999, 0x1e00abcd⟩
    [⟨2, 5, 0x1e00ffff⟩, ⟨1, 700000, 0x1e00ffff⟩, ⟨0, 0, 0x1e00ffff⟩] { nTime := 42 }
    { mainParams with fPowNoRetargeting := true } (by decide) (by decide) (by decide)
    (by decide) rfl

/-- C9: at a retarget boundary of a well-formed chain (valid time parameters, so that
`I ≥ 1`), the header whose time `testcase1` passes on as the first block time is the one
`I - 1` steps back from `last` when `last.height + 1 = I`, and that header is the genesis
header; in every other case it is the one exactly `I` steps back. -/
theorem testcase1_window_start (last : BlockIndex) (prev : CBlockIndex)
    (pblock : CBlockHeader) (params : Params)
    (hs : 0 < params.nPowTargetSpacing)
    (hts : params.nPowTargetSpacing ≤ params.nPowTargetTimespan)
    (hwf : WellFormed (last :: prev))
    (hb : ((last.nHeight : Int) + 1).tmod
      (params.nPowTargetTimespan.tdiv params.nPowTargetSpacing) = 0) :
    ∃ first : BlockIndex,
      (last :: prev)[if last.nHeight + 1
          = (params.nPowTargetTimespan.tdiv params.nPowTargetSpacing).toNat
        then (params.nPowTargetTimespan.tdiv params.nPowTargetSpacing).toNat - 1
        else (params.nPowTargetTimespan.tdiv params.nPowTargetSpacing).toNat]? = some first ∧
      (last.nHeight + 1 = (params.nPowTargetTimespan.tdiv params.nPowTargetSpacing).toNat →
        first.nHeight = 0) ∧
      (last.nHeight + 1 ≠ (params.nPowTargetTimespan.tdiv params.nPowTargetSpacing).toNat →
        first.nHeight + (params.nPowTargetTimespan.tdiv params.nPowTargetSpacing).toNat
          = last.nHeight) ∧
      testcase1 (last :: prev) pblock params
        = testcase1_ext (last :: prev) first.nTime params := by
  have hpos := interval_pos params hs hts
  generalize hIdef : params.nPowTargetTimespan.tdiv params.nPowTargetSpacing = I at *
  have hI0 : I ≠ 0 := by omega
  obtain ⟨k, hk⟩ := Int.dvd_of_tmod_eq_zero hb
  have hIn : ((I.toNat : Nat) : Int) = I := Int.toNat_of_nonneg (by omega)
  have hkpos : 1 ≤ k := by
    by_contra hlt
    have hk0 : k ≤ 0 := by omega
    have : I * k ≤ 0 := Int.mul_nonpos_of_nonneg_of_nonpos (by omega) hk0
    omega
  unfold testcase1
  simp only [← hIdef, interval_ok params (by omega : params.nPowTargetSpacing ≠ 0)]
  simp only [hIdef, cmod_ok _ _ hI0, hb]
  by_cases hfirst : last.nHeight + 1 = I.toNat
  · have hcast : ((last.nHeight : Int) + 1) = I := by omega
    have hgb : blocksToGoBack last.nHeight I = ((I.toNat - 1 : Nat) : Int) := by
      simp only [blocksToGoBack, hcast]; simp; omega
    obtain ⟨first, rest, hd, hh⟩ :=
      wellFormed_getElem last prev hwf (I.toNat - 1) (by omega)
    refine ⟨first, ?_, fun _ => by omega, fun hne => absurd hfirst hne, ?_⟩
    · rw [if_pos hfirst, ← List.head?_drop, hd]; rfl
    · simp only [hgb, goBack, Int.toNat_ofNat, hd, ne_eq, not_true_eq_false, if_false]
  · have hcast : ((last.nHeight : Int) + 1) ≠ I := by omega
    have hgb : blocksToGoBack last.nHeight I = ((I.toNat : Nat) : Int) := by
      simp only [blocksToGoBack]; rw [if_pos hcast]; omega
    have hk2 : 2 ≤ k := by
      by_contra hlt
      have : k = 1 := by omega
      subst this
      omega
    have hle : I.toNat ≤ last.nHeight := by
      have : I * 2 ≤ I * k := Int.mul_le_mul_of_nonneg_left hk2 (by omega)
      omega
    obtain ⟨first, rest, hd, hh⟩ := wellFormed_getElem last prev hwf I.toNat hle
    refine ⟨first, ?_, fun he => absurd he hfirst, fun _ => hh, ?_⟩
    · rw [if_neg hfirst, ← List.head?_drop, hd]; rfl
    · simp only [hgb, goBack, Int.toNat_ofNat, hd, ne_eq, not_true_eq_false, if_false]

/-- Instance of C9 under the main parameters (`I = 4`): at height 3 the genesis time is
used (3 steps back), at height 7 the time of the header 4 steps back. -/
theorem testcase1_window_start_witness :
    (∃ first : BlockIndex,
      (uniformChain 0x1e00ffff 1000 150 3)[if 3 + 1 = (4 : Nat) then 4 - 1 else 4]?
        = some first ∧
      (3 + 1 = (4 : Nat) → first.nHeight = 0) ∧
      (3 + 1 ≠ (4 : Nat) → first.nHeight + 4 = 3) ∧
      testcase1 (uniformChain 0x1e00ffff 1000 150 3) { nTime := 0 } mainParams
        = testcase1_ext (uniformChain 0x1e00ffff 1000 150 3) first.nTime mainParams) ∧
    (uniformChain 0x1e00ffff 1000 150 3)[3]? = some ⟨0, 1000, 0x1e00ffff⟩ ∧
    (uniformChain 0x1e00ffff 1000 150 7)[4]? = some ⟨3, 1450, 0x1e00ffff⟩ ∧
    testcase1 (uniformChain 0x1e00ffff 1000 150 7) { nTime := 0 } mainParams
      = testcase1_ext (uniformChain 0x1e00ffff 1000 150 7) 1450 mainParams :=
  ⟨testcase1_window_start ⟨3, 1000 + 150 * 3, 0x1e00ffff⟩ (uniformChain 0x1e00ffff 1000 150 2)
      { nTime := 0 } mainParams (by decide) (by decide) (by decide) (by decide),
    by decide, by decide, by decide⟩

/-- The walk back of lines 37-40 returns the bits of the first header that stops it. -/
theorem lastNonMinDifficulty_spec (I : Int) (limit : Nat) (hI : I ≠ 0) :
    ∀ (rest : CBlockIndex) (b : BlockIndex),
      ∃ (j : Nat) (x : BlockIndex), StopsWalk I limit (b :: rest) j x ∧
        (∀ i, i < j → ∀ y, ¬ StopsWalk I limit (b :: rest) i y) ∧
        lastNonMinDifficulty I limit b rest = .ok x.nBits
  | [], b => by
    refine ⟨0, b, ⟨rfl, Or.inl rfl⟩, ?_, rfl⟩
    intro i hi; omega
  | p :: rest, b => by
    by_cases hc : (b.nHeight : Int).tmod I ≠ 0 ∧ b.nBits = limit
    · obtain ⟨j, x, hstop, hmin, hres⟩ := lastNonMinDifficulty_spec I limit hI rest p
      refine ⟨j + 1, x, ⟨?_, ?_⟩, ?_, ?_⟩
      · simpa using hstop.1
      · simpa using hstop.2
      · intro i hi y hy
        cases i with
        | zero =>
          obtain ⟨hget, hor⟩ := hy
          have hyb : b = y := by simpa using hget
          subst hyb
          rcases hor with h | h | h
          · simp at h
          · exact hc.1 h
          · exact h hc.2
        | succ i =>
          refine hmin i (by omega) y ⟨?_, ?_⟩
          · simpa using hy.1
          · simpa using hy.2
      · simp only [lastNonMinDifficulty, cmod_ok _ _ hI]
        rw [if_pos hc]; exact hres
    · refine ⟨0, b, ⟨rfl, ?_⟩, ?_, ?_⟩
      · right
        by_cases h1 : (b.nHeight : Int).tmod I = 0
        · exact Or.inl h1
        · right; intro h2; exact hc ⟨h1, h2⟩
      · intro i hi; omega
      · simp only [lastNonMinDifficulty, cmod_ok _ _ hI]
        rw [if_neg hc]

/-- C10: off a retarget boundary (`(last.height + 1) mod I ≠ 0`) `testcase1` returns
(a) `last.bits` when `fPowAllowMinDifficultyBlocks` is false; (b) the compact encoding of
`powLimit` when the flag is set and the candidate's time exceeds `last.time + 2 * spacing`;
(c) otherwise, with the flag set, the bits of the first header, walking back from `last`
(included), that has no predecessor, or whose height is a multiple of `I`, or whose bits
differ from the compact encoding of `powLimit`. -/
theorem testcase1_off_boundary (last : BlockIndex) (prev : CBlockIndex)
    (pblock : CBlockHeader) (params : Params)
    (hs : params.nPowTargetSpacing ≠ 0)
    (hI : params.nPowTargetTimespan.tdiv params.nPowTargetSpacing ≠ 0)
    (hb : ((last.nHeight : Int) + 1).tmod
      (params.nPowTargetTimespan.tdiv params.nPowTargetSpacing) ≠ 0) :
    (params.fPowAllowMinDifficultyBlocks = false →
      testcase1 (last :: prev) pblock params = .ok last.nBits) ∧
    (params.fPowAllowMinDifficultyBlocks = true →
      pblock.nTime > last.nTime + 2 * params.nPowTargetSpacing →
      testcase1 (last :: prev) pblock params
        = .ok (GetCompact (UintToArith256 params.powLimit))) ∧
    (params.fPowAllowMinDifficultyBlocks = true →
      ¬ pblock.nTime > last.nTime + 2 * params.nPowTargetSpacing →
      ∃ (j : Nat) (x : BlockIndex),
        StopsWalk (params.nPowTargetTimespan.tdiv params.nPowTargetSpacing)
          (GetCompact (UintToArith256 params.powLimit)) (last :: prev) j x ∧
        (∀ i, i < j → ∀ y,
          ¬ StopsWalk (params.nPowTargetTimespan.tdiv params.nPowTargetSpacing)
            (GetCompact (UintToArith256 params.powLimit)) (last :: prev) i y) ∧
        testcase1 (last :: prev) pblock params = .ok x.nBits) := by
  refine ⟨?_, ?_, ?_⟩
  · intro hf
    unfold testcase1
    simp only [interval_ok params hs, cmod_ok _ _ hI]
    simp [hb, hf]
  · intro hf ht
    have ht2 : pblock.nTime > last.nTime + params.nPowTargetSpacing * 2 := by omega
    unfold testcase1
    simp only [interval_ok params hs, cmod_ok _ _ hI]
    simp [hb, hf, ht2]
  · intro hf ht
    have ht2 : ¬ pblock.nTime > last.nTime + params.nPowTargetSpacing * 2 := by omega
    obtain ⟨j, x, hstop, hmin, hres⟩ := lastNonMinDifficulty_spec
      (params.nPowTargetTimespan.tdiv params.nPowTargetSpacing)
      (GetCompact (UintToArith256 params.powLimit)) hI prev last
    refine ⟨j, x, hstop, hmin, ?_⟩
    unfold testcase1
    simp only [interval_ok params hs, cmod_ok _ _ hI]
    rw [if_pos hb, if_pos hf, if_neg ht2]
    exact hres

/-- Instance of C10 with `I = 36000 / 150 = 240` at height 100: (a) bits `0x1e00ffff`, both
flags false, gives `0x1e00ffff`; (b) a candidate more than 300 s late gives the limit
`0x1f00ffff`; (c) the walk passes two headers at the limit and returns `0x1e00abcd`. -/
theorem testcase1_off_boundary_witness :
    (36000 : Int).tdiv 150 = 240 ∧
    testcase1 (⟨100, 15000, 0x1e00ffff⟩ :: uniformChain 0x1f00ffff 0 150 99) { nTime := 15150 }
      { mainParams with nPowTargetTimespan := 36000 } = .ok 0x1e00ffff ∧
    testcase1 (⟨100, 15000, 0x1e00ffff⟩ :: uniformChain 0x1f00ffff 0 150 99) { nTime := 15301 }
      { mainParams with nPowTargetTimespan := 36000, fPowAllowMinDifficultyBlocks := true }
      = .ok 0x1f00ffff ∧
    testcase1 (⟨100, 15000, 0x1f00ffff⟩ :: ⟨99, 14850, 0x1f00ffff⟩ ::
        ⟨98, 14700, 0x1e00abcd⟩ :: uniformChain 0x1f00ffff 0 150 97) { nTime := 15150 }
      { mainParams with nPowTargetTimespan := 36000, fPowAllowMinDifficultyBlocks := true }
      = .ok 0x1e00abcd :=
  ⟨by decide,
    (testcase1_off_boundary ⟨100, 15000, 0x1e00ffff⟩ (uniformChain 0x1f00ffff 0 150 99)
      { nTime := 15150 } { mainParams with nPowTargetTimespan := 36000 }
      (by decide) (by decide) (by decide)).1 rfl,
    by decide, by decide⟩

theorem bitsAux_le : ∀ (fuel n : Nat), bitsAux fuel n ≤ fuel
  | 0, _ => by simp [bitsAux]
  | fuel + 1, n => by
    unfold bitsAux
    split
    · omega
    · have := bitsAux_le fuel (n / 2); omega

theorem bits_le (T : Nat) : bits T ≤ 256 := bitsAux_le 256 T

theorem bits_pos (T : Nat) (h : T ≠ 0) : 1 ≤ bits T := by
  unfold bits bitsAux
  rw [if_neg h]; omega

theorem toU64_of_nonneg (x : Int) (h0 : 0 ≤ x) (h1 : x < 2 ^ 64) : toU64 x = x.toNat := by
  unfold toU64
  rw [Int.emod_eq_of_lt h0 h1]

theorem sat256_le (n : Nat) : sat256 n ≤ maxU256 := by
  unfold sat256; omega

theorem sat256_of_le (n : Nat) (h : n ≤ maxU256) : sat256 n = n := by
  unfold sat256; omega

/-- C8: with `fPowNoRetargeting` off and valid parameters (time values within the signed
64-bit range), `testcase1_ext` returns the compact encoding of `min(X, powLimit)`, where
`a` is `last.time - first_time` clamped into `[timespan/4, timespan*4]`, `T_old` the
decoded `last.bits`, `s = 1` if `bitlen(T_old) > bitlen(powLimit) - 1` and `0` otherwise,
and `X = (((T_old >> s) * a) / timespan) << s` in 256-bit arithmetic; the effective `a`
lies in `[timespan/4, timespan*4]`. -/
theorem testcase1_ext_formula (last : BlockIndex) (prev : CBlockIndex)
    (nFirstBlockTime : Int) (params : Params) (hv : ValidParams params)
    (hr : params.nPowTargetTimespan * 4 < 2 ^ 63)
    (hno : params.fPowNoRetargeting = false) :
    testcase1_ext (last :: prev) nFirstBlockTime params
      = .ok (GetCompact (min
          (shl256
            (mul256
                (shr256 (SetCompact last.nBits).T
                  (if bits (SetCompact last.nBits).T > bits params.powLimit - 1 then 1 else 0))
                (min (max (last.nTime - nFirstBlockTime) (params.nPowTargetTimespan / 4))
                  (params.nPowTargetTimespan * 4)).toNat
              / params.nPowTargetTimespan.toNat)
            (if bits (SetCompact last.nBits).T > bits params.powLimit - 1 then 1 else 0))
          params.powLimit)) ∧
    params.nPowTargetTimespan / 4
      ≤ min (max (last.nTime - nFirstBlockTime) (params.nPowTargetTimespan / 4))
          (params.nPowTargetTimespan * 4) ∧
    min (max (last.nTime - nFirstBlockTime) (params.nPowTargetTimespan / 4))
        (params.nPowTargetTimespan * 4) ≤ params.nPowTargetTimespan * 4 := by
  obtain ⟨hs, hts, hp0, hp1⟩ := hv
  have htpos : 0 < params.nPowTargetTimespan := by omega
  have hdiv : params.nPowTargetTimespan.tdiv 4 = params.nPowTargetTimespan / 4 :=
    Int.tdiv_eq_ediv (by omega) (by omega)
  generalize ha : min (max (last.nTime - nFirstBlockTime) (params.nPowTargetTimespan / 4))
    (params.nPowTargetTimespan * 4) = a
  have hlo : params.nPowTargetTimespan / 4 ≤ a := by omega
  have hhi : a ≤ params.nPowTargetTimespan * 4 := by omega
  refine ⟨?_, hlo, hhi⟩
  have hP : UintToArith256 params.powLimit = params.powLimit := Nat.mod_eq_of_lt hp1
  have hbp := bits_pos params.powLimit (by omega)
  have hbl := bits_le params.powLimit
  have hwrap : (bits params.powLimit + 2 ^ 32 - 1) % 2 ^ 32 = bits params.powLimit - 1 := by
    omega
  have hau : toU64 a = a.toNat := toU64_of_nonneg a (by omega) (by omega)
  have htu : toU64 params.nPowTargetTimespan = params.nPowTargetTimespan.toNat :=
    toU64_of_nonneg _ (by omega) (by omega)
  have htn : params.nPowTargetTimespan.toNat ≠ 0 := by omega
  unfold testcase1_ext
  simp only [hno, hP, hwrap, clampSeq_eq, hdiv, ha, hau, htu, div256, if_neg htn]
  simp only [Bool.false_eq_true, if_false]
  have hmin : ∀ X : Nat, (if X > params.powLimit then params.powLimit else X)
      = min X params.powLimit := by
    intro X; split <;> omega
  by_cases hsft : bits (SetCompact last.nBits).T > bits params.powLimit - 1
  · simp only [hsft, decide_True, if_true, hmin]
  · simp only [hsft, decide_False, if_false, Bool.false_eq_true, hmin]
    have hy : mul256 ((SetCompact last.nBits).T) a.toNat / params.nPowTargetTimespan.toNat
        ≤ maxU256 :=
      le_trans (Nat.div_le_self _ _) (sat256_le _)
    have e0 : shr256 (SetCompact last.nBits).T 0 = (SetCompact last.nBits).T := by
      simp only [shr256, Nat.shiftRight_zero]
    have e1 : shl256 (mul256 ((SetCompact last.nBits).T) a.toNat
        / params.nPowTargetTimespan.toNat) 0
        = mul256 ((SetCompact last.nBits).T) a.toNat / params.nPowTargetTimespan.toNat := by
      simp only [shl256, Nat.shiftLeft_zero]
      exact sat256_of_le _ hy
    rw [e0, e1]

/-- Instance of C8 under the main parameters: bits `0x1e00ffff`, elapsed time 100 s
(clamped up to 150 s) gives a quarter of the old target. -/
theorem testcase1_ext_formula_witness :
    ValidParams mainParams ∧
    testcase1_ext [⟨3, 1100, 0x1e00ffff⟩] 1000 mainParams
      = .ok (GetCompact (min
          (shl256
            (mul256
                (shr256 (SetCompact 0x1e00ffff).T
                  (if bits (SetCompact 0x1e00ffff).T > bits mainParams.powLimit - 1 then 1
                    else 0))
                (min (max ((1100 : Int) - 1000) (mainParams.nPowTargetTimespan / 4))
                  (mainParams.nPowTargetTimespan * 4)).toNat
              / mainParams.nPowTargetTimespan.toNat)
            (if bits (SetCompact 0x1e00ffff).T > bits mainParams.powLimit - 1 then 1 else 0))
          mainParams.powLimit)) ∧
    testcase1_ext [⟨3, 1100, 0x1e00ffff⟩] 1000 mainParams = .ok 0x1d3fffc0 :=
  ⟨by decide,
    (testcase1_ext_formula ⟨3, 1100, 0x1e00ffff⟩ [] 1000 mainParams (by decide) (by decide)
      rfl).1,
    by decide⟩

/-! ## The compact codec: lemmas -/

theorem bitsAux_zero : ∀ fuel, bitsAux fuel 0 = 0
  | 0 => rfl
  | _ + 1 => by simp [bitsAux]

theorem lt_two_pow_bitsAux : ∀ (fuel n : Nat), n < 2 ^ fuel → n < 2 ^ bitsAux fuel n
  | 0, n, h => by simpa [bitsAux] using h
  | fuel + 1, n, h => by
    unfold bitsAux
    split
    · next h0 => subst h0; simp
    · have h2 : n / 2 < 2 ^ fuel := by
        rw [Nat.pow_succ] at h; omega
      have ih := lt_two_pow_bitsAux fuel (n / 2) h2
      rw [Nat.pow_succ]; omega

theorem two_pow_bitsAux_le : ∀ (fuel n : Nat), n ≠ 0 → 2 ^ (bitsAux fuel n - 1) ≤ n
  | 0, n, h => by simp [bitsAux]; omega
  | fuel + 1, n, h => by
    unfold bitsAux
    rw [if_neg h]
    simp only [Nat.add_sub_cancel]
    by_cases h2 : n / 2 = 0
    · rw [h2, bitsAux_zero]; simp; omega
    · have ih := two_pow_bitsAux_le fuel (n / 2) h2
      by_cases hb : bitsAux fuel (n / 2) = 0
      · rw [hb]; simp; omega
      · have e : bitsAux fuel (n / 2) = (bitsAux fuel (n / 2) - 1) + 1 := by omega
        rw [e, Nat.pow_succ]; omega

theorem lt_two_pow_bits (T : Nat) (h : T < 2 ^ 256) : T < 2 ^ bits T :=
  lt_two_pow_bitsAux 256 T h

theorem two_pow_bits_le (T : Nat) (h : T ≠ 0) : 2 ^ (bits T - 1) ≤ T :=
  two_pow_bitsAux_le 256 T h

theorem bits_eq_zero (T : Nat) (h : T = 0) : bits T = 0 := by
  subst h; exact bitsAux_zero 256

theorem size_of_bounds (T k : Nat) (hT : T < 2 ^ 256) (hlo : 2 ^ (8 * k) ≤ T)
    (hhi : T < 2 ^ (8 * (k + 1))) : (bits T + 7) / 8 = k + 1 := by
  have hT0 : T ≠ 0 := by
    have := Nat.pos_pow_of_pos (8 * k) (by norm_num : 0 < 2)
    omega
  have h1 := lt_two_pow_bits T hT
  have h2 := two_pow_bits_le T hT0
  have a1 : 8 * k < bits T := (Nat.pow_lt_pow_iff_right (by norm_num)).1 (lt_of_le_of_lt hlo h1)
  have a2 : bits T - 1 < 8 * (k + 1) :=
    (Nat.pow_lt_pow_iff_right (by norm_num)).1 (lt_of_le_of_lt h2 hhi)
  omega

theorem testBit23 (w : Nat) (hw : w < 2 ^ 24) : (w &&& 0x00800000 ≠ 0) ↔ 2 ^ 23 ≤ w := by
  have e : (0x00800000 : Nat) = 2 ^ 23 := by norm_num
  rw [e, Nat.and_two_pow, Nat.testBit_to_div_mod]
  by_cases hb : w / 2 ^ 23 % 2 = 1
  · simp only [hb, decide_True, Bool.toNat_true, Nat.one_mul]
    constructor
    · intro _; omega
    · intro _; norm_num
  · simp only [hb, decide_False, Bool.toNat_false, Nat.zero_mul]
    constructor
    · intro h; exact absurd rfl h
    · intro h; omega

theorem mask23 (x : Nat) : x &&& 0x007fffff = x % 2 ^ 23 := by
  have e : (0x007fffff : Nat) = 2 ^ 23 - 1 := by norm_num
  rw [e, Nat.and_pow_two_sub_one_eq_mod]

theorem mask8 (x : Nat) : x &&& 0xff = x % 2 ^ 8 := by
  have e : (0xff : Nat) = 2 ^ 8 - 1 := by norm_num
  rw [e, Nat.and_pow_two_sub_one_eq_mod]

theorem mask1 (x : Nat) : x &&& 1 = x % 2 := by
  simp

theorem pack (s m : Nat) (hm : m < 2 ^ 24) : (s <<< 24) ||| m = s * 2 ^ 24 + m := by
  rw [Nat.shiftLeft_eq, Nat.mul_comm, ← Nat.mul_add_lt_is_or hm]

theorem compactSize_le (T : Nat) : compactSize T ≤ 32 := by
  have := bits_le T
  unfold compactSize; omega

theorem lt_pow_compactSize (T : Nat) (hT : T < 2 ^ 256) : T < 2 ^ (8 * compactSize T) := by
  have h1 := lt_two_pow_bits T hT
  have h2 : bits T ≤ 8 * compactSize T := by unfold compactSize; omega
  exact lt_of_lt_of_le h1 (Nat.pow_le_pow_right (by norm_num) h2)

theorem compactWord_lt (T : Nat) (hT : T < 2 ^ 256) : compactWord T < 2 ^ 24 := by
  have h := lt_pow_compactSize T hT
  unfold compactWord
  split
  · next hs =>
    rw [Nat.div_lt_iff_lt_mul (Nat.pos_pow_of_pos _ (by norm_num)), ← Nat.pow_add]
    have e : 24 + 8 * (compactSize T - 3) = 8 * compactSize T := by omega
    rw [e]; exact h
  · next hs =>
    have e : 24 = 8 * compactSize T + 8 * (3 - compactSize T) := by omega
    rw [e, Nat.pow_add]
    exact Nat.mul_lt_mul_of_pos_right h (Nat.pos_pow_of_pos _ (by norm_num))

/-- Arithmetic form of `GetCompact` on 256-bit values. -/
theorem GetCompact_eq (T : Nat) (hT : T < 2 ^ 256) :
    GetCompact T = if 2 ^ 23 ≤ compactWord T
      then (compactSize T + 1) * 2 ^ 24 + compactWord T / 256
      else compactSize T * 2 ^ 24 + compactWord T := by
  have hw := compactWord_lt T hT
  have hword : (if (bits T + 7) / 8 > 3 then T >>> (8 * ((bits T + 7) / 8 - 3))
      else T <<< (8 * (3 - (bits T + 7) / 8))) = compactWord T := by
    unfold compactWord compactSize
    simp only [Nat.shiftRight_eq_div_pow, Nat.shiftLeft_eq]
  unfold GetCompact
  simp only [hword]
  by_cases hhi : 2 ^ 23 ≤ compactWord T
  · have h1 : compactWord T &&& 0x00800000 ≠ 0 := (testBit23 _ hw).2 hhi
    have h2 : compactWord T / 256 < 2 ^ 23 := by omega
    simp only [h1, decide_True, if_true, ne_eq, not_false_eq_true, hhi, mask23,
      Nat.shiftRight_eq_div_pow, compactSize]
    rw [show (2 : Nat) ^ 8 = 256 from by norm_num, Nat.mod_eq_of_lt h2]
    exact pack _ _ (by omega)
  · have h1 : ¬ (compactWord T &&& 0x00800000 ≠ 0) := fun h => hhi ((testBit23 _ hw).1 h)
    have h2 : compactWord T < 2 ^ 23 := by omega
    simp only [h1, decide_False, if_false, hhi, mask23, compactSize, Bool.false_eq_true]
    rw [Nat.mod_eq_of_lt h2]
    exact pack _ _ (by omega)

/-- Arithmetic form of `SetCompact` on a compact value with size byte `s` and a mantissa
`m` below bit 23. -/
theorem SetCompact_eq (s m : Nat) (hs : s < 256) (hm : m < 2 ^ 23) :
    SetCompact (s * 2 ^ 24 + m) =
      { T := if s ≤ 3 then m / 2 ^ (8 * (3 - s)) else sat256 (m * 2 ^ (8 * (s - 3)))
        negative := false
        overflow := decide (m ≠ 0) &&
          (decide (s > 34) || (decide (s > 33) && decide (m > 0xff)) ||
            (decide (s > 32) && decide (m > 0xffff))) } := by
  have e1 : ((s * 2 ^ 24 + m) >>> 24) &&& 0xff = s := by
    rw [mask8, Nat.shiftRight_eq_div_pow]; omega
  have e2 : (s * 2 ^ 24 + m) &&& 0x007fffff = m := by
    rw [mask23]; omega
  have e3 : ((s * 2 ^ 24 + m) >>> 23) &&& 1 = 0 := by
    rw [mask1, Nat.shiftRight_eq_div_pow]; omega
  unfold SetCompact
  simp only [e1, e2, e3]
  simp only [shr256, shl256, Nat.shiftRight_eq_div_pow, Nat.shiftLeft_eq]
  simp

theorem sat256_le_self (n : Nat) : sat256 n ≤ n := by
  unfold sat256; omega

theorem compactWord_small (T : Nat) (h : compactSize T ≤ 3) :
    compactWord T = T * 2 ^ (8 * (3 - compactSize T)) := by
  unfold compactWord; rw [if_neg (by omega)]

theorem compactWord_large (T : Nat) (h : 3 < compactSize T) :
    compactWord T = T / 2 ^ (8 * (compactSize T - 3)) := by
  unfold compactWord; rw [if_pos (by omega)]

/-- Encoding truncates: decoding the compact form of a 256-bit value never gives more
than the value. -/
theorem decode_encode_le (T : Nat) (hT : T < 2 ^ 256) : (SetCompact (GetCompact T)).T ≤ T := by
  have hw := compactWord_lt T hT
  have hs := compactSize_le T
  rw [GetCompact_eq T hT]
  split
  · next hhi =>
    rw [SetCompact_eq _ _ (by omega) (by omega)]
    simp only []
    split
    · next h3 =>
      have hwd := compactWord_small T (by omega)
      have e : 8 * (3 - compactSize T) = 8 + 8 * (3 - (compactSize T + 1)) := by omega
      rw [hwd, e, Nat.pow_add, Nat.div_div_eq_div_mul, ← Nat.mul_assoc]
      rw [show (256 : Nat) = 2 ^ 8 from by norm_num]
      rw [Nat.mul_assoc, Nat.mul_div_cancel _ (by positivity)]
    · next h3 =>
      refine le_trans (sat256_le_self _) ?_
      by_cases h4 : compactSize T = 3
      · have hwd := compactWord_small T (by omega)
        rw [hwd, h4]
        norm_num
        omega
      · have hwd := compactWord_large T (by omega)
        have e : 8 * (compactSize T + 1 - 3) = 8 + 8 * (compactSize T - 3) := by omega
        rw [e, Nat.pow_add, ← Nat.mul_assoc]
        have h5 : compactWord T / 256 * 2 ^ 8 ≤ compactWord T := by
          norm_num; omega
        calc compactWord T / 256 * 2 ^ 8 * 2 ^ (8 * (compactSize T - 3))
            ≤ compactWord T * 2 ^ (8 * (compactSize T - 3)) := Nat.mul_le_mul_right _ h5
          _ = T / 2 ^ (8 * (compactSize T - 3)) * 2 ^ (8 * (compactSize T - 3)) := by rw [hwd]
          _ ≤ T := Nat.div_mul_le_self _ _
  · next hhi =>
    rw [SetCompact_eq _ _ (by omega) (by omega)]
    simp only []
    split
    · next h3 =>
      rw [compactWord_small T h3, Nat.mul_div_cancel _ (by positivity)]
    · next h3 =>
      refine le_trans (sat256_le_self _) ?_
      rw [compactWord_large T (by omega)]
      exact Nat.div_mul_le_self _ _

theorem GetCompact_canonical (m k : Nat) (hm1 : 2 ^ 15 ≤ m) (hm2 : m < 2 ^ 23)
    (hk : k ≤ 29) : GetCompact (m * 2 ^ (8 * k)) = (k + 3) * 2 ^ 24 + m := by
  have hpk : 0 < 2 ^ (8 * k) := Nat.pos_pow_of_pos _ (by norm_num)
  have hT : m * 2 ^ (8 * k) < 2 ^ 256 := by
    have h1 : m * 2 ^ (8 * k) < 2 ^ 23 * 2 ^ (8 * k) := Nat.mul_lt_mul_of_pos_right hm2 hpk
    have h2 : 2 ^ 23 * 2 ^ (8 * k) ≤ 2 ^ 256 := by
      rw [← Nat.pow_add]; exact Nat.pow_le_pow_right (by norm_num) (by omega)
    omega
  by_cases h16 : 2 ^ 16 ≤ m
  · have hsz : compactSize (m * 2 ^ (8 * k)) = k + 3 := by
      refine size_of_bounds _ (k + 2) hT ?_ ?_
      · rw [show 8 * (k + 2) = 16 + 8 * k from by omega, Nat.pow_add]
        exact Nat.mul_le_mul_right _ h16
      · rw [show 8 * (k + 2 + 1) = 24 + 8 * k from by omega, Nat.pow_add]
        exact Nat.mul_lt_mul_of_pos_right (by omega) hpk
    have hwd : compactWord (m * 2 ^ (8 * k)) = m := by
      unfold compactWord
      rw [hsz]
      split
      · rw [show k + 3 - 3 = k from by omega, Nat.mul_div_cancel _ hpk]
      · have : k = 0 := by omega
        subst this; simp
    rw [GetCompact_eq _ hT, hwd, hsz, if_neg (by omega)]
  · have hsz : compactSize (m * 2 ^ (8 * k)) = k + 2 := by
      refine size_of_bounds _ (k + 1) hT ?_ ?_
      · rw [show 8 * (k + 1) = 8 + 8 * k from by omega, Nat.pow_add]
        exact Nat.mul_le_mul_right _ (by omega)
      · rw [show 8 * (k + 1 + 1) = 16 + 8 * k from by omega, Nat.pow_add]
        exact Nat.mul_lt_mul_of_pos_right (by omega) hpk
    have hwd : compactWord (m * 2 ^ (8 * k)) = m * 256 := by
      unfold compactWord
      rw [hsz]
      split
      · have e : 8 * k = 8 + 8 * (k + 2 - 3) := by omega
        have hp : 0 < 2 ^ (8 * (k + 2 - 3)) := Nat.pos_pow_of_pos _ (by norm_num)
        rw [e, Nat.pow_add, ← Nat.mul_assoc, Nat.mul_div_cancel _ hp]
      · have hk1 : k = 0 ∨ k = 1 := by omega
        rcases hk1 with h | h <;> subst h <;> norm_num
    rw [GetCompact_eq _ hT, hwd, hsz, if_pos (by omega), Nat.mul_div_cancel _ (by norm_num)]

/-- Every value `w * 256^k` with a mantissa below bit 23 is either below `2^15` or of the
form `m * 256^j` with `2^15 ≤ m < 2^23`. -/
theorem mantissa_normal : ∀ (k w : Nat), w < 2 ^ 23 →
    w * 256 ^ k < 2 ^ 15 ∨
      ∃ m j, w * 256 ^ k = m * 2 ^ (8 * j) ∧ 2 ^ 15 ≤ m ∧ m < 2 ^ 23
  | 0, w, hw => by
    by_cases h : w < 2 ^ 15
    · left; simpa using h
    · right; exact ⟨w, 0, by simp, by omega, hw⟩
  | k + 1, w, hw => by
    by_cases h : w < 2 ^ 15
    · have e : w * 256 ^ (k + 1) = (w * 256) * 256 ^ k := by
        rw [Nat.pow_succ]; ring
      rw [e]
      exact mantissa_normal k (w * 256) (by omega)
    · right
      refine ⟨w, k + 1, ?_, by omega, hw⟩
      rw [Nat.pow_mul]

/-- Values below `2^16` survive the round trip through the compact form. -/
theorem decode_encode_small (T : Nat) (hT : T < 2 ^ 16) :
    SetCompact (GetCompact T) = { T := T, negative := false, overflow := false } := by
  have hT256 : T < 2 ^ 256 := lt_of_lt_of_le hT (Nat.pow_le_pow_right (by norm_num) (by norm_num))
  have hs : compactSize T ≤ 2 := by
    by_cases h0 : T = 0
    · unfold compactSize; rw [bits_eq_zero T h0]; norm_num
    · have h2 := two_pow_bits_le T h0
      have : bits T - 1 < 16 := (Nat.pow_lt_pow_iff_right (by norm_num)).1 (lt_of_le_of_lt h2 hT)
      unfold compactSize; omega
  have hw := compactWord_lt T hT256
  have hwd := compactWord_small T (by omega)
  rw [GetCompact_eq T hT256]
  split
  · next hhi =>
    rw [SetCompact_eq _ _ (by omega) (by omega)]
    have e : 8 * (3 - compactSize T) = 8 + 8 * (3 - (compactSize T + 1)) := by omega
    have hval : compactWord T / 256 / 2 ^ (8 * (3 - (compactSize T + 1))) = T := by
      rw [hwd, e, Nat.pow_add, Nat.div_div_eq_div_mul, ← Nat.mul_assoc]
      rw [show (256 : Nat) = 2 ^ 8 from by norm_num]
      rw [Nat.mul_assoc, Nat.mul_div_cancel _ (by positivity)]
    rw [if_pos (by omega), hval]
    have h1 : ¬ (compactSize T + 1 > 34) := by omega
    have h2 : ¬ (compactSize T + 1 > 33) := by omega
    have h3 : ¬ (compactSize T + 1 > 32) := by omega
    simp [h1, h2, h3]
  · next hhi =>
    rw [SetCompact_eq _ _ (by omega) (by omega)]
    have hval : compactWord T / 2 ^ (8 * (3 - compactSize T)) = T := by
      rw [hwd, Nat.mul_div_cancel _ (by positivity)]
    rw [if_pos (by omega), hval]
    have h1 : ¬ (compactSize T > 34) := by omega
    have h2 : ¬ (compactSize T > 33) := by omega
    have h3 : ¬ (compactSize T > 32) := by omega
    simp [h1, h2, h3]

/-- Decoding a canonical compact value. -/
theorem SetCompact_canonical (m k : Nat) (hm2 : m < 2 ^ 23) (hk : k ≤ 29) :
    SetCompact ((k + 3) * 2 ^ 24 + m)
      = { T := m * 2 ^ (8 * k), negative := false, overflow := false } := by
  rw [SetCompact_eq _ _ (by omega) hm2]
  have hT : m * 2 ^ (8 * k) ≤ maxU256 := by
    have hpk : 0 < 2 ^ (8 * k) := Nat.pos_pow_of_pos _ (by norm_num)
    have h1 : m * 2 ^ (8 * k) < 2 ^ 23 * 2 ^ (8 * k) := Nat.mul_lt_mul_of_pos_right hm2 hpk
    have h2 : 2 ^ 23 * 2 ^ (8 * k) ≤ 2 ^ 255 := by
      rw [← Nat.pow_add]; exact Nat.pow_le_pow_right (by norm_num) (by omega)
    unfold maxU256
    have h3 : (2 : Nat) ^ 255 ≤ 2 ^ 256 - 1 := by norm_num
    omega
  have h1 : ¬ (k + 3 > 34) := by omega
  have h2 : ¬ (k + 3 > 33) := by omega
  have h3 : ¬ (k + 3 > 32) := by omega
  have hval : (if k + 3 ≤ 3 then m / 2 ^ (8 * (3 - (k + 3)))
      else sat256 (m * 2 ^ (8 * (k + 3 - 3)))) = m * 2 ^ (8 * k) := by
    split
    · have : k = 0 := by omega
      subst this; simp
    · rw [show k + 3 - 3 = k from by omega]; exact sat256_of_le _ hT
  rw [hval]
  simp [h1, h2, h3]

/-- C4: for every 256-bit `T` exactly representable with a 23-bit mantissa, that is
`T = w * 256^k` with `w ≤ 0x7fffff` and `bitlen(T) ≤ 248`, decoding the compact encoding
of `T` gives back `T` with the negative and overflow flags clear. -/
theorem compact_decode_encode (T w k : Nat) (hT : T < 2 ^ 256) (hrep : T = w * 256 ^ k)
    (hw : w ≤ 0x7fffff) (hlen : bits T ≤ 248) :
    SetCompact (GetCompact T) = { T := T, negative := false, overflow := false } := by
  have h248 : T < 2 ^ 248 :=
    lt_of_lt_of_le (lt_two_pow_bits T hT) (Nat.pow_le_pow_right (by norm_num) hlen)
  rcases mantissa_normal k w (by omega) with hsmall | ⟨m, j, hmj, hm1, hm2⟩
  · rw [← hrep] at hsmall
    exact decode_encode_small T (by omega)
  · rw [← hrep] at hmj
    have hj : j ≤ 29 := by
      by_contra hcon
      have h1 : 2 ^ 15 * 2 ^ (8 * j) ≤ m * 2 ^ (8 * j) := Nat.mul_le_mul_right _ hm1
      have h2 : (2 : Nat) ^ 248 ≤ 2 ^ 15 * 2 ^ (8 * j) := by
        rw [← Nat.pow_add]; exact Nat.pow_le_pow_right (by norm_num) (by omega)
      omega
    rw [hmj, GetCompact_canonical m j hm1 hm2 hj, SetCompact_canonical m j hm2 hj]

/-- Instance of C4: `T = 0xffff * 256^26`, the target of `0x1d00ffff`. -/
theorem compact_decode_encode_witness :
    SetCompact (GetCompact (0xffff * 256 ^ 26))
      = { T := 0xffff * 256 ^ 26, negative := false, overflow := false } :=
  compact_decode_encode (0xffff * 256 ^ 26) 0xffff 26 (by norm_num) rfl (by norm_num)
    (by decide)

/-- C5: for every canonical compact value (32 bits, sign bit clear, size byte in
`[3, 32]`, mantissa `bits & 0x007fffff` in `[0x008000, 0x7fffff]`), encoding the decoded
target gives back the compact value. -/
theorem compact_encode_decode (nBits : Nat) (h32 : nBits < 2 ^ 32)
    (hsign : (nBits >>> 23) &&& 1 = 0)
    (hsize : 3 ≤ (nBits >>> 24) &&& 0xff ∧ (nBits >>> 24) &&& 0xff ≤ 32)
    (hmant : 0x008000 ≤ nBits &&& 0x007fffff ∧ nBits &&& 0x007fffff ≤ 0x7fffff) :
    GetCompact (SetCompact nBits).T = nBits := by
  rw [mask1, Nat.shiftRight_eq_div_pow] at hsign
  rw [mask8, Nat.shiftRight_eq_div_pow] at hsize
  rw [mask23] at hmant
  have hdec : nBits = ((nBits / 2 ^ 24 - 3) + 3) * 2 ^ 24 + nBits % 2 ^ 23 := by omega
  have hk : nBits / 2 ^ 24 - 3 ≤ 29 := by omega
  have hm2 : nBits % 2 ^ 23 < 2 ^ 23 := Nat.mod_lt _ (by norm_num)
  generalize nBits / 2 ^ 24 - 3 = k at hdec hk
  generalize nBits % 2 ^ 23 = m at hdec hm2 hmant
  rw [hdec, SetCompact_canonical m k hm2 hk]
  exact GetCompact_canonical m k (by omega) hm2 hk

/-- Instance of C5: the compact value `0x1d00ffff`. -/
theorem compact_encode_decode_witness :
    GetCompact (SetCompact 0x1d00ffff).T = 0x1d00ffff :=
  compact_encode_decode 0x1d00ffff (by norm_num) (by decide) (by decide) (by decide)

/-! ## The bound on the returned target -/

theorem UintToArith256_lt (x : Nat) : UintToArith256 x < 2 ^ 256 :=
  Nat.mod_lt _ (by norm_num)

theorem limit_bound (P : Nat) (hP : P < 2 ^ 256) : (SetCompact (GetCompact P)).T ≤ P :=
  decode_encode_le P hP

theorem clamp_bound (X P : Nat) (hP : P < 2 ^ 256) :
    (SetCompact (GetCompact (if X > P then P else X))).T ≤ P := by
  have h : (if X > P then P else X) ≤ P := by split <;> omega
  exact le_trans (decode_encode_le _ (by omega)) h

theorem testcase2_bound (pindexLast : CBlockIndex) (pblock : CBlockHeader) (params : Params)
    (v : Nat) (h : testcase2 pindexLast pblock params = .ok v) :
    (SetCompact v).T ≤ UintToArith256 params.powLimit := by
  have hP := UintToArith256_lt params.powLimit
  unfold testcase2 at h
  simp only [] at h
  split at h
  · cases h; exact limit_bound _ hP
  · split at h
    · cases h; exact limit_bound _ hP
    · split at h
      · cases h; exact limit_bound _ hP
      · split at h
        · cases h; exact clamp_bound _ _ hP
        · split at h
          · cases h
          · split at h
            · cases h
            · cases h; exact clamp_bound _ _ hP

theorem testcase3_bound (horizon : Nat → Int → Int → Bool) (pindexLast : CBlockIndex)
    (params : Params) (v : Nat) (h : testcase3 horizon pindexLast params = .ok v) :
    (SetCompact v).T ≤ UintToArith256 params.powLimit := by
  have hP := UintToArith256_lt params.powLimit
  unfold testcase3 at h
  simp only [] at h
  split at h
  · cases h
  · split at h
    · cases h; exact limit_bound _ hP
    · split at h
      · cases h; exact limit_bound _ hP
      · cases h; exact clamp_bound _ _ hP

theorem testcase5_bound (horizon : Nat → Int → Int → Bool) (pindexLast : CBlockIndex)
    (pblock : CBlockHeader) (params : Params) (v : Nat)
    (h : testcase5 horizon pindexLast pblock params = .ok v) :
    (SetCompact v).T ≤ UintToArith256 params.powLimit := by
  have hP := UintToArith256_lt params.powLimit
  unfold testcase5 at h
  simp only [] at h
  split at h
  · cases h
  · split at h
    · cases h; exact limit_bound _ hP
    · split at h
      · cases h; exact limit_bound _ hP
      · split at h
        · cases h
        · cases h; exact clamp_bound _ _ hP

theorem testcase6_bound (pindexLast : CBlockIndex) (params : Params) (v : Nat)
    (h : testcase6 pindexLast params = .ok v) :
    (SetCompact v).T ≤ UintToArith256 params.powLimit := by
  have hP := UintToArith256_lt params.powLimit
  unfold testcase6 at h
  simp only [] at h
  split at h
  · cases h
  · split at h
    · cases h
    · cases h
    · split at h
      · cases h
      · split at h
        · cases h
        · cases h; exact clamp_bound _ _ hP

theorem testcase1_ext_bound (pindexLast : CBlockIndex) (nFirstBlockTime : Int)
    (params : Params) (v : Nat) (h : testcase1_ext pindexLast nFirstBlockTime params = .ok v) :
    (SetCompact v).T ≤ UintToArith256 params.powLimit ∨ ∃ b ∈ pindexLast, v = b.nBits := by
  have hP := UintToArith256_lt params.powLimit
  unfold testcase1_ext at h
  split at h
  · cases h
  · split at h
    · cases h; right; exact ⟨_, List.mem_cons_self _ _, rfl⟩
    · simp only [] at h
      split at h
      · cases h
      · cases h; left; exact clamp_bound _ _ hP

theorem lastNonMinDifficulty_mem (I : Int) (limit : Nat) :
    ∀ (rest : CBlockIndex) (b : BlockIndex) (v : Nat),
      lastNonMinDifficulty I limit b rest = .ok v → ∃ x ∈ b :: rest, v = x.nBits
  | [], b, v, h => by
    simp only [lastNonMinDifficulty] at h
    cases h; exact ⟨b, List.mem_cons_self _ _, rfl⟩
  | p :: rest, b, v, h => by
    simp only [lastNonMinDifficulty] at h
    split at h
    · cases h
    · split at h
      · obtain ⟨x, hx, hv⟩ := lastNonMinDifficulty_mem I limit rest p v h
        exact ⟨x, List.mem_cons_of_mem _ hx, hv⟩
      · cases h; exact ⟨b, List.mem_cons_self _ _, rfl⟩

theorem testcase1_bound (pindexLast : CBlockIndex) (pblock : CBlockHeader) (params : Params)
    (v : Nat) (h : testcase1 pindexLast pblock params = .ok v) :
    (SetCompact v).T ≤ UintToArith256 params.powLimit ∨ ∃ b ∈ pindexLast, v = b.nBits := by
  have hP := UintToArith256_lt params.powLimit
  unfold testcase1 at h
  split at h
  · cases h
  · simp only [] at h
    split at h
    · cases h
    · split at h
      · cases h
      · split at h
        · split at h
          · split at h
            · cases h; left; exact limit_bound _ hP
            · right; exact lastNonMinDifficulty_mem _ _ _ _ _ h
          · cases h; right; exact ⟨_, List.mem_cons_self _ _, rfl⟩
        · split at h
          · cases h
          · exact testcase1_ext_bound _ _ _ _ h

theorem testcase4_off_boundary_value (last : BlockIndex) (prev : CBlockIndex)
    (pblock : CBlockHeader) (params : Params) (v : Nat)
    (hb : ((last.nHeight : Int) + 1).tmod
      (params.nPowTargetTimespan.tdiv params.nPowTargetSpacing) ≠ 0)
    (h : testcase4 (last :: prev) pblock params = .ok v) : v = last.nBits := by
  unfold testcase4 at h
  simp only [] at h
  split at h
  · cases h
  · split at h
    · cases h
    · next r hr =>
      simp only [cmod] at hr
      split at hr
      · cases hr
      · cases hr
        rw [if_pos hb] at h
        simp only [Bool.false_eq_true, if_false] at h
        cases h; rfl

/-- C3 as stated fails: under the (valid) main parameters, off a retarget boundary,
`testcase1` returns the bits `0x2000ffff` of `last` unchanged, and they decode to a target
above `powLimit`. -/
theorem retarget_output_bound_counterexample :
    ValidParams mainParams ∧
    WellFormed (⟨100, 15000, 0x2000ffff⟩ :: uniformChain 0x1e00ffff 0 150 99) ∧
    testcase1 (⟨100, 15000, 0x2000ffff⟩ :: uniformChain 0x1e00ffff 0 150 99)
      { nTime := 15150 } mainParams = .ok 0x2000ffff ∧
    ¬ (SetCompact 0x2000ffff).T ≤ UintToArith256 mainParams.powLimit := by
  refine ⟨by decide, by decide, by decide, by decide⟩

/-- C3 (amended): for `testcase2`, `testcase3`, `testcase5` and `testcase6`, every
parameter record and every chain and candidate on which the algorithm returns, the
returned compact value decodes to a target at most `powLimit`; for `testcase1`, and for
`testcase4` off a retarget boundary, the same holds on every chain whose headers all carry
bits that decode to a target at most `powLimit` (these two can return a header's bits
unchanged). `testcase4` at a retarget boundary is not covered. -/
theorem retarget_output_bound (horizon3 horizon5 : Nat → Int → Int → Bool)
    (pindexLast : CBlockIndex) (pblock : CBlockHeader) (params : Params) (v : Nat) :
    (testcase2 pindexLast pblock params = .ok v →
      (SetCompact v).T ≤ UintToArith256 params.powLimit) ∧
    (testcase3 horizon3 pindexLast params = .ok v →
      (SetCompact v).T ≤ UintToArith256 params.powLimit) ∧
    (testcase5 horizon5 pindexLast pblock params = .ok v →
      (SetCompact v).T ≤ UintToArith256 params.powLimit) ∧
    (testcase6 pindexLast params = .ok v →
      (SetCompact v).T ≤ UintToArith256 params.powLimit) ∧
    ((∀ b ∈ pindexLast, (SetCompact b.nBits).T ≤ UintToArith256 params.powLimit) →
      testcase1 pindexLast pblock params = .ok v →
      (SetCompact v).T ≤ UintToArith256 params.powLimit) ∧
    ((∀ b ∈ pindexLast, (SetCompact b.nBits).T ≤ UintToArith256 params.powLimit) →
      (∀ last ∈ pindexLast.head?, ((last.nHeight : Int) + 1).tmod
        (params.nPowTargetTimespan.tdiv params.nPowTargetSpacing) ≠ 0) →
      testcase4 pindexLast pblock params = .ok v →
      (SetCompact v).T ≤ UintToArith256 params.powLimit) := by
  refine ⟨testcase2_bound _ _ _ _, testcase3_bound _ _ _ _, testcase5_bound _ _ _ _ _,
    testcase6_bound _ _ _, ?_, ?_⟩
  · intro hchain h
    rcases testcase1_bound _ _ _ _ h with hb | ⟨b, hmem, hv⟩
    · exact hb
    · rw [hv]; exact hchain b hmem
  · intro hchain hoff h
    cases pindexLast with
    | nil =>
      unfold testcase4 at h
      simp only [] at h
      split at h
      · cases h
      · cases h; exact limit_bound _ (UintToArith256_lt _)
    | cons last prev =>
      have hv := testcase4_off_boundary_value last prev pblock params v
        (hoff last (by simp)) h
      rw [hv]; exact hchain last (List.mem_cons_self _ _)

/-- Instance of the amended C3 under the main parameters: at height 7 (a retarget
boundary, `I = 4`) with 200 s between blocks, `testcase1` returns `0x1e015554`, which
decodes below `powLimit`. -/
theorem retarget_output_bound_witness :
    testcase1 (uniformChain 0x1e00ffff 0 200 7) { nTime := 1500 } mainParams
      = .ok 0x1e015554 ∧
    (SetCompact 0x1e015554).T ≤ UintToArith256 mainParams.powLimit :=
  ⟨by decide,
    (retarget_output_bound (fun _ _ _ => false) (fun _ _ _ => false)
      (uniformChain 0x1e00ffff 0 200 7) { nTime := 1500 } mainParams 0x1e015554).2.2.2.2.1
      (by decide) (by decide)⟩

/-! ## Algorithm 1: the clamp floor and the shift guard -/

/-- What `testcase1_ext` computes when retargeting is on and the timespan is positive and
within the signed 64-bit range, written with the operators of the 256-bit layer. -/
theorem testcase1_ext_eval (last : BlockIndex) (prev : CBlockIndex) (nFirstBlockTime : Int)
    (params : Params) (hts : 0 < params.nPowTargetTimespan)
    (hr : params.nPowTargetTimespan * 4 < 2 ^ 63) (hno : params.fPowNoRetargeting = false) :
    testcase1_ext (last :: prev) nFirstBlockTime params
      = .ok (GetCompact (min
          (if bits (SetCompact last.nBits).T
              > (bits (UintToArith256 params.powLimit) + 2 ^ 32 - 1) % 2 ^ 32
            then shl256 (mul256 (shr256 (SetCompact last.nBits).T 1)
                (min (max (last.nTime - nFirstBlockTime) (params.nPowTargetTimespan / 4))
                  (params.nPowTargetTimespan * 4)).toNat
              / params.nPowTargetTimespan.toNat) 1
            else mul256 (SetCompact last.nBits).T
                (min (max (last.nTime - nFirstBlockTime) (params.nPowTargetTimespan / 4))
                  (params.nPowTargetTimespan * 4)).toNat
              / params.nPowTargetTimespan.toNat)
          (UintToArith256 params.powLimit))) := by
  have hdiv : params.nPowTargetTimespan.tdiv 4 = params.nPowTargetTimespan / 4 :=
    Int.tdiv_eq_ediv (by omega) (by omega)
  generalize ha : min (max (last.nTime - nFirstBlockTime) (params.nPowTargetTimespan / 4))
    (params.nPowTargetTimespan * 4) = a
  have hlo : params.nPowTargetTimespan / 4 ≤ a := by omega
  have hhi : a ≤ params.nPowTargetTimespan * 4 := by omega
  have hau : toU64 a = a.toNat := toU64_of_nonneg a (by omega) (by omega)
  have htu : toU64 params.nPowTargetTimespan = params.nPowTargetTimespan.toNat :=
    toU64_of_nonneg _ (by omega) (by omega)
  have htn : params.nPowTargetTimespan.toNat ≠ 0 := by omega
  have hmin : ∀ X : Nat, (if X > UintToArith256 params.powLimit
      then UintToArith256 params.powLimit else X)
      = min X (UintToArith256 params.powLimit) := by
    intro X; split <;> omega
  unfold testcase1_ext
  simp only [hno, clampSeq_eq, hdiv, ha, hau, htu, div256, if_neg htn]
  simp only [Bool.false_eq_true, if_false, hmin]
  by_cases hsft : bits (SetCompact last.nBits).T
      > (bits (UintToArith256 params.powLimit) + 2 ^ 32 - 1) % 2 ^ 32
  · simp only [hsft, decide_True, if_true]
  · simp only [hsft, decide_False, if_false, Bool.false_eq_true]

theorem mul256_of_lt (a k : Nat) (h : a * k < 2 ^ 256) : mul256 a k = a * k := by
  unfold mul256
  exact sat256_of_le _ (by unfold maxU256; omega)

theorem shl256_of_lt (a n : Nat) (h : a * 2 ^ n < 2 ^ 256) : shl256 a n = a * 2 ^ n := by
  unfold shl256
  rw [Nat.shiftLeft_eq]
  exact sat256_of_le _ (by unfold maxU256; omega)

theorem bits_wrap (P : Nat) (h : P ≠ 0) : (bits P + 2 ^ 32 - 1) % 2 ^ 32 = bits P - 1 := by
  have h1 := bits_pos P h
  have h2 := bits_le P
  omega

/-- C11 as stated fails: with the valid parameters `timespan = 602`, `spacing = 150`
(`I = 4`), an elapsed time of 1 s and no shift, `testcase1_ext` multiplies by `150 / 602`,
not by `1/4`: it returns `0x1d3fc951`, and so does `testcase1` at the retarget boundary of
height 3, while the compact encoding of `min(⌊T_old / 4⌋, powLimit)` is `0x1d3fffc0`. -/
theorem testcase1_ext_clamp_floor_counterexample :
    ValidParams { mainParams with nPowTargetTimespan := 602 } ∧
    (1001 : Int) - 1000 ≤ (602 : Int) / 4 ∧
    ¬ (bits (SetCompact 0x1e00ffff).T > bits mainParams.powLimit - 1) ∧
    testcase1_ext [⟨3, 1001, 0x1e00ffff⟩] 1000 { mainParams with nPowTargetTimespan := 602 }
      = .ok 0x1d3fc951 ∧
    testcase1 [⟨3, 1001, 0x1e00ffff⟩, ⟨2, 1000, 0x1e00ffff⟩, ⟨1, 1000, 0x1e00ffff⟩,
        ⟨0, 1000, 0x1e00ffff⟩] { nTime := 1002 } { mainParams with nPowTargetTimespan := 602 }
      = .ok 0x1d3fc951 ∧
    GetCompact (min ((SetCompact 0x1e00ffff).T / 4) mainParams.powLimit) = 0x1d3fffc0 := by
  refine ⟨by decide, by decide, by decide, by decide, by decide, by decide⟩

/-- C11 (amended): for every valid parameter record (time values within the signed
64-bit range) and every retarget boundary where `last.time - first.time ≤ timespan/4` and
`fPowNoRetargeting` is false, the effective multiplier is `⌊timespan/4⌋ / timespan`: when
the shift is not taken and `T_old * ⌊timespan/4⌋ < 2^256`, the returned value is the
compact encoding of `min(⌊T_old * ⌊timespan/4⌋ / timespan⌋, powLimit)`, which is the
compact encoding of `min(⌊T_old / 4⌋, powLimit)` when `timespan` is a multiple of 4. -/
theorem testcase1_ext_clamp_floor (last : BlockIndex) (prev : CBlockIndex)
    (nFirstBlockTime : Int) (params : Params) (hv : ValidParams params)
    (hr : params.nPowTargetTimespan * 4 < 2 ^ 63)
    (hno : params.fPowNoRetargeting = false)
    (hle : last.nTime - nFirstBlockTime ≤ params.nPowTargetTimespan / 4)
    (hns : ¬ (bits (SetCompact last.nBits).T > bits params.powLimit - 1))
    (hov : (SetCompact last.nBits).T * (params.nPowTargetTimespan / 4).toNat < 2 ^ 256) :
    testcase1_ext (last :: prev) nFirstBlockTime params
      = .ok (GetCompact (min
          ((SetCompact last.nBits).T * (params.nPowTargetTimespan / 4).toNat
            / params.nPowTargetTimespan.toNat) params.powLimit)) ∧
    (params.nPowTargetTimespan % 4 = 0 →
      testcase1_ext (last :: prev) nFirstBlockTime params
        = .ok (GetCompact (min ((SetCompact last.nBits).T / 4) params.powLimit))) := by
  obtain ⟨hs, hts, hp0, hp1⟩ := hv
  have htpos : 0 < params.nPowTargetTimespan := by omega
  have hP : UintToArith256 params.powLimit = params.powLimit := Nat.mod_eq_of_lt hp1
  have ha : min (max (last.nTime - nFirstBlockTime) (params.nPowTargetTimespan / 4))
      (params.nPowTargetTimespan * 4) = params.nPowTargetTimespan / 4 := by omega
  have hmain : testcase1_ext (last :: prev) nFirstBlockTime params
      = .ok (GetCompact (min
          ((SetCompact last.nBits).T * (params.nPowTargetTimespan / 4).toNat
            / params.nPowTargetTimespan.toNat) params.powLimit)) := by
    rw [testcase1_ext_eval last prev nFirstBlockTime params htpos hr hno, hP,
      bits_wrap params.powLimit (by omega), if_neg hns, ha, mul256_of_lt _ _ hov]
  refine ⟨hmain, ?_⟩
  intro h4
  rw [hmain]
  obtain ⟨q, hq⟩ : ∃ q : Nat, params.nPowTargetTimespan = ((4 * q : Nat) : Int) :=
    ⟨(params.nPowTargetTimespan / 4).toNat, by omega⟩
  have hq0 : 0 < q := by omega
  have e1 : (params.nPowTargetTimespan / 4).toNat = q := by omega
  have e2 : params.nPowTargetTimespan.toNat = 4 * q := by omega
  rw [e1, e2, Nat.mul_div_mul_right _ _ hq0]

/-- Instance of the amended C11 under the main parameters (`timespan = 600`): bits
`0x1e00ffff`, elapsed time 1 s, gives a quarter of the old target, `0x1d3fffc0`. -/
theorem testcase1_ext_clamp_floor_witness :
    testcase1_ext [⟨3, 1001, 0x1e00ffff⟩] 1000 mainParams
      = .ok (GetCompact (min ((SetCompact 0x1e00ffff).T / 4) mainParams.powLimit)) ∧
    GetCompact (min ((SetCompact 0x1e00ffff).T / 4) mainParams.powLimit) = 0x1d3fffc0 :=
  ⟨(testcase1_ext_clamp_floor ⟨3, 1001, 0x1e00ffff⟩ [] 1000 mainParams (by decide)
      (by decide) rfl (by decide) (by decide) (by decide)).2 (by decide),
    by decide⟩

theorem bits_le_of_le (T P : Nat) (hTP : T ≤ P) (hP : P < 2 ^ 256) : bits T ≤ bits P := by
  by_cases h0 : T = 0
  · rw [bits_eq_zero T h0]; omega
  · have h1 := two_pow_bits_le T h0
    have h2 := lt_two_pow_bits P hP
    have : bits T - 1 < bits P :=
      (Nat.pow_lt_pow_iff_right (by norm_num)).1 (lt_of_le_of_lt (le_trans h1 hTP) h2)
    omega

theorem lt_pow_of_bits_le (T b : Nat) (hT : T < 2 ^ 256) (h : bits T ≤ b) : T < 2 ^ b :=
  lt_of_lt_of_le (lt_two_pow_bits T hT) (Nat.pow_le_pow_right (by norm_num) h)

/-- C20: in `testcase1_ext`, when the decoded `last.bits` is at most `powLimit` and
`4 * timespan < 2^(257 - bitlen(powLimit))` (timespan positive), the intermediate product
`(T_old >> s) * a` (`s` the shift flag, `a` the clamped timespan) is below `2^256`, and
the value returned is the compact encoding of `min((((T_old >> s) * a) / timespan) << s,
powLimit)` computed over unbounded integers. -/
theorem testcase1_ext_no_overflow (last : BlockIndex) (prev : CBlockIndex)
    (nFirstBlockTime : Int) (params : Params) (hts : 0 < params.nPowTargetTimespan)
    (hr : params.nPowTargetTimespan * 4 < 2 ^ 63) (hno : params.fPowNoRetargeting = false)
    (hT : (SetCompact last.nBits).T ≤ UintToArith256 params.powLimit)
    (hb : 4 * params.nPowTargetTimespan.toNat
      < 2 ^ (257 - bits (UintToArith256 params.powLimit))) :
    ((SetCompact last.nBits).T >>>
        (if bits (SetCompact last.nBits).T > bits (UintToArith256 params.powLimit) - 1
          then 1 else 0)) *
      (min (max (last.nTime - nFirstBlockTime) (params.nPowTargetTimespan / 4))
        (params.nPowTargetTimespan * 4)).toNat < 2 ^ 256 ∧
    testcase1_ext (last :: prev) nFirstBlockTime params
      = .ok (GetCompact (min
          ((((SetCompact last.nBits).T >>>
                (if bits (SetCompact last.nBits).T > bits (UintToArith256 params.powLimit) - 1
                  then 1 else 0)) *
              (min (max (last.nTime - nFirstBlockTime) (params.nPowTargetTimespan / 4))
                (params.nPowTargetTimespan * 4)).toNat
            / params.nPowTargetTimespan.toNat) <<<
            (if bits (SetCompact last.nBits).T > bits (UintToArith256 params.powLimit) - 1
              then 1 else 0))
          (UintToArith256 params.powLimit))) := by
  have hP := UintToArith256_lt params.powLimit
  rw [testcase1_ext_eval last prev nFirstBlockTime params hts hr hno]
  generalize UintToArith256 params.powLimit = P at *
  generalize (SetCompact last.nBits).T = T at *
  have hai : min (max (last.nTime - nFirstBlockTime) (params.nPowTargetTimespan / 4))
      (params.nPowTargetTimespan * 4) ≤ params.nPowTargetTimespan * 4 := min_le_right _ _
  generalize min (max (last.nTime - nFirstBlockTime) (params.nPowTargetTimespan / 4))
    (params.nPowTargetTimespan * 4) = aI at *
  have ha4 : aI.toNat ≤ 4 * params.nPowTargetTimespan.toNat := by omega
  have hts0 : 0 < params.nPowTargetTimespan.toNat := by omega
  generalize aI.toNat = a at *
  generalize params.nPowTargetTimespan.toNat = ts at *
  have hT256 : T < 2 ^ 256 := by omega
  have hbTP := bits_le_of_le T P hT hP
  have hbP := bits_le P
  -- the bound on the timespan forces `bitlen(powLimit) ≤ 254`
  have hb254 : bits P ≤ 254 := by
    by_contra hcon
    have h1 : 2 ^ (257 - bits P) ≤ 2 ^ 2 := Nat.pow_le_pow_right (by norm_num) (by omega)
    omega
  by_cases hP0 : P = 0
  · subst hP0
    have hT0 : T = 0 := by omega
    subst hT0
    have hb0 : bits 0 = 0 := bits_eq_zero 0 rfl
    simp [hb0, mul256, sat256, shr256]
  · have hbpos := bits_pos P hP0
    rw [bits_wrap P hP0]
    -- in both cases the shifted operand is below `2^(bitlen(powLimit) - 1)`
    have hkey : ∀ X : Nat, X < 2 ^ (bits P - 1) → X * a < 2 ^ 256 := by
      intro X hX
      have h1 : X * a ≤ X * (4 * ts) := Nat.mul_le_mul_left _ ha4
      have h2 : X * (4 * ts) < 2 ^ (bits P - 1) * 2 ^ (257 - bits P) := by
        have hpp : 0 < 2 ^ (bits P - 1) := Nat.pos_pow_of_pos _ (by norm_num)
        calc X * (4 * ts) ≤ 2 ^ (bits P - 1) * (4 * ts) := Nat.mul_le_mul_right _ (by omega)
          _ < 2 ^ (bits P - 1) * 2 ^ (257 - bits P) := Nat.mul_lt_mul_of_pos_left hb hpp
      rw [← Nat.pow_add, show bits P - 1 + (257 - bits P) = 256 from by omega] at h2
      omega
    by_cases hsft : bits T > bits P - 1
    · simp only [hsft, if_true]
      have hTb : T < 2 ^ bits P := lt_pow_of_bits_le T (bits P) hT256 hbTP
      have hX : T >>> 1 < 2 ^ (bits P - 1) := by
        rw [Nat.shiftRight_eq_div_pow]
        have e : 2 ^ bits P = 2 ^ (bits P - 1) * 2 := by
          rw [← Nat.pow_succ]; congr 1; omega
        rw [e] at hTb
        rw [Nat.pow_one, Nat.div_lt_iff_lt_mul (by norm_num)]
        exact hTb
      have hprod := hkey _ hX
      refine ⟨hprod, ?_⟩
      rw [shr256, mul256_of_lt _ _ hprod]
      -- the quotient is at most `4 * (T_old >> 1)`, so the left shift stays in range
      have hq : (T >>> 1) * a / ts ≤ (T >>> 1) * 4 := by
        apply Nat.div_le_of_le_mul
        calc (T >>> 1) * a ≤ (T >>> 1) * (4 * ts) := Nat.mul_le_mul_left _ ha4
          _ = ts * ((T >>> 1) * 4) := by ring
      have hX4 : (T >>> 1) * 4 * 2 < 2 ^ 256 := by
        have h3 : 2 ^ (bits P - 1) * 8 ≤ 2 ^ 256 := by
          rw [show (8 : Nat) = 2 ^ 3 from by norm_num, ← Nat.pow_add]
          exact Nat.pow_le_pow_right (by norm_num) (by omega)
        omega
      rw [shl256_of_lt _ _ (by rw [Nat.pow_one]; omega), Nat.shiftLeft_eq]
    · simp only [hsft, if_false, Nat.shiftRight_zero, Nat.shiftLeft_zero]
      have hX : T < 2 ^ (bits P - 1) := lt_pow_of_bits_le T _ hT256 (by omega)
      have hprod := hkey _ hX
      exact ⟨hprod, by rw [mul256_of_lt _ _ hprod]⟩

/-- Instance of C20 under the main parameters (`bitlen(powLimit) = 240`,
`4 * 600 < 2^17`): bits `0x1f00ffff` take the shift, the product stays below `2^256`. -/
theorem testcase1_ext_no_overflow_witness :
    (SetCompact 0x1f00ffff).T ≤ UintToArith256 mainParams.powLimit ∧
    bits (SetCompact 0x1f00ffff).T > bits (UintToArith256 mainParams.powLimit) - 1 ∧
    ((SetCompact 0x1f00ffff).T >>>
        (if bits (SetCompact 0x1f00ffff).T > bits (UintToArith256 mainParams.powLimit) - 1
          then 1 else 0)) *
      (min (max ((4000 : Int) - 1000) (mainParams.nPowTargetTimespan / 4))
        (mainParams.nPowTargetTimespan * 4)).toNat < 2 ^ 256 :=
  ⟨by decide, by decide,
    (testcase1_ext_no_overflow ⟨7, 4000, 0x1f00ffff⟩ [] 1000 mainParams (by decide)
      (by decide) rfl (by decide) (by decide)).1⟩

/-! ## The guards of Algorithms 2, 3, 4 and 5 -/

theorem toU64_pos (x : Int) (h0 : 0 < x) (h1 : x < 2 ^ 63) :
    toU64 x = x.toNat ∧ x.toNat ≠ 0 := by
  refine ⟨toU64_of_nonneg x (by omega) (by omega), by omega⟩

/-- C12, as stated, fails for Algorithm 3 with the valid time parameters
`nPowTargetTimespan = 743430870758460727` and `nPowTargetSpacing = 9292885884480759`:
`⌊timespan * 0.025⌋ / spacing = ⌊timespan / 40⌋ / spacing` is 2, but the product of
line 182 is a `double` product, which gives 18585771768961516, so `PastBlocksMin` is 1;
with `last` at height 1 the guard of line 187 is passed and `testcase3` returns
`0x1e00ffff`, the bits of `last`, whatever the event-horizon test answers, not the
compact encoding `0x1f00ffff` of `powLimit`. -/
theorem chain_too_short_guards_counterexample :
    (1 : Nat) < ((743430870758460727 : Int) / 40).toNat / (9292885884480759 : Int).toNat ∧
    pastSeconds025 743430870758460727 = 18585771768961516 ∧
    pastSeconds025 743430870758460727 / toU64 9292885884480759 = 1 ∧
    testcase3 (fun _ _ _ => false) (uniformChain 0x1e00ffff 0 9292885884480759 1)
        { mainParams with
          nPowTargetSpacing := 9292885884480759
          nPowTargetTimespan := 743430870758460727 } = .ok 0x1e00ffff ∧
    testcase3 (fun _ _ _ => true) (uniformChain 0x1e00ffff 0 9292885884480759 1)
        { mainParams with
          nPowTargetSpacing := 9292885884480759
          nPowTargetTimespan := 743430870758460727 } = .ok 0x1e00ffff ∧
    GetCompact (UintToArith256 mainParams.powLimit) = 0x1f00ffff := by
  decide

/-- C12, amended: `testcase2` returns the compact encoding of `powLimit` when `last` is
null or `last.height < 24`; `testcase3` and `testcase5` return it when `last` is null, has
height 0, or has `last.height < PastBlocksMin`, where for `testcase3` `PastBlocksMin` is
the `double` product `timespan * 0.025` of line 182 truncated to an integer
(`pastSeconds025`) and divided by the spacing, and for `testcase5` it is `2160 / spacing`,
2160 being that product for 86400 (spacing positive) — whatever the bits and times in the
chain, the candidate and the outcome of the floating-point test. -/
theorem chain_too_short_guards (horizon : Nat → Int → Int → Bool) (pindexLast : CBlockIndex)
    (pblock : CBlockHeader) (params : Params) :
    ((pindexLast = [] ∨ ∃ last prev, pindexLast = last :: prev ∧ last.nHeight < 24) →
      testcase2 pindexLast pblock params
        = .ok (GetCompact (UintToArith256 params.powLimit))) ∧
    (0 < params.nPowTargetSpacing → params.nPowTargetSpacing < 2 ^ 63 →
      (pindexLast = [] ∨ ∃ last prev, pindexLast = last :: prev ∧
        (last.nHeight = 0 ∨ last.nHeight
          < pastSeconds025 params.nPowTargetTimespan / params.nPowTargetSpacing.toNat)) →
      testcase3 horizon pindexLast params
        = .ok (GetCompact (UintToArith256 params.powLimit))) ∧
    (0 < params.nPowTargetSpacing → params.nPowTargetSpacing < 2 ^ 63 →
      (pindexLast = [] ∨ ∃ last prev, pindexLast = last :: prev ∧
        (last.nHeight = 0 ∨ last.nHeight < 2160 / params.nPowTargetSpacing.toNat)) →
      testcase5 horizon pindexLast pblock params
        = .ok (GetCompact (UintToArith256 params.powLimit))) ∧
    pastSeconds025 (60 * 60 * 24) = 2160 := by
  refine ⟨?_, ?_, ?_, by decide⟩
  · rintro (h | ⟨last, prev, h, hlt⟩)
    · subst h; rfl
    · subst h; simp [testcase2, hlt]
  · intro hs hr hg
    obtain ⟨hu, hn⟩ := toU64_pos _ hs hr
    rcases hg with h | ⟨last, prev, h, hlt⟩
    · subst h; simp [testcase3, hu, hn]
    · subst h
      unfold testcase3
      simp only [hu, if_neg hn]
      rw [if_pos hlt]
  · intro hs hr hg
    obtain ⟨hu, hn⟩ := toU64_pos _ hs hr
    have h2160 : pastSeconds025 (60 * 60 * 24) = 2160 := by decide
    rcases hg with h | ⟨last, prev, h, hlt⟩
    · subst h; simp [testcase5, hu, hn]
    · subst h
      unfold testcase5
      simp only [hu, if_neg hn, h2160]
      rw [if_pos hlt]

/-- Instance of C12 (amended). Under the main parameters (`PastBlocksMin = 15 / 150 = 0`
for `testcase3`, `2160 / 150 = 14` for `testcase5`) height 13 is inside the guard of
`testcase2` and `testcase5` and height 0 inside that of `testcase3`; with the timespan
600000 and the spacing 150 (`PastBlocksMin = 15000 / 150 = 100`) height 13 is inside the
guard of `testcase3`. -/
theorem chain_too_short_guards_witness :
    testcase2 (uniformChain 0x1e00ffff 0 150 13) { nTime := 2100 } mainParams = .ok 0x1f00ffff ∧
    testcase5 (fun _ _ _ => true) (uniformChain 0x1e00ffff 0 150 13) { nTime := 2100 }
      mainParams = .ok 0x1f00ffff ∧
    testcase3 (fun _ _ _ => true) (uniformChain 0x1e00ffff 0 150 0) mainParams
      = .ok 0x1f00ffff ∧
    pastSeconds025 600000 / (150 : Int).toNat = 100 ∧
    testcase3 (fun _ _ _ => true) (uniformChain 0x1e00ffff 0 150 13)
      { mainParams with nPowTargetTimespan := 600000 } = .ok 0x1f00ffff :=
  ⟨(chain_too_short_guards (fun _ _ _ => true) (uniformChain 0x1e00ffff 0 150 13)
      { nTime := 2100 } mainParams).1 (Or.inr ⟨_, _, rfl, by decide⟩),
   (chain_too_short_guards (fun _ _ _ => true) (uniformChain 0x1e00ffff 0 150 13)
      { nTime := 2100 } mainParams).2.2.1 (by decide) (by decide)
      (Or.inr ⟨_, _, rfl, Or.inr (by decide)⟩),
   (chain_too_short_guards (fun _ _ _ => true) (uniformChain 0x1e00ffff 0 150 0)
      { nTime := 2100 } mainParams).2.1 (by decide) (by decide)
      (Or.inr ⟨_, _, rfl, Or.inl rfl⟩),
   by decide,
   (chain_too_short_guards (fun _ _ _ => true) (uniformChain 0x1e00ffff 0 150 13)
      { nTime := 2100 } { mainParams with nPowTargetTimespan := 600000 }).2.1 (by decide)
      (by decide) (Or.inr ⟨_, _, rfl, Or.inr (by decide)⟩)⟩

/-- C15: off a retarget boundary (`(last.height + 1) mod I ≠ 0`, `last` not null)
`testcase4` returns `last.bits`; the branch under `fTestNet` is never taken, so the result
is the same for every candidate header and for both values of
`fPowAllowMinDifficultyBlocks`. -/
theorem testcase4_unchanged_off_boundary (last : BlockIndex) (prev : CBlockIndex)
    (pblock : CBlockHeader) (params : Params)
    (hs : params.nPowTargetSpacing ≠ 0)
    (hI : params.nPowTargetTimespan.tdiv params.nPowTargetSpacing ≠ 0)
    (hb : ((last.nHeight : Int) + 1).tmod
      (params.nPowTargetTimespan.tdiv params.nPowTargetSpacing) ≠ 0) :
    testcase4 (last :: prev) pblock params = .ok last.nBits ∧
    ∀ (pblock1 : CBlockHeader) (flag : Bool),
      testcase4 (last :: prev) pblock1 { params with fPowAllowMinDifficultyBlocks := flag }
        = .ok last.nBits := by
  have key : ∀ (pb : CBlockHeader) (p : Params), p.nPowTargetSpacing = params.nPowTargetSpacing →
      p.nPowTargetTimespan = params.nPowTargetTimespan →
      testcase4 (last :: prev) pb p = .ok last.nBits := by
    intro pb p e1 e2
    unfold testcase4
    simp only [e1, e2, if_neg hs, cmod_ok _ _ hI]
    rw [if_pos hb]
    simp
  exact ⟨key pblock params rfl rfl, fun pb flag => key pb _ rfl rfl⟩

/-- Instance of C15 under the main parameters (`I = 4`) at height 100: the result is
`last.bits` although the flag is set and the candidate is two hours late. -/
theorem testcase4_unchanged_off_boundary_witness :
    testcase4 (⟨100, 15000, 0x1e00abcd⟩ :: uniformChain 0x1f00ffff 0 150 99) { nTime := 15150 }
      mainParams = .ok 0x1e00abcd ∧
    testcase4 (⟨100, 15000, 0x1e00abcd⟩ :: uniformChain 0x1f00ffff 0 150 99) { nTime := 22200 }
      { mainParams with fPowAllowMinDifficultyBlocks := true } = .ok 0x1e00abcd :=
  ⟨(testcase4_unchanged_off_boundary ⟨100, 15000, 0x1e00abcd⟩ (uniformChain 0x1f00ffff 0 150 99)
      { nTime := 15150 } mainParams (by decide) (by decide) (by decide)).1,
   (testcase4_unchanged_off_boundary ⟨100, 15000, 0x1e00abcd⟩ (uniformChain 0x1f00ffff 0 150 99)
      { nTime := 15150 } mainParams (by decide) (by decide) (by decide)).2
      { nTime := 22200 } true⟩

/-- C17: past the guard of `testcase5` (`last.height ≥ 1`, `last.height ≥ PastBlocksMin =
2160 / spacing`, `last` has a predecessor), a candidate with `cand.time - last.time >
43200` makes `testcase5` return the compact encoding of `powLimit`, whatever the bits and
times of the headers and the outcome of the floating-point test. -/
theorem testcase5_twelve_hours (horizon : Nat → Int → Int → Bool) (last prevBlock : BlockIndex)
    (rest : CBlockIndex) (pblock : CBlockHeader) (params : Params)
    (hs : 0 < params.nPowTargetSpacing) (hr : params.nPowTargetSpacing < 2 ^ 63)
    (h1 : 1 ≤ last.nHeight) (hmin : 2160 / params.nPowTargetSpacing.toNat ≤ last.nHeight)
    (h12 : pblock.nTime - last.nTime > 43200) :
    testcase5 horizon (last :: prevBlock :: rest) pblock params
      = .ok (GetCompact (UintToArith256 params.powLimit)) := by
  obtain ⟨hu, hn⟩ := toU64_pos _ hs hr
  have h2160 : pastSeconds025 (60 * 60 * 24) = 2160 := by decide
  have hg : ¬ (last.nHeight = 0 ∨ last.nHeight < 2160 / params.nPowTargetSpacing.toNat) := by
    omega
  have h12b : pblock.nTime - last.nTime > 12 * 60 * 60 := by omega
  unfold testcase5
  simp only [hu, if_neg hn, h2160]
  rw [if_neg hg]
  simp only [if_pos h12b]
  simp

/-- Instance of C17 under the main parameters at height 20: a candidate 43201 s after
`last` gets the limit `0x1f00ffff`. -/
theorem testcase5_twelve_hours_witness :
    testcase5 (fun _ _ _ => false) (uniformChain 0x1e00ffff 0 150 20) { nTime := 46201 }
      mainParams = .ok (GetCompact (UintToArith256 mainParams.powLimit)) ∧
    GetCompact (UintToArith256 mainParams.powLimit) = 0x1f00ffff :=
  ⟨testcase5_twelve_hours (fun _ _ _ => false) ⟨20, 0 + 150 * 20, 0x1e00ffff⟩
      ⟨19, 0 + 150 * 19, 0x1e00ffff⟩ (uniformChain 0x1e00ffff 0 150 18) { nTime := 46201 }
      mainParams (by decide) (by decide) (by decide) (by decide) (by decide),
    by decide⟩

/-! ## Algorithm 4 at a retarget boundary; the fast-block rule of Algorithm 5 -/

/-- What `testcase4` returns at a retarget boundary on which the walk back reaches
`first`, for valid time parameters; the final clamp is against the compact value. -/
theorem testcase4_boundary_eval (last first : BlockIndex) (prev rest : CBlockIndex)
    (pblock : CBlockHeader) (params : Params)
    (hs : 0 < params.nPowTargetSpacing)
    (hts : params.nPowTargetSpacing ≤ params.nPowTargetTimespan)
    (hr : params.nPowTargetTimespan * 2 < 2 ^ 63)
    (hb : ((last.nHeight : Int) + 1).tmod
      (params.nPowTargetTimespan.tdiv params.nPowTargetSpacing) = 0)
    (hwalk : goBack (last :: prev) (blocksToGoBack last.nHeight
      (params.nPowTargetTimespan.tdiv params.nPowTargetSpacing)) = first :: rest) :
    testcase4 (last :: prev) pblock params
      = .ok (GetCompact (min
          (mul256 (SetCompact last.nBits).T
              (min (max (last.nTime - first.nTime)
                  (params.nPowTargetTimespan - params.nPowTargetTimespan / 4))
                (params.nPowTargetTimespan + params.nPowTargetTimespan / 2)).toNat
            / params.nPowTargetTimespan.toNat)
          (GetCompact (UintToArith256 params.powLimit)))) := by
  have hI := interval_pos params hs hts
  have htpos : 0 < params.nPowTargetTimespan := by omega
  have hd4 : params.nPowTargetTimespan.tdiv 4 = params.nPowTargetTimespan / 4 :=
    Int.tdiv_eq_ediv (by omega) (by omega)
  have hd2 : params.nPowTargetTimespan.tdiv 2 = params.nPowTargetTimespan / 2 :=
    Int.tdiv_eq_ediv (by omega) (by omega)
  generalize ha : min (max (last.nTime - first.nTime)
      (params.nPowTargetTimespan - params.nPowTargetTimespan / 4))
    (params.nPowTargetTimespan + params.nPowTargetTimespan / 2) = a
  have hlo : params.nPowTargetTimespan - params.nPowTargetTimespan / 4 ≤ a := by omega
  have hhi : a ≤ params.nPowTargetTimespan + params.nPowTargetTimespan / 2 := by omega
  have hau : toU64 a = a.toNat := toU64_of_nonneg a (by omega) (by omega)
  have htu : toU64 params.nPowTargetTimespan = params.nPowTargetTimespan.toNat :=
    toU64_of_nonneg _ (by omega) (by omega)
  have htn : params.nPowTargetTimespan.toNat ≠ 0 := by omega
  have hmin : ∀ X L : Nat, (if X > L then L else X) = min X L := by
    intro X L; split <;> omega
  unfold testcase4
  simp only [if_neg (by omega : ¬ params.nPowTargetSpacing = 0),
    cmod_ok _ _ (by omega : params.nPowTargetTimespan.tdiv params.nPowTargetSpacing ≠ 0), hb,
    hwalk, clampSeq_eq, hd4, hd2, ha, hau, htu, div256, if_neg htn, hmin]
  simp

/-- C14: what `testcase4` returns at a retarget boundary (`(last.height + 1) mod I = 0`,
the walk back reaching `first`, valid time parameters): the compact encoding of
`min(⌊decode(last.bits) * a / timespan⌋, L)` with `a = last.time - first.time` clamped into
`[timespan - timespan/4, timespan + timespan/2]` — where `L` is the compact value
`GetCompact(powLimit)` taken as an integer (`bnProofOfWorkLimit` is an `unsigned int`), not
the 256-bit `powLimit` of the claim. -/
theorem testcase4_retarget_value (last first : BlockIndex) (prev rest : CBlockIndex)
    (pblock : CBlockHeader) (params : Params)
    (hs : 0 < params.nPowTargetSpacing)
    (hts : params.nPowTargetSpacing ≤ params.nPowTargetTimespan)
    (hr : params.nPowTargetTimespan * 2 < 2 ^ 63)
    (hb : ((last.nHeight : Int) + 1).tmod
      (params.nPowTargetTimespan.tdiv params.nPowTargetSpacing) = 0)
    (hwalk : goBack (last :: prev) (blocksToGoBack last.nHeight
      (params.nPowTargetTimespan.tdiv params.nPowTargetSpacing)) = first :: rest) :
    testcase4 (last :: prev) pblock params
      = .ok (GetCompact (min
          (mul256 (SetCompact last.nBits).T
              (min (max (last.nTime - first.nTime)
                  (params.nPowTargetTimespan - params.nPowTargetTimespan / 4))
                (params.nPowTargetTimespan + params.nPowTargetTimespan / 2)).toNat
            / params.nPowTargetTimespan.toNat)
          (GetCompact (UintToArith256 params.powLimit)))) :=
  testcase4_boundary_eval last first prev rest pblock params hs hts hr hb hwalk

/-- Failing input of C14: at height 479 under the main parameters (`I = 4`, bits
`0x1e00ffff`, 150 s between blocks) `testcase4` clamps against the integer `0x1f00ffff`
and returns `0x041f00ff`; clamped against the 256-bit `powLimit` the result would be
`0x1e00ffff`. The clamp of the timespan is as claimed: 100 gives 450 and 2000 gives 900
for `timespan = 600`. -/
theorem testcase4_retarget_value_witness :
    testcase4 (uniformChain 0x1e00ffff 1000 150 479) { nTime := 73000 } mainParams
      = .ok (GetCompact (min
          (mul256 (SetCompact 0x1e00ffff).T
              (min (max (((1000 : Int) + 150 * 479) - (1000 + 150 * 475))
                  (mainParams.nPowTargetTimespan - mainParams.nPowTargetTimespan / 4))
                (mainParams.nPowTargetTimespan + mainParams.nPowTargetTimespan / 2)).toNat
            / mainParams.nPowTargetTimespan.toNat)
          (GetCompact (UintToArith256 mainParams.powLimit)))) ∧
    testcase4 (uniformChain 0x1e00ffff 1000 150 479) { nTime := 73000 } mainParams
      = .ok 0x041f00ff ∧
    GetCompact (min
        (mul256 (SetCompact 0x1e00ffff).T 600 / 600) (UintToArith256 mainParams.powLimit))
      = 0x1e00ffff ∧
    clampSeq 100 (600 - (600 : Int).tdiv 4) (600 + (600 : Int).tdiv 2) = 450 ∧
    clampSeq 2000 (600 - (600 : Int).tdiv 4) (600 + (600 : Int).tdiv 2) = 900 :=
  ⟨testcase4_retarget_value ⟨479, 1000 + 150 * 479, 0x1e00ffff⟩
      ⟨475, 1000 + 150 * 475, 0x1e00ffff⟩ (uniformChain 0x1e00ffff 1000 150 478)
      (uniformChain 0x1e00ffff 1000 150 474) { nTime := 73000 } mainParams
      (by decide) (by decide) (by decide) (by decide) (by decide),
    by decide, by decide, by decide, by decide⟩

/-- C16: what the fast-block rule of `testcase5` does, for a chain `last :: prevBlock ::
rest` past the guard, `F` the fused target `(kgw1 + kgw2)/2` and `dt_raw = last.time -
prevBlock.time`. The value returned is the compact encoding of `min(R, powLimit)` where
`R` is `powLimit` under the 12-hour rule and otherwise `⌊F * 85 / 100⌋` when
`0 ≤ dt_raw < Blocktime/6`, and `F` unchanged when `dt_raw ≥ Blocktime/6` — and also when
`dt_raw` is negative, because the comparison with the `uint64_t` `Blocktime/6` is
unsigned. The claim asks for `⌊F * 85 / 100⌋` at every `dt_raw < Blocktime/6`. -/
theorem testcase5_fast_block_rule (horizon : Nat → Int → Int → Bool)
    (last prevBlock : BlockIndex) (rest : CBlockIndex) (pblock : CBlockHeader)
    (params : Params)
    (hs : 0 < params.nPowTargetSpacing) (hr : params.nPowTargetSpacing < 2 ^ 63)
    (h1 : 1 ≤ last.nHeight) (hmin : 2160 / params.nPowTargetSpacing.toNat ≤ last.nHeight) :
    (0 ≤ last.nTime - prevBlock.nTime →
      last.nTime - prevBlock.nTime < params.nPowTargetSpacing / 6 →
      testcase5 horizon (last :: prevBlock :: rest) pblock params
        = .ok (GetCompact (min
            (if pblock.nTime - last.nTime > 43200 then UintToArith256 params.powLimit
              else mul256 (dualKgwFused horizon last prevBlock rest params) 85 / 100)
            (UintToArith256 params.powLimit)))) ∧
    (params.nPowTargetSpacing / 6 ≤ last.nTime - prevBlock.nTime →
      last.nTime - prevBlock.nTime < 2 ^ 63 →
      testcase5 horizon (last :: prevBlock :: rest) pblock params
        = .ok (GetCompact (min
            (if pblock.nTime - last.nTime > 43200 then UintToArith256 params.powLimit
              else dualKgwFused horizon last prevBlock rest params)
            (UintToArith256 params.powLimit)))) ∧
    (last.nTime - prevBlock.nTime < 0 → -(2 ^ 63) ≤ last.nTime - prevBlock.nTime →
      testcase5 horizon (last :: prevBlock :: rest) pblock params
        = .ok (GetCompact (min
            (if pblock.nTime - last.nTime > 43200 then UintToArith256 params.powLimit
              else dualKgwFused horizon last prevBlock rest params)
            (UintToArith256 params.powLimit)))) := by
  obtain ⟨hu, hn⟩ := toU64_pos _ hs hr
  have h2160 : pastSeconds025 (60 * 60 * 24) = 2160 := by decide
  have hg : ¬ (last.nHeight = 0 ∨ last.nHeight < 2160 / params.nPowTargetSpacing.toNat) := by
    omega
  have hmin2 : ∀ X L : Nat, (if X > L then L else X) = min X L := by
    intro X L; split <;> omega
  have h12 : (12 * 60 * 60 : Int) = 43200 := by norm_num
  have hB6 : ((params.nPowTargetSpacing.toNat / 6 : Nat) : Int) = params.nPowTargetSpacing / 6 := by
    omega
  -- the shape of the result in terms of the unsigned comparison
  have shape : testcase5 horizon (last :: prevBlock :: rest) pblock params
      = .ok (GetCompact (min
          (if pblock.nTime - last.nTime > 43200 then UintToArith256 params.powLimit
            else if toU64 (last.nTime - prevBlock.nTime) < params.nPowTargetSpacing.toNat / 6
              then mul256 (dualKgwFused horizon last prevBlock rest params) 85 / 100
              else dualKgwFused horizon last prevBlock rest params)
          (UintToArith256 params.powLimit))) := by
    unfold testcase5 dualKgwFused
    simp only [hu, if_neg hn, h2160]
    rw [if_neg hg]
    simp only [hmin2, h12]
  generalize last.nTime - prevBlock.nTime = dt at *
  refine ⟨?_, ?_, ?_⟩
  · intro h0 hlt
    have e : toU64 dt = dt.toNat := toU64_of_nonneg dt h0 (by omega)
    rw [shape, e, if_pos (by omega : dt.toNat < params.nPowTargetSpacing.toNat / 6)]
  · intro hge hlt
    have e : toU64 dt = dt.toNat := toU64_of_nonneg dt (by omega) (by omega)
    rw [shape, e, if_neg (by omega : ¬ dt.toNat < params.nPowTargetSpacing.toNat / 6)]
  · intro hneg hlo
    have e : toU64 dt = (dt + 2 ^ 64).toNat := by
      unfold toU64
      congr 1
      rw [← Int.add_emod_self, Int.emod_eq_of_lt (by omega) (by omega)]
    have hnot : ¬ toU64 dt < params.nPowTargetSpacing.toNat / 6 := by rw [e]; omega
    rw [shape, if_neg hnot]

/-- Failing input of C16: under the main parameters (`Blocktime = 150`), height 20, the
header `last` carries a time 10 s before its predecessor (`dt_raw = -10 < 25`).
`testcase5` leaves the fused target unchanged and returns `0x1e00f2c5`; with the factor
`85/100` of the claim the result would be `0x1e00ce5a`. -/
theorem testcase5_fast_block_rule_witness :
    testcase5 (fun _ _ _ => false)
        (⟨20, 2840, 0x1e00ffff⟩ :: uniformChain 0x1e00ffff 0 150 19) { nTime := 3000 }
        mainParams
      = .ok (GetCompact (min
          (if (3000 : Int) - 2840 > 43200 then UintToArith256 mainParams.powLimit
            else dualKgwFused (fun _ _ _ => false) ⟨20, 2840, 0x1e00ffff⟩
              ⟨19, 0 + 150 * 19, 0x1e00ffff⟩ (uniformChain 0x1e00ffff 0 150 18) mainParams)
          (UintToArith256 mainParams.powLimit))) ∧
    testcase5 (fun _ _ _ => false)
        (⟨20, 2840, 0x1e00ffff⟩ :: uniformChain 0x1e00ffff 0 150 19) { nTime := 3000 }
        mainParams = .ok 0x1e00f2c5 ∧
    GetCompact (min
        (mul256 (dualKgwFused (fun _ _ _ => false) ⟨20, 2840, 0x1e00ffff⟩
          ⟨19, 0 + 150 * 19, 0x1e00ffff⟩ (uniformChain 0x1e00ffff 0 150 18) mainParams) 85 / 100)
        (UintToArith256 mainParams.powLimit)) = 0x1e00ce5a :=
  ⟨(testcase5_fast_block_rule (fun _ _ _ => false) ⟨20, 2840, 0x1e00ffff⟩
      ⟨19, 0 + 150 * 19, 0x1e00ffff⟩ (uniformChain 0x1e00ffff 0 150 18) { nTime := 3000 }
      mainParams (by decide) (by decide) (by decide) (by decide)).2.2 (by decide) (by decide),
    by decide, by decide⟩

/-! ## Algorithm 6: the formula -/

theorem shortWindow_eq (last lastPrev : BlockIndex) (rest : CBlockIndex) :
    shortWindow (lastPrev :: rest) 5 (last :: lastPrev :: rest) = lastPrev :: rest := by
  simp [shortWindow]

/-- What `testcase6` returns when the header 16 steps back from `last` exists. -/
theorem testcase6_eval (last b16 : BlockIndex) (prev : CBlockIndex) (params : Params)
    (hs : 0 < params.nPowTargetSpacing) (hr : params.nPowTargetSpacing * 2200 < 2 ^ 63)
    (hget : (last :: prev)[16]? = some b16) :
    testcase6 (last :: prev) params
      = .ok (superShieldSpec last.nBits last.nTime b16.nTime params) := by
  have hget1 : prev[15]? = some b16 := by simpa using hget
  have hdrop : prev.drop 15 = b16 :: prev.drop 16 := by
    have hlt : 15 < prev.length := by
      by_contra hcon
      rw [List.getElem?_eq_none (by omega)] at hget1
      cases hget1
    rw [List.getElem?_eq_getElem hlt] at hget1
    rw [List.drop_eq_getElem_cons hlt]
    congr 1
    exact Option.some.inj hget1
  cases prev with
  | nil => simp at hget1
  | cons lastPrev rest =>
    generalize hsp : params.nPowTargetSpacing = sp at *
    have hmin2 : ∀ X L : Nat, (if X > L then L else X) = min X L := by
      intro X L; split <;> omega
    have e5 : (sp * 5).tdiv 2 = sp * 5 / 2 := Int.tdiv_eq_ediv (by omega) (by omega)
    have e20 : (sp * 20).tdiv 2 = sp * 20 / 2 := Int.tdiv_eq_ediv (by omega) (by omega)
    have e4 : (20 : Int).tdiv 5 = 4 := by decide
    have e105 : (sp * 20 * 100).tdiv 105 = sp * 20 * 100 / 105 :=
      Int.tdiv_eq_ediv (by omega) (by omega)
    have e100 : (sp * 20 * 110).tdiv 100 = sp * 20 * 110 / 100 :=
      Int.tdiv_eq_ediv (by omega) (by omega)
    have hshort : min (max (lastPrev.nTime - lastPrev.nTime) (sp * 5 / 2)) (sp * 5 * 2)
        = 5 * sp / 2 := by omega
    have hshortS : min (max 0 (5 * sp / 2)) (10 * sp) = 5 * sp / 2 := by omega
    have hlongS : min (max (last.nTime - b16.nTime) (10 * sp)) (40 * sp)
        = min (max (last.nTime - b16.nTime) (sp * 20 / 2)) (sp * 20 * 2) := by omega
    generalize hlong : min (max (last.nTime - b16.nTime) (sp * 20 / 2)) (sp * 20 * 2) = long
      at hlongS
    have hlong0 : 0 ≤ long := by omega
    generalize hsh : 5 * sp / 2 = sh at hshort hshortS
    have hsh0 : 0 ≤ sh := by omega
    have eavg : (sh * 4 + long).tdiv 2 = (sh * 4 + long) / 2 :=
      Int.tdiv_eq_ediv (by omega) (by omega)
    have havgS : (4 * sh + long) / 2 = (sh * 4 + long) / 2 := by omega
    generalize havg : (sh * 4 + long) / 2 = avg at eavg havgS
    have havg0 : 0 ≤ avg := by omega
    have eact : (avg + 3 * (sp * 20)).tdiv 4 = (avg + 3 * (sp * 20)) / 4 :=
      Int.tdiv_eq_ediv (by omega) (by omega)
    have hdS : (avg + 60 * sp) / 4 = (avg + 3 * (sp * 20)) / 4 := by omega
    generalize hd : (avg + 3 * (sp * 20)) / 4 = dmp at eact hdS
    have hloS : 2000 * sp / 105 = sp * 20 * 100 / 105 := by omega
    have hhiS : 2200 * sp / 100 = sp * 20 * 110 / 100 := by omega
    have hspec : superShieldActual last.nTime b16.nTime sp
        = min (max dmp (sp * 20 * 100 / 105)) (sp * 20 * 110 / 100) := by
      unfold superShieldActual
      simp only [hsh, hshortS, hlongS, havgS, hdS, hloS, hhiS]
    have hd0 : 0 ≤ dmp := by omega
    generalize hact : min (max dmp (sp * 20 * 100 / 105)) (sp * 20 * 110 / 100) = act at hspec
    have hact0 : 0 ≤ act := by omega
    have hact1 : act < 2 ^ 64 := by omega
    have hau : toU64 act = act.toNat := toU64_of_nonneg act hact0 hact1
    have htu : toU64 (sp * 20) = (20 * sp).toNat := by
      rw [toU64_of_nonneg _ (by omega) (by omega)]; congr 1; omega
    have htn : (20 * sp).toNat ≠ 0 := by omega
    unfold testcase6 superShieldSpec
    simp only [shortWindow_eq, goBack, hdrop, hsp]
    simp only [show ((20 : Int) - 5).toNat = 15 from by decide, hdrop, clampSeq_eq, e5, e20, e4,
      e105, e100, hshort, hlong, eavg, havg, eact, hact, hau, htu, div256, if_neg htn, hmin2,
      hspec]

/-- C18, as stated, fails when the 256-bit product overflows: under the main time
parameters with `powLimit = 2^255 - 1`, on the chain of heights 20..0 with 150 s between
blocks and bits `0x207fffff` everywhere (the compact encoding of that `powLimit`),
`actual = 2857`, the product `decode(last.bits) * actual` exceeds `2^256 - 1`, and
`testcase6` does not return the compact encoding `0x2079e60e` of
`min(⌊decode(last.bits) * actual / (20 * sp)⌋, powLimit)`. -/
theorem testcase6_formula_counterexample :
    (uniformChain 0x207fffff 0 150 20)[16]? = some ⟨4, 600, 0x207fffff⟩ ∧
    superShieldActual 3000 600 150 = 2857 ∧
    2 ^ 256 ≤ (SetCompact 0x207fffff).T * (superShieldActual 3000 600 150).toNat ∧
    GetCompact (min
        ((SetCompact 0x207fffff).T * (superShieldActual 3000 600 150).toNat
          / (20 * (150 : Int)).toNat)
        (UintToArith256 (2 ^ 255 - 1))) = 0x2079e60e ∧
    testcase6 (uniformChain 0x207fffff 0 150 20) { mainParams with powLimit := 2 ^ 255 - 1 }
      ≠ .ok 0x2079e60e := by
  decide

/-- C18, amended: for a chain in which `last` has at least 16 predecessors and a positive
spacing `sp` (within the signed 64-bit range), when the product
`decode(last.bits) * actual` is below `2^256`, `testcase6` returns the compact encoding of
`min(⌊decode(last.bits) * actual / (20*sp)⌋, powLimit)` with `short = clamp(0, 5*sp/2,
10*sp)`, `long = clamp(last.time - t16, 10*sp, 40*sp)`, `avg = (4*short + long)/2` and
`actual = clamp((avg + 60*sp)/4, 2000*sp/105, 2200*sp/100)`, `t16` being the time of the
header 16 steps back from `last`; and in every case two chains that agree on `last.bits`,
`last.time` and `t16` give the same result. -/
theorem testcase6_formula (last : BlockIndex) (prev : CBlockIndex) (params : Params)
    (hs : 0 < params.nPowTargetSpacing) (hr : params.nPowTargetSpacing * 2200 < 2 ^ 63)
    (h16 : 16 ≤ prev.length) :
    ∃ b16 : BlockIndex, (last :: prev)[16]? = some b16 ∧
      ((SetCompact last.nBits).T
          * (superShieldActual last.nTime b16.nTime params.nPowTargetSpacing).toNat < 2 ^ 256 →
        testcase6 (last :: prev) params
          = .ok (GetCompact (min
              ((SetCompact last.nBits).T
                  * (superShieldActual last.nTime b16.nTime params.nPowTargetSpacing).toNat
                / (20 * params.nPowTargetSpacing).toNat)
              (UintToArith256 params.powLimit)))) ∧
      ∀ (last1 b1 : BlockIndex) (prev1 : CBlockIndex),
        (last1 :: prev1)[16]? = some b1 → last1.nBits = last.nBits →
        last1.nTime = last.nTime → b1.nTime = b16.nTime →
        testcase6 (last1 :: prev1) params = testcase6 (last :: prev) params := by
  have hlt : 16 < (last :: prev).length := by simp; omega
  refine ⟨(last :: prev)[16], List.getElem?_eq_getElem hlt, ?_, ?_⟩
  · intro hov
    rw [testcase6_eval last _ prev params hs hr (List.getElem?_eq_getElem hlt)]
    unfold superShieldSpec
    rw [mul256_of_lt _ _ hov]
  · intro last1 b1 prev1 hget hb ht h16t
    rw [testcase6_eval last _ prev params hs hr (List.getElem?_eq_getElem hlt),
      testcase6_eval last1 b1 prev1 params hs hr hget, hb, ht, h16t]

/-- Instance of C18 (amended) under the main parameters: height 20, 150 s between blocks;
the header 16 steps back has height 4, the lower limiter gives `actual = 2857`, the
product is below `2^256`, and the result is `0x1e00f3cb`. -/
theorem testcase6_formula_witness :
    (uniformChain 0x1e00ffff 0 150 20)[16]? = some ⟨4, 600, 0x1e00ffff⟩ ∧
    superShieldActual 3000 600 150 = 2857 ∧
    (SetCompact 0x1e00ffff).T * (superShieldActual 3000 600 150).toNat < 2 ^ 256 ∧
    (∃ b16 : BlockIndex, (uniformChain 0x1e00ffff 0 150 20)[16]? = some b16 ∧
      ((SetCompact 0x1e00ffff).T
          * (superShieldActual 3000 b16.nTime mainParams.nPowTargetSpacing).toNat < 2 ^ 256 →
        testcase6 (uniformChain 0x1e00ffff 0 150 20) mainParams
          = .ok (GetCompact (min
              ((SetCompact 0x1e00ffff).T
                  * (superShieldActual 3000 b16.nTime mainParams.nPowTargetSpacing).toNat
                / (20 * mainParams.nPowTargetSpacing).toNat)
              (UintToArith256 mainParams.powLimit))))) ∧
    testcase6 (uniformChain 0x1e00ffff 0 150 20) mainParams = .ok 0x1e00f3cb := by
  refine ⟨by decide, by decide, by decide, ?_, by decide⟩
  obtain ⟨b16, h1, h2, _⟩ := testcase6_formula ⟨20, 0 + 150 * 20, 0x1e00ffff⟩
    (uniformChain 0x1e00ffff 0 150 19) mainParams (by decide) (by decide) (by decide)
  exact ⟨b16, h1, h2⟩

/-! ## Algorithm 2: the formula -/

theorem dgwTarget_of_drop (chain : CBlockIndex) (j : Nat) (p : BlockIndex) (rest : CBlockIndex)
    (hd : chain.drop j = p :: rest) : dgwTarget chain (j + 1) = (SetCompact p.nBits).T := by
  have h : chain[j]? = some p := by
    rw [← List.head?_drop, hd]; rfl
  unfold dgwTarget
  simp only [Nat.add_sub_cancel, h]

theorem dgwAverage_step (chain : CBlockIndex) (j : Nat) (p : BlockIndex) (rest : CBlockIndex)
    (hd : chain.drop j = p :: rest) :
    (if j + 1 = 1 then (SetCompact p.nBits).T
      else add256 (mul256 (dgwAverage chain j) (j + 1)) (SetCompact p.nBits).T / (j + 1 + 1))
      = dgwAverage chain (j + 1) := by
  have ht := dgwTarget_of_drop chain j p rest hd
  cases j with
  | zero => simp only [Nat.zero_add, if_true, dgwAverage, ← ht]
  | succ m =>
    rw [if_neg (by omega)]
    simp only [dgwAverage, ← ht]

/-- The loop of `testcase2` started `j` steps back from `last` with the average `A_j`
ends with `A_24` at the header 23 steps back. -/
theorem dgwLoop_eq (chain : CBlockIndex) (p24 : BlockIndex) (h24 : chain[23]? = some p24) :
    ∀ (k j : Nat), j + k = 23 → ∀ (p : BlockIndex) (rest : CBlockIndex),
      chain.drop j = p :: rest →
      dgwLoop (k + 1) (dgwAverage chain j) p rest = .ok (dgwAverage chain 24, p24)
  | 0, j, hjk, p, rest, hd => by
    have hj : j = 23 := by omega
    subst hj
    have hp : p = p24 := by
      have h : chain[23]? = some p := by rw [← List.head?_drop, hd]; rfl
      rw [h] at h24; exact Option.some.inj h24
    have hstep := dgwAverage_step chain 23 p rest hd
    simp only [dgwLoop]
    rw [if_neg (by decide)] at hstep
    simp only [show (24 : Nat) - 0 = 24 from rfl, if_neg (show ¬ (24 : Nat) = 1 by decide),
      ne_eq, not_true_eq_false, if_false]
    rw [← hp]
    exact congrArg (fun a => Except.ok (a, p)) hstep
  | k + 1, j, hjk, p, rest, hd => by
    have hstep := dgwAverage_step chain j p rest hd
    have hn : 24 - (k + 1) = j + 1 := by omega
    have hlen : 23 < chain.length := by
      by_contra hcon
      rw [List.getElem?_eq_none (by omega)] at h24
      cases h24
    cases rest with
    | nil =>
      have : (chain.drop j).length = 1 := by rw [hd]; rfl
      rw [List.length_drop] at this
      omega
    | cons p1 rest1 =>
      have hd1 : chain.drop (j + 1) = p1 :: rest1 := by
        have := congrArg (List.drop 1) hd
        simpa [List.drop_drop, Nat.add_comm] using this
      have ih := dgwLoop_eq chain p24 h24 k (j + 1) (by omega) p1 rest1 hd1
      rw [dgwLoop]
      simp only [hn, hstep]
      rw [if_pos (by omega)]
      exact ih

/-- What `testcase2` returns past its guard when no min-difficulty exception applies and
the header 23 steps back from `last` exists. -/
theorem testcase2_eval (last p24 : BlockIndex) (prev : CBlockIndex) (pblock : CBlockHeader)
    (params : Params) (hs : 0 < params.nPowTargetSpacing)
    (hr : params.nPowTargetSpacing * 72 < 2 ^ 63) (h24 : 24 ≤ last.nHeight)
    (hget : (last :: prev)[23]? = some p24)
    (hx1 : ¬ (params.fPowAllowMinDifficultyBlocks = true ∧
      pblock.nTime > last.nTime + 2 * 60 * 60))
    (hx2 : ¬ (params.fPowAllowMinDifficultyBlocks = true ∧
      pblock.nTime > last.nTime + params.nPowTargetSpacing * 4)) :
    testcase2 (last :: prev) pblock params
      = .ok (GetCompact (min
          (mul256 (dgwAverage (last :: prev) 24)
              (min (max (last.nTime - p24.nTime) (24 * params.nPowTargetSpacing / 3))
                (3 * 24 * params.nPowTargetSpacing)).toNat
            / (24 * params.nPowTargetSpacing).toNat)
          (UintToArith256 params.powLimit))) := by
  have hloop := dgwLoop_eq (last :: prev) p24 hget 23 0 (by omega) last prev rfl
  have h0 : dgwAverage (last :: prev) 0 = 0 := rfl
  rw [h0] at hloop
  have hd3 : (24 * params.nPowTargetSpacing).tdiv 3 = 24 * params.nPowTargetSpacing / 3 :=
    Int.tdiv_eq_ediv (by omega) (by omega)
  have hhi3 : 24 * params.nPowTargetSpacing * 3 = 3 * 24 * params.nPowTargetSpacing := by
    omega
  generalize ha : min (max (last.nTime - p24.nTime) (24 * params.nPowTargetSpacing / 3))
    (3 * 24 * params.nPowTargetSpacing) = a
  have hau : toU64 a = a.toNat := toU64_of_nonneg a (by omega) (by omega)
  have htu : toU64 (24 * params.nPowTargetSpacing) = (24 * params.nPowTargetSpacing).toNat :=
    toU64_of_nonneg _ (by omega) (by omega)
  have htn : (24 * params.nPowTargetSpacing).toNat ≠ 0 := by omega
  have hmin2 : ∀ X L : Nat, (if X > L then L else X) = min X L := by
    intro X L; split <;> omega
  unfold testcase2
  simp only [if_neg (by omega : ¬ last.nHeight < 24), if_neg hx1, if_neg hx2, hloop,
    clampSeq_eq, hd3, hhi3, ha, hau, htu, div256, if_neg htn, hmin2]

theorem dgwTarget_le (chain : CBlockIndex) (M : Nat)
    (hM : ∀ b ∈ chain, (SetCompact b.nBits).T ≤ M) (k : Nat) : dgwTarget chain k ≤ M := by
  unfold dgwTarget
  cases h : chain[k - 1]? with
  | none => exact Nat.zero_le _
  | some b => exact hM b (List.getElem?_mem h)

/-- While `25 * M` fits in 256 bits, the 256-bit recurrence of Algorithm 2 over targets
bounded by `M` is the recurrence over unbounded integers, and stays bounded by `M`. -/
theorem dgwAverage_exact (chain : CBlockIndex) (M : Nat)
    (hM : ∀ b ∈ chain, (SetCompact b.nBits).T ≤ M) (h25 : 25 * M < 2 ^ 256) :
    ∀ k, k ≤ 24 → dgwAverage chain k = dgwAverageExact chain k ∧ dgwAverageExact chain k ≤ M
  | 0, _ => ⟨rfl, Nat.zero_le _⟩
  | 1, _ => ⟨rfl, dgwTarget_le chain M hM 1⟩
  | k + 2, hk => by
    obtain ⟨ih1, ih2⟩ := dgwAverage_exact chain M hM h25 (k + 1) (by omega)
    have ht := dgwTarget_le chain M hM (k + 2)
    have hmul : dgwAverageExact chain (k + 1) * (k + 2) ≤ M * (k + 2) :=
      Nat.mul_le_mul_right _ ih2
    have h24M : M * (k + 2) ≤ M * 24 := Nat.mul_le_mul_left _ (by omega)
    have hsum : dgwAverageExact chain (k + 1) * (k + 2) + dgwTarget chain (k + 2)
        ≤ M * (k + 3) := by
      have : M * (k + 3) = M * (k + 2) + M := by ring
      omega
    simp only [dgwAverage, dgwAverageExact, ih1]
    rw [mul256_of_lt _ _ (by omega)]
    unfold add256
    rw [sat256_of_le _ (by unfold maxU256; omega)]
    refine ⟨rfl, ?_⟩
    exact Nat.div_le_of_le_mul (by rw [Nat.mul_comm (k + 3) M]; exact hsum)

/-- While no step of the recurrence of Algorithm 2 exceeds 256 bits, the 256-bit
recurrence is the recurrence over unbounded integers. -/
theorem dgwAverage_eq_exact (chain : CBlockIndex)
    (hov : ∀ k, k < 23 →
      dgwAverageExact chain (k + 1) * (k + 2) + dgwTarget chain (k + 2) < 2 ^ 256) :
    ∀ k, k ≤ 24 → dgwAverage chain k = dgwAverageExact chain k
  | 0, _ => rfl
  | 1, _ => rfl
  | k + 2, hk => by
    have ih := dgwAverage_eq_exact chain hov (k + 1) (by omega)
    have h := hov k (by omega)
    have hmul : mul256 (dgwAverageExact chain (k + 1)) (k + 2)
        = dgwAverageExact chain (k + 1) * (k + 2) := mul256_of_lt _ _ (by omega)
    have hadd : add256 (dgwAverageExact chain (k + 1) * (k + 2)) (dgwTarget chain (k + 2))
        = dgwAverageExact chain (k + 1) * (k + 2) + dgwTarget chain (k + 2) := by
      unfold add256
      exact sat256_of_le _ (by unfold maxU256; omega)
    unfold dgwAverage dgwAverageExact
    rw [ih, hmul, hadd]

/-- C13, as stated, fails when a 256-bit product overflows: under the main time parameters
with `powLimit = 2^255 - 1`, on the chain of heights 30..0 with 150 s between blocks and
bits `0x1f7fffff` everywhere, `A_24` is the common target `0x7fffff * 2^224`, `a = 3450`,
the product `A_24 * a` exceeds `2^256 - 1`, and `testcase2` does not return the compact
encoding `0x1f7aaaa9` of `min(⌊A_24 * a / (24 * spacing)⌋, powLimit)`. -/
theorem testcase2_formula_counterexample :
    dgwAverageExact (uniformChain 0x1f7fffff 0 150 30) 24 = 0x7fffff * 2 ^ 224 ∧
    2 ^ 256 ≤ dgwAverageExact (uniformChain 0x1f7fffff 0 150 30) 24
      * (min (max (((0 : Int) + 150 * 30) - (0 + 150 * 7)) (24 * 150 / 3)) (3 * 24 * 150)).toNat ∧
    GetCompact (min
        (dgwAverageExact (uniformChain 0x1f7fffff 0 150 30) 24
            * (min (max (((0 : Int) + 150 * 30) - (0 + 150 * 7)) (24 * 150 / 3))
              (3 * 24 * 150)).toNat
          / (24 * (150 : Int)).toNat)
        (UintToArith256 (2 ^ 255 - 1))) = 0x1f7aaaa9 ∧
    testcase2 (uniformChain 0x1f7fffff 0 150 30) { nTime := 4650 }
        { mainParams with powLimit := 2 ^ 255 - 1 } ≠ .ok 0x1f7aaaa9 := by
  decide

/-- C13, amended: for a chain with `last.height ≥ 24` in which `p_24`, the header 23
steps back from `last`, exists, when no min-difficulty exception applies (spacing
positive, within the signed 64-bit range) and no 256-bit operation overflows (every
`A_{k-1} * k + T_k` and the product `A_24 * a` are below `2^256`), `testcase2` returns the
compact encoding of `min(⌊A_24 * a / (24 * spacing)⌋, powLimit)`, where `p_1 = last`,
`p_{k+1} = p_k.prev`, `T_k = decode(p_k.bits)`, `A_1 = T_1`,
`A_k = ⌊(A_{k-1} * k + T_k)/(k + 1)⌋`, and `a = last.time - p_24.time` clamped into
`[(24 * spacing)/3, 3 * 24 * spacing]`. -/
theorem testcase2_formula (last p24 : BlockIndex) (prev : CBlockIndex)
    (pblock : CBlockHeader) (params : Params) (hs : 0 < params.nPowTargetSpacing)
    (hr : params.nPowTargetSpacing * 72 < 2 ^ 63) (h24 : 24 ≤ last.nHeight)
    (hget : (last :: prev)[23]? = some p24)
    (hx1 : ¬ (params.fPowAllowMinDifficultyBlocks = true ∧
      pblock.nTime > last.nTime + 2 * 60 * 60))
    (hx2 : ¬ (params.fPowAllowMinDifficultyBlocks = true ∧
      pblock.nTime > last.nTime + params.nPowTargetSpacing * 4))
    (hov : ∀ k, k < 23 → dgwAverageExact (last :: prev) (k + 1) * (k + 2)
      + dgwTarget (last :: prev) (k + 2) < 2 ^ 256)
    (hprod : dgwAverageExact (last :: prev) 24
      * (min (max (last.nTime - p24.nTime) (24 * params.nPowTargetSpacing / 3))
        (3 * 24 * params.nPowTargetSpacing)).toNat < 2 ^ 256) :
    testcase2 (last :: prev) pblock params
      = .ok (GetCompact (min
          (dgwAverageExact (last :: prev) 24
              * (min (max (last.nTime - p24.nTime) (24 * params.nPowTargetSpacing / 3))
                (3 * 24 * params.nPowTargetSpacing)).toNat
            / (24 * params.nPowTargetSpacing).toNat)
          (UintToArith256 params.powLimit))) ∧
    24 * params.nPowTargetSpacing / 3
      ≤ min (max (last.nTime - p24.nTime) (24 * params.nPowTargetSpacing / 3))
        (3 * 24 * params.nPowTargetSpacing) ∧
    min (max (last.nTime - p24.nTime) (24 * params.nPowTargetSpacing / 3))
        (3 * 24 * params.nPowTargetSpacing) ≤ 3 * 24 * params.nPowTargetSpacing := by
  have hev := testcase2_eval last p24 prev pblock params hs hr h24 hget hx1 hx2
  have he := dgwAverage_eq_exact (last :: prev) hov 24 (le_refl _)
  refine ⟨?_, by omega, by omega⟩
  rw [hev, he, mul256_of_lt _ _ hprod]

/-- Instance of C13 (amended) under the main parameters: height 30, all bits `0x1e00ffff`,
150 s between blocks; `A_24` is the common target, `a = 3450` against `24 * 150 = 3600`,
and the result is `0x1e00f554`. -/
theorem testcase2_formula_witness :
    (uniformChain 0x1e00ffff 0 150 30)[23]? = some ⟨7, 1050, 0x1e00ffff⟩ ∧
    dgwAverageExact (uniformChain 0x1e00ffff 0 150 30) 24 = (SetCompact 0x1e00ffff).T ∧
    testcase2 (uniformChain 0x1e00ffff 0 150 30) { nTime := 4650 } mainParams
      = .ok (GetCompact (min
          (dgwAverageExact (uniformChain 0x1e00ffff 0 150 30) 24
              * (min (max (((0 : Int) + 150 * 30) - 1050)
                  (24 * mainParams.nPowTargetSpacing / 3))
                (3 * 24 * mainParams.nPowTargetSpacing)).toNat
            / (24 * mainParams.nPowTargetSpacing).toNat)
          (UintToArith256 mainParams.powLimit))) ∧
    testcase2 (uniformChain 0x1e00ffff 0 150 30) { nTime := 4650 } mainParams
      = .ok 0x1e00f554 :=
  ⟨by decide, by decide,
   (testcase2_formula ⟨30, 0 + 150 * 30, 0x1e00ffff⟩ ⟨7, 1050, 0x1e00ffff⟩
      (uniformChain 0x1e00ffff 0 150 29) { nTime := 4650 } mainParams (by decide) (by decide)
      (by decide) (by decide) (by decide) (by decide) (by decide) (by decide)).1,
   by decide⟩

/-! ## Totality of the dispatcher on valid inputs -/

theorem testcase1_ext_total (last : BlockIndex) (prev : CBlockIndex) (t : Int)
    (params : Params) (hts : 0 < params.nPowTargetTimespan)
    (hr : params.nPowTargetTimespan * 4 < 2 ^ 63) :
    ∃ v, testcase1_ext (last :: prev) t params = .ok v := by
  cases hno : params.fPowNoRetargeting with
  | true => exact ⟨last.nBits, by simp [testcase1_ext, hno]⟩
  | false => exact ⟨_, testcase1_ext_eval last prev t params hts hr hno⟩

/-- In a well-formed chain the walk back of `blockstogoback` headers from a retarget
boundary ends on a header. -/
theorem goBack_boundary (last : BlockIndex) (prev : CBlockIndex) (I : Int) (hI : 1 ≤ I)
    (hwf : WellFormed (last :: prev)) (hb : ((last.nHeight : Int) + 1).tmod I = 0) :
    ∃ first rest, goBack (last :: prev) (blocksToGoBack last.nHeight I) = first :: rest := by
  obtain ⟨k, hk⟩ := Int.dvd_of_tmod_eq_zero hb
  have hkpos : 1 ≤ k := by
    by_contra hlt
    have hk0 : k ≤ 0 := by omega
    have : I * k ≤ 0 := Int.mul_nonpos_of_nonneg_of_nonpos (by omega) hk0
    omega
  have hle : (blocksToGoBack last.nHeight I).toNat ≤ last.nHeight := by
    unfold blocksToGoBack
    split
    · next hne =>
      have hk2 : 2 ≤ k := by
        by_contra hlt
        have : k = 1 := by omega
        subst this
        omega
      have : I * 2 ≤ I * k := Int.mul_le_mul_of_nonneg_left hk2 (by omega)
      omega
    · next heq => omega
  obtain ⟨first, rest, hd, _⟩ := wellFormed_getElem last prev hwf _ hle
  exact ⟨first, rest, hd⟩

theorem testcase1_total (last : BlockIndex) (prev : CBlockIndex) (pblock : CBlockHeader)
    (params : Params) (hs : 0 < params.nPowTargetSpacing)
    (hts : params.nPowTargetSpacing ≤ params.nPowTargetTimespan)
    (hr : params.nPowTargetTimespan * 4 < 2 ^ 63) (hwf : WellFormed (last :: prev)) :
    ∃ v, testcase1 (last :: prev) pblock params = .ok v := by
  have hI := interval_pos params hs hts
  have hI0 : params.nPowTargetTimespan.tdiv params.nPowTargetSpacing ≠ 0 := by omega
  unfold testcase1
  simp only [interval_ok params (by omega : params.nPowTargetSpacing ≠ 0), cmod_ok _ _ hI0]
  split
  · split
    · split
      · exact ⟨_, rfl⟩
      · obtain ⟨j, x, _, _, hres⟩ := lastNonMinDifficulty_spec
          (params.nPowTargetTimespan.tdiv params.nPowTargetSpacing)
          (GetCompact (UintToArith256 params.powLimit)) hI0 prev last
        exact ⟨_, hres⟩
    · exact ⟨_, rfl⟩
  · next hb =>
    have hb0 : ((last.nHeight : Int) + 1).tmod
        (params.nPowTargetTimespan.tdiv params.nPowTargetSpacing) = 0 := by
      by_contra h; exact hb h
    obtain ⟨first, rest, hd⟩ := goBack_boundary last prev _ hI hwf hb0
    rw [hd]
    exact testcase1_ext_total last prev first.nTime params (by omega) hr

theorem testcase2_total (last : BlockIndex) (prev : CBlockIndex) (pblock : CBlockHeader)
    (params : Params) (hs : 0 < params.nPowTargetSpacing)
    (hr : params.nPowTargetSpacing * 72 < 2 ^ 63) (hwf : WellFormed (last :: prev))
    (h24 : 24 ≤ last.nHeight) :
    ∃ v, testcase2 (last :: prev) pblock params = .ok v := by
  have hlen : 23 < (last :: prev).length := by
    have := hwf.1
    simp only [List.length_cons]; omega
  by_cases hx1 : params.fPowAllowMinDifficultyBlocks = true ∧
      pblock.nTime > last.nTime + 2 * 60 * 60
  · refine ⟨GetCompact (UintToArith256 params.powLimit), ?_⟩
    simp only [testcase2, if_neg (by omega : ¬ last.nHeight < 24), if_pos hx1]
  · by_cases hx2 : params.fPowAllowMinDifficultyBlocks = true ∧
        pblock.nTime > last.nTime + params.nPowTargetSpacing * 4
    · refine ⟨GetCompact (if mul256 (SetCompact last.nBits).T 10
          > UintToArith256 params.powLimit then UintToArith256 params.powLimit
          else mul256 (SetCompact last.nBits).T 10), ?_⟩
      simp only [testcase2, if_neg (by omega : ¬ last.nHeight < 24), if_neg hx1, if_pos hx2]
    · exact ⟨_, testcase2_eval last _ prev pblock params hs hr h24
        (List.getElem?_eq_getElem hlen) hx1 hx2⟩

theorem testcase3_total (horizon : Nat → Int → Int → Bool) (pindexLast : CBlockIndex)
    (params : Params) (hs : 0 < params.nPowTargetSpacing)
    (hr : params.nPowTargetSpacing < 2 ^ 63) :
    ∃ v, testcase3 horizon pindexLast params = .ok v := by
  obtain ⟨hu, hn⟩ := toU64_pos _ hs hr
  unfold testcase3
  simp only [hu, if_neg hn]
  split
  · exact ⟨_, rfl⟩
  · split
    · exact ⟨_, rfl⟩
    · exact ⟨_, rfl⟩

theorem testcase4_total (last : BlockIndex) (prev : CBlockIndex) (pblock : CBlockHeader)
    (params : Params) (hs : 0 < params.nPowTargetSpacing)
    (hts : params.nPowTargetSpacing ≤ params.nPowTargetTimespan)
    (hr : params.nPowTargetTimespan * 2 < 2 ^ 63) (hwf : WellFormed (last :: prev)) :
    ∃ v, testcase4 (last :: prev) pblock params = .ok v := by
  have hI := interval_pos params hs hts
  have hI0 : params.nPowTargetTimespan.tdiv params.nPowTargetSpacing ≠ 0 := by omega
  by_cases hb : ((last.nHeight : Int) + 1).tmod
      (params.nPowTargetTimespan.tdiv params.nPowTargetSpacing) = 0
  · obtain ⟨first, rest, hd⟩ := goBack_boundary last prev _ hI hwf hb
    exact ⟨_, testcase4_boundary_eval last first prev rest pblock params hs hts hr hb hd⟩
  · refine ⟨last.nBits, ?_⟩
    unfold testcase4
    simp only [if_neg (by omega : ¬ params.nPowTargetSpacing = 0), cmod_ok _ _ hI0]
    rw [if_pos hb]
    simp

theorem testcase5_total (horizon : Nat → Int → Int → Bool) (last prevBlock : BlockIndex)
    (rest : CBlockIndex) (pblock : CBlockHeader) (params : Params)
    (hs : 0 < params.nPowTargetSpacing) (hr : params.nPowTargetSpacing < 2 ^ 63) :
    ∃ v, testcase5 horizon (last :: prevBlock :: rest) pblock params = .ok v := by
  obtain ⟨hu, hn⟩ := toU64_pos _ hs hr
  unfold testcase5
  simp only [hu, if_neg hn]
  split
  · exact ⟨_, rfl⟩
  · exact ⟨_, rfl⟩

/-- C19: for valid time parameters (`timespan ≥ spacing > 0`, within the signed 64-bit
range of the products the code forms), a well-formed chain, `last.height ≥ 99`, any
candidate, any outcome of the floating-point tests and a selector in `{1,..,6}`,
`GetNextWorkRequired` returns a value: no division or remainder has a zero divisor, no
`assert` fails and no null predecessor is dereferenced. -/
theorem GetNextWorkRequired_total (horizon3 horizon5 : Nat → Int → Int → Bool)
    (retargetRoutine : Int) (last : BlockIndex) (prev : CBlockIndex) (pblock : CBlockHeader)
    (params : Params) (hs : 0 < params.nPowTargetSpacing)
    (hts : params.nPowTargetSpacing ≤ params.nPowTargetTimespan)
    (hr : params.nPowTargetTimespan * 2200 < 2 ^ 63)
    (hwf : WellFormed (last :: prev)) (h99 : 99 ≤ last.nHeight)
    (hsel : 1 ≤ retargetRoutine ∧ retargetRoutine ≤ 6) :
    ∃ v, GetNextWorkRequired horizon3 horizon5 retargetRoutine (last :: prev) pblock params
      = .ok v := by
  have h1 : ¬ ((last.nHeight : Int) + 1 < 100) := by omega
  have hlen : prev.length = last.nHeight := hwf.1.symm
  unfold GetNextWorkRequired
  simp only [if_neg h1]
  split
  · exact testcase1_total last prev pblock params hs hts (by omega) hwf
  · split
    · exact testcase2_total last prev pblock params hs (by omega) hwf (by omega)
    · split
      · exact testcase3_total horizon3 _ params hs (by omega)
      · split
        · exact testcase4_total last prev pblock params hs hts (by omega) hwf
        · split
          · cases prev with
            | nil => simp at hlen; omega
            | cons prevBlock rest =>
              exact testcase5_total horizon5 last prevBlock rest pblock params hs (by omega)
          · split
            · have hlt : 16 < (last :: prev).length := by
                simp only [List.length_cons]; omega
              exact ⟨_, testcase6_eval last _ prev params hs (by omega)
                (List.getElem?_eq_getElem hlt)⟩
            · omega

/-- Instance of C19 at height 479 under the main parameters with selector 2. -/
theorem GetNextWorkRequired_total_witness :
    WellFormed (uniformChain 0x1e00ffff 0 150 479) ∧
    ∃ v, GetNextWorkRequired (fun _ _ _ => false) (fun _ _ _ => false) 2
      (uniformChain 0x1e00ffff 0 150 479) { nTime := 72000 } mainParams = .ok v :=
  ⟨by decide,
    GetNextWorkRequired_total (fun _ _ _ => false) (fun _ _ _ => false) 2
      ⟨479, 0 + 150 * 479, 0x1e00ffff⟩ (uniformChain 0x1e00ffff 0 150 478) { nTime := 72000 }
      mainParams (by decide) (by decide) (by decide) (by decide) (by decide)
      ⟨by decide, by decide⟩⟩

/-! ## The KimotoGravityWell loop: the averaging step and the bound on the walk -/

theorem SetCompact_T_le (nBits : Nat) : (SetCompact nBits).T ≤ maxU256 := by
  unfold SetCompact
  simp only []
  split
  · have h1 : shr256 (nBits &&& 0x007fffff) (8 * (3 - ((nBits >>> 24) &&& 0xff)))
        ≤ nBits &&& 0x007fffff := by
      unfold shr256
      rw [Nat.shiftRight_eq_div_pow]
      exact Nat.div_le_self _ _
    have h2 : nBits &&& 0x007fffff ≤ 0x007fffff := Nat.and_le_right
    have h3 : (0x007fffff : Nat) ≤ maxU256 := by decide
    omega
  · exact sat256_le _

/-- C21: in the averaging step of the loops of `testcase3` and `testcase5`, for every
previous average `A_prev`, every decoded target `T` and every step index `i ≥ 2`, the new
average `A` satisfies `min(A_prev, T) ≤ A ≤ max(A_prev, T)`; the value is the one the step
gives over the integers, so no subtraction goes below zero, and the sum formed when
`T ≥ A_prev` is at most `2^256 - 1`. -/
theorem kgwAverage_in_range (i prev nBits : Nat) (hi : 2 ≤ i) :
    min prev (SetCompact nBits).T ≤ kgwAverage i (SetCompact nBits).T prev ∧
    kgwAverage i (SetCompact nBits).T prev ≤ max prev (SetCompact nBits).T ∧
    ((kgwAverage i (SetCompact nBits).T prev : Nat) : Int)
      = (if (SetCompact nBits).T ≥ prev
          then (((SetCompact nBits).T : Int) - prev) / i + prev
          else (prev : Int) - ((prev : Int) - (SetCompact nBits).T) / i) ∧
    ((SetCompact nBits).T ≥ prev →
      ((SetCompact nBits).T - prev) / i + prev ≤ maxU256) ∧
    (¬ (SetCompact nBits).T ≥ prev →
      (prev - (SetCompact nBits).T) / i ≤ prev) := by
  have hT := SetCompact_T_le nBits
  generalize (SetCompact nBits).T = T at *
  unfold kgwAverage
  rw [if_pos (by omega : i > 1)]
  by_cases hge : T ≥ prev
  · have hq : (T - prev) / i ≤ T - prev := Nat.div_le_self _ _
    have hsum : (T - prev) / i + prev ≤ maxU256 := by omega
    have hadd : add256 ((T - prev) / i) prev = (T - prev) / i + prev := by
      unfold add256; exact sat256_of_le _ hsum
    have hcast : (((T - prev) / i : Nat) : Int) = ((T : Int) - prev) / i := by
      rw [Int.natCast_div, Nat.cast_sub hge]
    rw [if_pos hge, if_pos hge, hadd, Nat.min_eq_left hge, Nat.max_eq_right hge]
    refine ⟨Nat.le_add_left _ _, ?_, ?_, fun _ => hsum, fun h => absurd hge h⟩
    · generalize (T - prev) / i = q at hq; omega
    rw [Nat.cast_add, hcast]
  · have hlt : T ≤ prev := by omega
    have hq : (prev - T) / i ≤ prev - T := Nat.div_le_self _ _
    have hcast : (((prev - T) / i : Nat) : Int) = ((prev : Int) - T) / i := by
      rw [Int.natCast_div, Nat.cast_sub hlt]
    rw [if_neg hge, if_neg hge, Nat.min_eq_right hlt, Nat.max_eq_left hlt]
    have hq2 : (prev - T) / i ≤ prev := by omega
    refine ⟨?_, Nat.sub_le _ _, ?_, fun h => absurd h hge, fun _ => hq2⟩
    · generalize (prev - T) / i = q at hq; omega
    rw [Nat.cast_sub hq2, hcast]

/-- Instance of C21: step 2 between the previous average `0xffff * 2^208` (bits
`0x1d00ffff`) and the target of `0x1e00ffff`. -/
theorem kgwAverage_in_range_witness :
    min (0xffff * 2 ^ 208) (SetCompact 0x1e00ffff).T
      ≤ kgwAverage 2 (SetCompact 0x1e00ffff).T (0xffff * 2 ^ 208) ∧
    kgwAverage 2 (SetCompact 0x1e00ffff).T (0xffff * 2 ^ 208)
      ≤ max (0xffff * 2 ^ 208) (SetCompact 0x1e00ffff).T :=
  ⟨(kgwAverage_in_range 2 (0xffff * 2 ^ 208) 0x1e00ffff (by decide)).1,
   (kgwAverage_in_range 2 (0xffff * 2 ^ 208) 0x1e00ffff (by decide)).2.1⟩

theorem kgwLoop_mass_le_max (horizon : Nat → Int → Int → Bool) (spacing mn mx : Nat)
    (lastTime : Int) (hmx : 0 < mx) :
    ∀ (chain : CBlockIndex) (i : Nat) (st : KgwState),
      st.PastBlocksMass + 1 = i → st.PastBlocksMass ≤ mx →
      (kgwLoop horizon spacing mn mx lastTime i st chain).PastBlocksMass ≤ mx := by
  intro chain
  induction chain with
  | nil => intro i st _ h; simpa [kgwLoop] using h
  | cons reading pprev ih =>
    intro i st hi hst
    cases pprev with
    | nil =>
      unfold kgwLoop
      simp only []
      split_ifs with h1 h2 h3 h4 h5
      all_goals first
        | exact hst
        | (show st.PastBlocksMass + 1 ≤ mx
           by_contra hc
           exact h2 ⟨hmx, by omega⟩)
    | cons p r =>
      unfold kgwLoop
      simp only []
      split_ifs with h1 h2 h3 h4 h5
      all_goals first
        | exact hst
        | (show st.PastBlocksMass + 1 ≤ mx
           by_contra hc
           exact h2 ⟨hmx, by omega⟩)
        | (apply ih
           · show st.PastBlocksMass + 1 + 1 = i + 1
             omega
           · show st.PastBlocksMass + 1 ≤ mx
             by_contra hc
             exact h2 ⟨hmx, by omega⟩)

theorem kgwLoop_mass_le_length (horizon : Nat → Int → Int → Bool) (spacing mn mx : Nat)
    (lastTime : Int) :
    ∀ (chain : CBlockIndex) (i : Nat) (st : KgwState),
      (kgwLoop horizon spacing mn mx lastTime i st chain).PastBlocksMass
        ≤ st.PastBlocksMass + chain.length := by
  intro chain
  induction chain with
  | nil => intro i st; simp [kgwLoop]
  | cons reading pprev ih =>
    intro i st
    cases pprev with
    | nil =>
      unfold kgwLoop
      simp only [List.length_cons, List.length_nil]
      split_ifs
      all_goals first
        | exact Nat.le_add_right _ _
        | (show st.PastBlocksMass + 1 ≤ _
           omega)
    | cons p r =>
      unfold kgwLoop
      simp only []
      split_ifs
      all_goals first
        | exact Nat.le_add_right _ _
        | (show st.PastBlocksMass + 1 ≤ _
           simp only [List.length_cons]
           omega)
        | (refine Nat.le_trans (ih _ _) ?_
           show st.PastBlocksMass + 1 + _ ≤ _
           simp only [List.length_cons]
           omega)

theorem kgwLoop_mass_le_height (horizon : Nat → Int → Int → Bool) (spacing mn mx : Nat)
    (lastTime : Int) :
    ∀ (chain : CBlockIndex), WellFormed chain → ∀ (i : Nat) (st : KgwState),
      (kgwLoop horizon spacing mn mx lastTime i st chain).PastBlocksMass
        ≤ st.PastBlocksMass + (chain.length - 1) := by
  intro chain
  induction chain with
  | nil => intro _ i st; simp [kgwLoop]
  | cons reading pprev ih =>
    intro hwf i st
    have hh : reading.nHeight = pprev.length := hwf.1
    cases pprev with
    | nil =>
      simp only [List.length_nil] at hh
      unfold kgwLoop
      rw [if_neg (by omega)]
      exact Nat.le_add_right _ _
    | cons p r =>
      unfold kgwLoop
      simp only []
      split_ifs
      all_goals first
        | exact Nat.le_add_right _ _
        | (show st.PastBlocksMass + 1 ≤ _
           simp only [List.length_cons]
           omega)
        | (refine Nat.le_trans (ih hwf.2 _ _) ?_
           show st.PastBlocksMass + 1 + _ ≤ _
           simp only [List.length_cons]
           omega)

/-- C22, as stated, fails for Algorithm 5 with the valid time parameters
`nPowTargetSpacing = nPowTargetTimespan = 700000`: `PastBlocksMax` is
`604800 / 700000 = 0`, `PastBlocksMin` is `2160 / 700000 = 0`, the guard
`PastBlocksMax > 0 && i > PastBlocksMax` never fires, and on the chain of heights 3..0
with the event-horizon test never met the walk leaves with `PastBlocksMass = 3`, which is
not at most `PastBlocksMax`. -/
theorem kgw_mass_bound_counterexample :
    toU64 (60 * 60 * 24 * 7) / toU64 700000 = 0 ∧
    pastSeconds025 (60 * 60 * 24) / toU64 700000 = 0 ∧
    (kgwLoop (fun _ _ _ => false) (toU64 700000)
        (pastSeconds025 (60 * 60 * 24) / toU64 700000)
        (toU64 (60 * 60 * 24 * 7) / toU64 700000)
        (2100000 : Int) 1 KgwState.init (uniformChain 0x1e00ffff 0 700000 3)).PastBlocksMass = 3 ∧
    ¬ (kgwLoop (fun _ _ _ => false) (toU64 700000)
        (pastSeconds025 (60 * 60 * 24) / toU64 700000)
        (toU64 (60 * 60 * 24 * 7) / toU64 700000)
        (2100000 : Int) 1 KgwState.init (uniformChain 0x1e00ffff 0 700000 3)).PastBlocksMass
      ≤ toU64 (60 * 60 * 24 * 7) / toU64 700000 := by
  decide

/-- C22, amended: the backward walk of the loops of `testcase3` and `testcase5`, started
at step 1 with the initial state on a chain `last :: prev`, is a total function of its
inputs whatever the event-horizon test answers; the number of headers it has averaged is
at most `PastBlocksMax` when `PastBlocksMax > 0` (the guard of the loop tests
`PastBlocksMax > 0` first), is at most the number of headers of the chain in every case,
and is at most `last.nHeight` on a chain whose heights count the predecessors. -/
theorem kgwLoop_mass_bound (horizon : Nat → Int → Int → Bool)
    (spacing PastBlocksMin PastBlocksMax : Nat) (lastTime : Int)
    (last : BlockIndex) (prev : CBlockIndex) :
    (0 < PastBlocksMax →
      (kgwLoop horizon spacing PastBlocksMin PastBlocksMax lastTime 1 KgwState.init
        (last :: prev)).PastBlocksMass ≤ PastBlocksMax) ∧
    (kgwLoop horizon spacing PastBlocksMin PastBlocksMax lastTime 1 KgwState.init
        (last :: prev)).PastBlocksMass ≤ (last :: prev).length ∧
    (WellFormed (last :: prev) →
      (kgwLoop horizon spacing PastBlocksMin PastBlocksMax lastTime 1 KgwState.init
        (last :: prev)).PastBlocksMass ≤ last.nHeight) := by
  refine ⟨fun hmx => ?_, ?_, fun hwf => ?_⟩
  · exact kgwLoop_mass_le_max horizon spacing PastBlocksMin PastBlocksMax lastTime hmx
      (last :: prev) 1 KgwState.init rfl (Nat.zero_le _)
  · have h := kgwLoop_mass_le_length horizon spacing PastBlocksMin PastBlocksMax lastTime
      (last :: prev) 1 KgwState.init
    have h0 : KgwState.init.PastBlocksMass = 0 := rfl
    omega
  · have h := kgwLoop_mass_le_height horizon spacing PastBlocksMin PastBlocksMax lastTime
      (last :: prev) hwf 1 KgwState.init
    have h0 : KgwState.init.PastBlocksMass = 0 := rfl
    have hh : last.nHeight = prev.length := hwf.1
    simp only [List.length_cons] at h
    omega

/-- Instance of C22 (amended): the loop of `testcase5` under the main parameters
(`Blocktime = 150`, `PastBlocksMin = 14`, `PastBlocksMax = 4032`) on the uniform chain of
heights 20..0, with the event-horizon test never met. -/
theorem kgwLoop_mass_bound_witness :
    (0 : Nat) < 4032 ∧
    WellFormed ({ nHeight := 20, nTime := 3000, nBits := 0x1e00ffff } ::
      uniformChain 0x1e00ffff 0 150 19) ∧
    (kgwLoop (fun _ _ _ => false) 150 14 4032 3000 1 KgwState.init
      ({ nHeight := 20, nTime := 3000, nBits := 0x1e00ffff } ::
        uniformChain 0x1e00ffff 0 150 19)).PastBlocksMass ≤ 4032 ∧
    (kgwLoop (fun _ _ _ => false) 150 14 4032 3000 1 KgwState.init
      ({ nHeight := 20, nTime := 3000, nBits := 0x1e00ffff } ::
        uniformChain 0x1e00ffff 0 150 19)).PastBlocksMass ≤ 20 :=
  ⟨by decide, by simp [uniformChain, WellFormed],
   (kgwLoop_mass_bound (fun _ _ _ => false) 150 14 4032 3000
      { nHeight := 20, nTime := 3000, nBits := 0x1e00ffff }
      (uniformChain 0x1e00ffff 0 150 19)).1 (by decide),
   (kgwLoop_mass_bound (fun _ _ _ => false) 150 14 4032 3000
      { nHeight := 20, nTime := 3000, nBits := 0x1e00ffff }
      (uniformChain 0x1e00ffff 0 150 19)).2.2 (by simp [uniformChain, WellFormed])⟩

/-! ## The warm-up target and the genesis generator against the validator -/

theorem compactSize_pos (T : Nat) (h0 : T ≠ 0) : 1 ≤ compactSize T := by
  have hb := bits_pos T h0
  unfold compactSize
  omega

theorem pow_compactSize_le (T : Nat) (h0 : T ≠ 0) : 2 ^ (8 * (compactSize T - 1)) ≤ T := by
  have h1 := two_pow_bits_le T h0
  have hb := bits_pos T h0
  have h2 : 8 * (compactSize T - 1) ≤ bits T - 1 := by unfold compactSize; omega
  exact le_trans (Nat.pow_le_pow_right (by norm_num) h2) h1

theorem compactWord_ge (T : Nat) (h0 : T ≠ 0) : 2 ^ 16 ≤ compactWord T ∨
    (compactSize T ≤ 3 ∧ compactWord T = T * 2 ^ (8 * (3 - compactSize T))) := by
  by_cases hs : 3 < compactSize T
  · left
    rw [compactWord_large T hs]
    have h1 := pow_compactSize_le T h0
    rw [Nat.le_div_iff_mul_le (Nat.pos_pow_of_pos _ (by norm_num)), ← Nat.pow_add]
    refine le_trans (Nat.pow_le_pow_right (by norm_num) ?_) h1
    omega
  · right
    exact ⟨by omega, compactWord_small T (by omega)⟩

theorem sat256_ne_zero (n : Nat) (h : n ≠ 0) : sat256 n ≠ 0 := by
  unfold sat256 maxU256
  have : 0 < 2 ^ 256 - 1 := by norm_num
  omega

/-- Decoding the compact form of a non-zero 256-bit value sets neither flag and gives a
non-zero target. -/
theorem decode_encode_valid (T : Nat) (hT : T < 2 ^ 256) (h0 : T ≠ 0) :
    (SetCompact (GetCompact T)).negative = false ∧
    (SetCompact (GetCompact T)).overflow = false ∧
    (SetCompact (GetCompact T)).T ≠ 0 := by
  have hw := compactWord_lt T hT
  have hs := compactSize_le T
  have hs1 := compactSize_pos T h0
  have hge := compactWord_ge T h0
  rw [GetCompact_eq T hT]
  split
  · next hhi =>
    have hm : compactWord T / 256 < 2 ^ 16 := by omega
    have hm1 : 2 ^ 15 ≤ compactWord T / 256 := by omega
    rw [SetCompact_eq _ _ (by omega) (by omega)]
    refine ⟨rfl, ?_, ?_⟩
    · have h1 : ¬ compactSize T + 1 > 34 := by omega
      have h2 : ¬ compactSize T + 1 > 33 := by omega
      have h3 : ¬ compactWord T / 256 > 0xffff := by omega
      simp only [h1, h2, h3, decide_False, Bool.false_and, Bool.and_false, Bool.or_false]
    · simp only []
      split
      · next hle =>
        have hp : 2 ^ (8 * (3 - (compactSize T + 1))) ≤ 2 ^ 8 :=
          Nat.pow_le_pow_right (by norm_num) (by omega)
        have hpos : 0 < 2 ^ (8 * (3 - (compactSize T + 1))) := Nat.pos_pow_of_pos _ (by norm_num)
        have := (Nat.le_div_iff_mul_le hpos).2
          (show 1 * 2 ^ (8 * (3 - (compactSize T + 1))) ≤ compactWord T / 256 by omega)
        omega
      · apply sat256_ne_zero
        have hpos : 0 < 2 ^ (8 * (compactSize T + 1 - 3)) := Nat.pos_pow_of_pos _ (by norm_num)
        exact Nat.ne_of_gt (Nat.mul_pos (by omega) hpos)
  · next hlo =>
    rw [SetCompact_eq _ _ (by omega) (by omega)]
    refine ⟨rfl, ?_, ?_⟩
    · have h1 : ¬ compactSize T > 34 := by omega
      have h2 : ¬ compactSize T > 33 := by omega
      have h3 : ¬ compactSize T > 32 := by omega
      simp only [h1, h2, h3, decide_False, Bool.false_and, Bool.and_false, Bool.or_false]
    · simp only []
      split
      · next hle =>
        rw [compactWord_small T hle]
        have hpos : 0 < 2 ^ (8 * (3 - compactSize T)) := Nat.pos_pow_of_pos _ (by norm_num)
        rw [Nat.mul_div_cancel _ hpos]
        exact h0
      · next hgt =>
        apply sat256_ne_zero
        have hpos : 0 < 2 ^ (8 * (compactSize T - 3)) := Nat.pos_pow_of_pos _ (by norm_num)
        rcases hge with h | ⟨h, _⟩
        · exact Nat.ne_of_gt (Nat.mul_pos (by omega) hpos)
        · omega

/-- C25: for every parameter record whose `powLimit` is a non-zero 256-bit value, the
warm-up target `GetCompact(powLimit)` decodes without the negative flag, without the
overflow flag, to a non-zero value that is at most `powLimit`; hence `CheckProofOfWork`
accepts with these bits every hash that is at most the decoded value. -/
theorem warmup_target_valid (params : Params) (h0 : 0 < UintToArith256 params.powLimit) :
    (SetCompact (GetCompact (UintToArith256 params.powLimit))).negative = false ∧
    (SetCompact (GetCompact (UintToArith256 params.powLimit))).overflow = false ∧
    (SetCompact (GetCompact (UintToArith256 params.powLimit))).T ≠ 0 ∧
    (SetCompact (GetCompact (UintToArith256 params.powLimit))).T
      ≤ UintToArith256 params.powLimit ∧
    ∀ hash : Nat,
      UintToArith256 hash ≤ (SetCompact (GetCompact (UintToArith256 params.powLimit))).T →
      CheckProofOfWork hash (GetCompact (UintToArith256 params.powLimit)) params = true := by
  have hP := UintToArith256_lt params.powLimit
  obtain ⟨hn, ho, hz⟩ := decode_encode_valid _ hP (by omega)
  have hle := decode_encode_le _ hP
  refine ⟨hn, ho, hz, hle, ?_⟩
  intro hash hh
  unfold CheckProofOfWork
  simp only [hn, ho, Bool.false_or, Bool.or_false, decide_eq_true_eq, hz, Nat.not_lt.2 hle,
    Nat.not_lt.2 hh, gt_iff_lt, decide_False, if_false, Bool.false_eq_true]

/-- Instance of C25 under the main parameters: the warm-up bits are `0x1f00ffff`, which
decode to `0xffff * 2^224`, below `powLimit`; the hash `0xffff * 2^224` is accepted. -/
theorem warmup_target_valid_witness :
    0 < UintToArith256 mainParams.powLimit ∧
    GetCompact (UintToArith256 mainParams.powLimit) = 0x1f00ffff ∧
    (SetCompact (GetCompact (UintToArith256 mainParams.powLimit))).T = 0xffff * 2 ^ 224 ∧
    CheckProofOfWork (0xffff * 2 ^ 224) (GetCompact (UintToArith256 mainParams.powLimit))
      mainParams = true :=
  ⟨by decide, by decide, by decide,
   (warmup_target_valid mainParams (by decide)).2.2.2.2 (0xffff * 2 ^ 224) (by decide)⟩

/-- C26, what the code does: under the main parameters `CheckProofOfWork` accepts a hash
with the genesis bits `0x1f00ffff` exactly when the hash is at most `0xffff * 2^224`, the
target the bits decode to, while the loop of the genesis generator stops exactly when the
hash is at most `powLimit = 0xfffff * 2^220`, which is larger; on the hash equal to
`powLimit` the loop stops and `CheckProofOfWork` rejects. -/
theorem genesis_grind_validator (hash : Nat) :
    (CheckProofOfWork hash genesisBits mainParams = true
      ↔ UintToArith256 hash ≤ 0xffff * 2 ^ 224) ∧
    (genesisGrindContinues hash mainParams = false
      ↔ UintToArith256 hash ≤ 0xfffff * 2 ^ 220) ∧
    (0xffff * 2 ^ 224 < 0xfffff * 2 ^ 220) ∧
    genesisGrindContinues (0xfffff * 2 ^ 220) mainParams = false ∧
    CheckProofOfWork (0xfffff * 2 ^ 220) genesisBits mainParams = false := by
  have hd : SetCompact genesisBits
      = { T := 0xffff * 2 ^ 224, negative := false, overflow := false } := by decide
  have hp : UintToArith256 mainParams.powLimit = 0xfffff * 2 ^ 220 := by decide
  refine ⟨?_, ?_, by decide, by decide, by decide⟩
  · unfold CheckProofOfWork
    simp only [hd, hp]
    generalize UintToArith256 hash = h
    by_cases hh : h ≤ 0xffff * 2 ^ 224
    · simp [hh]
    · simp [hh]
  · unfold genesisGrindContinues
    rw [hp]
    simp

/-! ## Algorithm 6: the oscillation limiters -/

/-- The damped timespan of `testcase6` when the header 16 steps back from `last` exists:
it is at most `85*sp/4`, the limiters reduce to the lower one, and the limited value is the
`actual` of the formula of Algorithm 6. -/
theorem testcase6Damped_eval (last b16 : BlockIndex) (prev : CBlockIndex) (params : Params)
    (hs : 0 < params.nPowTargetSpacing) (hget : (last :: prev)[16]? = some b16) :
    ∃ d : Int, testcase6Damped (last :: prev) params = some d ∧
      0 ≤ d ∧ d ≤ 85 * params.nPowTargetSpacing / 4 ∧
      clampSeq d ((params.nPowTargetSpacing * 20 * 100).tdiv 105)
          ((params.nPowTargetSpacing * 20 * 110).tdiv 100)
        = max d ((params.nPowTargetSpacing * 20 * 100).tdiv 105) ∧
      superShieldActual last.nTime b16.nTime params.nPowTargetSpacing
        = max d ((params.nPowTargetSpacing * 20 * 100).tdiv 105) := by
  have hget1 : prev[15]? = some b16 := by simpa using hget
  have hdrop : prev.drop 15 = b16 :: prev.drop 16 := by
    have hlt : 15 < prev.length := by
      by_contra hcon
      rw [List.getElem?_eq_none (by omega)] at hget1
      cases hget1
    rw [List.getElem?_eq_getElem hlt] at hget1
    rw [List.drop_eq_getElem_cons hlt]
    congr 1
    exact Option.some.inj hget1
  cases prev with
  | nil => simp at hget1
  | cons lastPrev rest =>
    generalize hsp : params.nPowTargetSpacing = sp at *
    have e5 : (sp * 5).tdiv 2 = sp * 5 / 2 := Int.tdiv_eq_ediv (by omega) (by omega)
    have e20 : (sp * 20).tdiv 2 = sp * 20 / 2 := Int.tdiv_eq_ediv (by omega) (by omega)
    have e4 : (20 : Int).tdiv 5 = 4 := by decide
    have e105 : (sp * 20 * 100).tdiv 105 = sp * 20 * 100 / 105 :=
      Int.tdiv_eq_ediv (by omega) (by omega)
    have e100 : (sp * 20 * 110).tdiv 100 = sp * 20 * 110 / 100 :=
      Int.tdiv_eq_ediv (by omega) (by omega)
    have hshort : min (max (lastPrev.nTime - lastPrev.nTime) (sp * 5 / 2)) (sp * 5 * 2)
        = 5 * sp / 2 := by omega
    have hshortS : min (max 0 (5 * sp / 2)) (10 * sp) = 5 * sp / 2 := by omega
    have hlongS : min (max (last.nTime - b16.nTime) (10 * sp)) (40 * sp)
        = min (max (last.nTime - b16.nTime) (sp * 20 / 2)) (sp * 20 * 2) := by omega
    have hlong1 : min (max (last.nTime - b16.nTime) (sp * 20 / 2)) (sp * 20 * 2) ≤ 40 * sp := by
      omega
    generalize hlong : min (max (last.nTime - b16.nTime) (sp * 20 / 2)) (sp * 20 * 2) = long
      at hlongS hlong1
    have hlong0 : 0 ≤ long := by omega
    have hsh1 : 4 * (5 * sp / 2) ≤ 10 * sp := by omega
    generalize hsh : 5 * sp / 2 = sh at hshort hshortS hsh1
    have hsh0 : 0 ≤ sh := by omega
    have eavg : (sh * 4 + long).tdiv 2 = (sh * 4 + long) / 2 :=
      Int.tdiv_eq_ediv (by omega) (by omega)
    have havgS : (4 * sh + long) / 2 = (sh * 4 + long) / 2 := by omega
    have havg1 : (sh * 4 + long) / 2 ≤ 25 * sp := by omega
    generalize havg : (sh * 4 + long) / 2 = avg at eavg havgS havg1
    have havg0 : 0 ≤ avg := by omega
    have eact : (avg + 3 * (sp * 20)).tdiv 4 = (avg + 3 * (sp * 20)) / 4 :=
      Int.tdiv_eq_ediv (by omega) (by omega)
    have hdS : (avg + 60 * sp) / 4 = (avg + 3 * (sp * 20)) / 4 := by omega
    have hd1 : (avg + 3 * (sp * 20)) / 4 ≤ 85 * sp / 4 := by omega
    generalize hd : (avg + 3 * (sp * 20)) / 4 = dmp at eact hdS hd1
    have hd0 : 0 ≤ dmp := by omega
    have hloS : 2000 * sp / 105 = sp * 20 * 100 / 105 := by omega
    have hhiS : 2200 * sp / 100 = sp * 20 * 110 / 100 := by omega
    have hhi1 : 85 * sp / 4 ≤ sp * 20 * 110 / 100 := by omega
    have hlo1 : sp * 20 * 100 / 105 ≤ sp * 20 * 110 / 100 := by omega
    have hcl : min (max dmp (sp * 20 * 100 / 105)) (sp * 20 * 110 / 100)
        = max dmp (sp * 20 * 100 / 105) := by omega
    refine ⟨dmp, ?_, hd0, hd1, ?_, ?_⟩
    · unfold testcase6Damped
      simp only [shortWindow_eq, goBack, hdrop, hsp]
      simp only [show ((20 : Int) - 5).toNat = 15 from by decide, hdrop, e5, e20, e4,
        hshort, hlong, eavg, havg, eact]
    · rw [clampSeq_eq, e105, e100, hcl]
    · unfold superShieldActual
      simp only [hsh, hshortS, hlongS, havgS, hdS, hloS, hhiS, e105, hcl]

/-- C23: for a positive spacing `sp` (within the signed 64-bit range) and a chain in which
`last` has 16 predecessors, the timespan `testcase6` has computed after the damping is at
most `85*sp/4`, which is at most `nActualTimespanMax = sp*20*110/100`; the two limiters
therefore leave the larger of the damped value and `nActualTimespanMin`, and the returned
bits decode to at most `decode(last.bits) * (85*sp/4) / (20*sp)`, hence to at most 17/16 of
`decode(last.bits)`. The lower limiter is reached: on the chain of heights 20..0 with 150 s
between blocks under the main parameters the damped value 2737 is below
`nActualTimespanMin = 2857`. -/
theorem testcase6_upper_limiter_unreachable (last b16 : BlockIndex) (prev : CBlockIndex)
    (params : Params) (hs : 0 < params.nPowTargetSpacing)
    (hr : params.nPowTargetSpacing * 2200 < 2 ^ 63)
    (hget : (last :: prev)[16]? = some b16) :
    (∃ d : Int, testcase6Damped (last :: prev) params = some d ∧
      d ≤ 85 * params.nPowTargetSpacing / 4 ∧
      85 * params.nPowTargetSpacing / 4 ≤ (params.nPowTargetSpacing * 20 * 110).tdiv 100 ∧
      clampSeq d ((params.nPowTargetSpacing * 20 * 100).tdiv 105)
          ((params.nPowTargetSpacing * 20 * 110).tdiv 100)
        = max d ((params.nPowTargetSpacing * 20 * 100).tdiv 105) ∧
      ∃ v : Nat, testcase6 (last :: prev) params = .ok v ∧
        v = GetCompact (min
          (mul256 (SetCompact last.nBits).T
              (max d ((params.nPowTargetSpacing * 20 * 100).tdiv 105)).toNat
            / (20 * params.nPowTargetSpacing).toNat)
          (UintToArith256 params.powLimit)) ∧
        (SetCompact v).T ≤ (SetCompact last.nBits).T * (85 * params.nPowTargetSpacing / 4).toNat
          / (20 * params.nPowTargetSpacing).toNat ∧
        (SetCompact v).T * 16 ≤ (SetCompact last.nBits).T * 17) ∧
    (testcase6Damped (uniformChain 0x1e00ffff 0 150 20) mainParams = some 2737 ∧
      (mainParams.nPowTargetSpacing * 20 * 100).tdiv 105 = 2857 ∧
      clampSeq 2737 ((mainParams.nPowTargetSpacing * 20 * 100).tdiv 105)
        ((mainParams.nPowTargetSpacing * 20 * 110).tdiv 100) = 2857) := by
  refine ⟨?_, by decide, by decide, by decide⟩
  obtain ⟨d, hd, hd0, hd1, hcl, hact⟩ := testcase6Damped_eval last b16 prev params hs hget
  have hev := testcase6_eval last b16 prev params hs hr hget
  unfold superShieldSpec at hev
  rw [hact] at hev
  have hhi : 85 * params.nPowTargetSpacing / 4
      ≤ (params.nPowTargetSpacing * 20 * 110).tdiv 100 := by
    rw [Int.tdiv_eq_ediv (by omega) (by omega)]; omega
  have hlo : (params.nPowTargetSpacing * 20 * 100).tdiv 105
      ≤ 85 * params.nPowTargetSpacing / 4 := by
    rw [Int.tdiv_eq_ediv (by omega) (by omega)]; omega
  refine ⟨d, hd, hd1, hhi, hcl, _, hev, rfl, ?_⟩
  generalize (params.nPowTargetSpacing * 20 * 100).tdiv 105 = lo at *
  have hA : (max d lo).toNat ≤ (85 * params.nPowTargetSpacing / 4).toNat := by omega
  have h4E : 4 * (85 * params.nPowTargetSpacing / 4).toNat
      ≤ 85 * params.nPowTargetSpacing.toNat := by omega
  have hD : (20 * params.nPowTargetSpacing).toNat = 20 * params.nPowTargetSpacing.toNat := by
    omega
  have hn : 0 < params.nPowTargetSpacing.toNat := by omega
  generalize (max d lo).toNat = A at *
  generalize (85 * params.nPowTargetSpacing / 4).toNat = E at *
  rw [hD]
  generalize params.nPowTargetSpacing.toNat = n at *
  generalize (SetCompact last.nBits).T = T at *
  have hP := UintToArith256_lt params.powLimit
  generalize UintToArith256 params.powLimit = P at *
  have h1 : (SetCompact (GetCompact (min (mul256 T A / (20 * n)) P))).T
      ≤ min (mul256 T A / (20 * n)) P :=
    decode_encode_le _ (lt_of_le_of_lt (Nat.min_le_right _ _) hP)
  have h2 : mul256 T A / (20 * n) ≤ T * E / (20 * n) :=
    Nat.div_le_div_right (le_trans (sat256_le_self _) (Nat.mul_le_mul_left T hA))
  have h3 : (SetCompact (GetCompact (min (mul256 T A / (20 * n)) P))).T ≤ T * E / (20 * n) :=
    le_trans h1 (le_trans (Nat.min_le_left _ _) h2)
  refine ⟨h3, ?_⟩
  have h4 : T * E / (20 * n) * (20 * n) ≤ T * E := Nat.div_mul_le_self _ _
  have h5 : T * (4 * E) ≤ T * (85 * n) := Nat.mul_le_mul_left T h4E
  have h6 : T * E / (20 * n) * 16 ≤ T * 17 := by
    apply Nat.le_of_mul_le_mul_right _ (show 0 < 20 * n by omega)
    generalize T * E / (20 * n) = X at *
    nlinarith
  omega

/-- Instance of C23 under the main parameters: on the chain of heights 20..0 with 150 s
between blocks and bits `0x1e00ffff` (target `0xffff * 2^216`) `testcase6` returns
`0x1e00f3cb`, which decodes to `0xf3cb * 2^216`, below the target of `last`. -/
theorem testcase6_upper_limiter_unreachable_witness :
    (uniformChain 0x1e00ffff 0 150 20)[16]? = some ⟨4, 600, 0x1e00ffff⟩ ∧
    ∃ d : Int, testcase6Damped (uniformChain 0x1e00ffff 0 150 20) mainParams = some d ∧
      d ≤ 85 * mainParams.nPowTargetSpacing / 4 ∧
      ∃ v : Nat, testcase6 (uniformChain 0x1e00ffff 0 150 20) mainParams = .ok v ∧
        (SetCompact v).T * 16 ≤ (SetCompact 0x1e00ffff).T * 17 := by
  refine ⟨by decide, ?_⟩
  obtain ⟨⟨d, h1, h2, _, _, v, h3, _, _, h4⟩, _⟩ :=
    testcase6_upper_limiter_unreachable ⟨20, 0 + 150 * 20, 0x1e00ffff⟩ ⟨4, 600, 0x1e00ffff⟩
      (uniformChain 0x1e00ffff 0 150 19) mainParams (by decide) (by decide) (by decide)
  exact ⟨d, h1, h2, v, h3, h4⟩

/-! ## Algorithm 2 on a chain at the target block rate -/

/-- The running average of Algorithm 2 over equal targets is that target, as long as
`25 * T` fits in 256 bits. -/
theorem dgwAverage_const (chain : CBlockIndex) (T : Nat)
    (hT : ∀ k, 1 ≤ k → k ≤ 24 → dgwTarget chain k = T) (h25 : 25 * T < 2 ^ 256) :
    ∀ k, 1 ≤ k → k ≤ 24 → dgwAverage chain k = T
  | 0, h, _ => absurd h (by decide)
  | 1, _, _ => hT 1 (by decide) (by decide)
  | k + 2, _, hk => by
    have ih := dgwAverage_const chain T hT h25 (k + 1) (by omega) (by omega)
    have ht := hT (k + 2) (by omega) hk
    have hle : T * (k + 2) ≤ T * 24 := Nat.mul_le_mul_left T hk
    have hmul : mul256 T (k + 2) = T * (k + 2) := mul256_of_lt _ _ (by omega)
    have hadd : add256 (T * (k + 2)) T = T * (k + 2) + T := by
      unfold add256
      exact sat256_of_le _ (by unfold maxU256; omega)
    have he : T * (k + 2) + T = T * (k + 3) := by ring
    unfold dgwAverage
    rw [ih, ht, hmul, hadd, he]
    exact Nat.mul_div_cancel _ (by omega)

/-- C24: on a chain with `last.nHeight ≥ 24` whose last 24 headers all carry the bits of
`last`, decoding to `T ≤ powLimit`, and whose header `j` steps back is dated
`last.nTime - j * sp` (consecutive times differ by exactly the spacing `sp`), with no
min-difficulty exception and no 256-bit overflow, `testcase2` returns the compact encoding
of `⌊23*T/24⌋`: the running average is `T`, the measured timespan is `23 * sp`, and the
target timespan is `24 * sp`. -/
theorem testcase2_not_fixed_point (last : BlockIndex) (prev : CBlockIndex)
    (pblock : CBlockHeader) (params : Params) (hs : 0 < params.nPowTargetSpacing)
    (hr : params.nPowTargetSpacing * 72 < 2 ^ 63) (h24 : 24 ≤ last.nHeight)
    (hbits : ∀ j : Nat, j < 24 → ((last :: prev)[j]?).map BlockIndex.nBits = some last.nBits)
    (htime : ∀ j : Nat, j < 24 → ((last :: prev)[j]?).map BlockIndex.nTime
      = some (last.nTime - (j : Int) * params.nPowTargetSpacing))
    (hT : (SetCompact last.nBits).T ≤ UintToArith256 params.powLimit)
    (hx1 : ¬ (params.fPowAllowMinDifficultyBlocks = true ∧
      pblock.nTime > last.nTime + 2 * 60 * 60))
    (hx2 : ¬ (params.fPowAllowMinDifficultyBlocks = true ∧
      pblock.nTime > last.nTime + params.nPowTargetSpacing * 4))
    (hov1 : 25 * (SetCompact last.nBits).T < 2 ^ 256)
    (hov2 : (SetCompact last.nBits).T * (23 * params.nPowTargetSpacing).toNat < 2 ^ 256) :
    testcase2 (last :: prev) pblock params
      = .ok (GetCompact (23 * (SetCompact last.nBits).T / 24)) ∧
    dgwAverage (last :: prev) 24 = (SetCompact last.nBits).T ∧
    ∃ p24 : BlockIndex, (last :: prev)[23]? = some p24 ∧
      last.nTime - p24.nTime = 23 * params.nPowTargetSpacing := by
  have hb23 := hbits 23 (by decide)
  have ht23 := htime 23 (by decide)
  have hex : ∃ p24 : BlockIndex, (last :: prev)[23]? = some p24 := by
    cases h : (last :: prev)[23]? with
    | none => rw [h] at hb23; cases hb23
    | some p => exact ⟨p, rfl⟩
  obtain ⟨p24, hget⟩ := hex
  rw [hget] at ht23
  have htm : p24.nTime = last.nTime - 23 * params.nPowTargetSpacing := by
    simpa using ht23
  have havg : dgwAverage (last :: prev) 24 = (SetCompact last.nBits).T := by
    apply dgwAverage_const (last :: prev) _ _ hov1 24 (by decide) (by decide)
    intro k hk1 hk2
    have hb := hbits (k - 1) (by omega)
    unfold dgwTarget
    cases hk : (last :: prev)[k - 1]? with
    | none => rw [hk] at hb; cases hb
    | some b =>
      rw [hk] at hb
      have : b.nBits = last.nBits := by simpa using hb
      simp only [this]
  have hev := testcase2_eval last p24 prev pblock params hs hr h24 hget hx1 hx2
  refine ⟨?_, havg, p24, hget, by omega⟩
  rw [hev, havg]
  have ha : min (max (last.nTime - p24.nTime) (24 * params.nPowTargetSpacing / 3))
      (3 * 24 * params.nPowTargetSpacing) = 23 * params.nPowTargetSpacing := by omega
  rw [ha, mul256_of_lt _ _ hov2]
  have e23 : (23 * params.nPowTargetSpacing).toNat = 23 * params.nPowTargetSpacing.toNat := by
    omega
  have e24 : (24 * params.nPowTargetSpacing).toNat = 24 * params.nPowTargetSpacing.toNat := by
    omega
  have hn : 0 < params.nPowTargetSpacing.toNat := by omega
  rw [e23, e24]
  generalize (SetCompact last.nBits).T = T at *
  generalize params.nPowTargetSpacing.toNat = n at *
  have hq : T * (23 * n) / (24 * n) = 23 * T / 24 := by
    rw [show T * (23 * n) = 23 * T * n by ring, Nat.mul_div_mul_right _ _ hn]
  rw [hq, Nat.min_eq_left (by omega)]

/-- Instance of C24 under the main parameters: height 30, all bits `0x1e00ffff`, 150 s
between blocks; the target `0xffff * 2^216` becomes `0xf554 * 2^216` (bits `0x1e00f554`). -/
theorem testcase2_not_fixed_point_witness :
    testcase2 (uniformChain 0x1e00ffff 0 150 30) { nTime := 4650 } mainParams
      = .ok (GetCompact (23 * (SetCompact 0x1e00ffff).T / 24)) ∧
    GetCompact (23 * (SetCompact 0x1e00ffff).T / 24) = 0x1e00f554 ∧
    0x1e00f554 ≠ 0x1e00ffff :=
  ⟨(testcase2_not_fixed_point ⟨30, 0 + 150 * 30, 0x1e00ffff⟩
      (uniformChain 0x1e00ffff 0 150 29) { nTime := 4650 } mainParams (by decide) (by decide)
      (by decide) (by decide) (by decide) (by decide) (by decide) (by decide) (by decide)
      (by decide)).1, by decide, by decide⟩

end LiteBench
